import Mathlib

/-!
# PMVS patch optimizer: a shallow embedding of `base/pmvs/optim.cc`

Numbers of the program (`float`, `double`) are modelled by an ordered field `K`
with exact arithmetic; rounding is not modelled.  A value that the program can
obtain as `0.0 / 0` is modelled by `none` of `Option K` (NaN).  The functions of
`<math.h>` are parameters (`CMath`).  Collaborators that live outside
`optim.cc` (photo set, patch organizer, filter) are fields of `CfindMatch`.
-/

namespace PMVS3

/-! ## Numbers and vectors -/

/-- The functions of the C math library used by the optimizer -/
structure CMath (K : Type) where
  sqrt : K → K
  sin : K → K
  cos : K → K
  asin : K → K
  acos : K → K

/-- A computed float: `some q` is the number `q`, `none` is NaN -/
abbrev Fval (K : Type) := Option K

section
variable {K : Type} [LinearOrderedField K]

/-- Float comparison `a < b`; every comparison with NaN is false -/
def Fval.lt (a b : Fval K) : Bool :=
  match a, b with
  | some x, some y => decide (x < y)
  | _, _ => false

/-- Float addition, NaN propagates -/
def Fval.add (a b : Fval K) : Fval K :=
  match a, b with
  | some x, some y => some (x + y)
  | _, _ => none

/-- Float division by an integer count: `0.0 / 0` is NaN.  (A non-zero number over zero
is infinite in the program; it is also mapped to `none` here.) -/
def Fval.divCount (a : Fval K) (n : Int) : Fval K :=
  match a with
  | some x => if n = 0 then none else some (x / (n : K))
  | none => none

/-- Three-vector `Vec3f` -/
structure Vec3f (K : Type) where
  x : K
  y : K
  z : K

/-- Four-vector `Vec4f` (homogeneous coordinates) -/
structure Vec4f (K : Type) where
  x : K
  y : K
  z : K
  w : K

/-- Inner product of two `Vec3f` (`operator*`) -/
def Vec3f.dot (a b : Vec3f K) : K := a.x * b.x + a.y * b.y + a.z * b.z

/-- Inner product of two `Vec4f` (`operator*`) -/
def Vec4f.dot (a b : Vec4f K) : K := a.x * b.x + a.y * b.y + a.z * b.z + a.w * b.w

/-- Difference of two `Vec4f` -/
def Vec4f.sub (a b : Vec4f K) : Vec4f K := ⟨a.x - b.x, a.y - b.y, a.z - b.z, a.w - b.w⟩

/-- Sum of two `Vec4f` -/
def Vec4f.add (a b : Vec4f K) : Vec4f K := ⟨a.x + b.x, a.y + b.y, a.z + b.z, a.w + b.w⟩

/-- Scaling of a `Vec4f` -/
def Vec4f.smul (c : K) (a : Vec4f K) : Vec4f K := ⟨c * a.x, c * a.y, c * a.z, c * a.w⟩

/-- Difference of two `Vec3f` -/
def Vec3f.sub (a b : Vec3f K) : Vec3f K := ⟨a.x - b.x, a.y - b.y, a.z - b.z⟩

/-- Sum of two `Vec3f` -/
def Vec3f.add (a b : Vec3f K) : Vec3f K := ⟨a.x + b.x, a.y + b.y, a.z + b.z⟩

/-- Scaling of a `Vec3f` -/
def Vec3f.smul (c : K) (a : Vec3f K) : Vec3f K := ⟨c * a.x, c * a.y, c * a.z⟩

/-- Cross product of two `Vec3f` -/
def cross (a b : Vec3f K) : Vec3f K :=
  ⟨a.y * b.z - a.z * b.y, a.z * b.x - a.x * b.z, a.x * b.y - a.y * b.x⟩

/-- Modelled from the spec: `norm` of the missing header `numeric/vec4.h`, the Euclidean
length of a four-vector. -/
def norm (m : CMath K) (a : Vec4f K) : K := m.sqrt (Vec4f.dot a a)

/-- Modelled from the spec: `norm` of the missing header `numeric/vec3.h`, the Euclidean
length of a three-vector. -/
def norm3 (m : CMath K) (a : Vec3f K) : K := m.sqrt (Vec3f.dot a a)

/-- Modelled from the spec: `unitize` of the missing header `numeric/vec4.h`; the spec
writes `unit(v)`, the vector divided by its length. -/
def unitize (m : CMath K) (a : Vec4f K) : Vec4f K := Vec4f.smul (1 / norm m a) a

/-- Modelled from the spec: `unitize` of the missing header `numeric/vec3.h`; the spec
writes `unit(v)`, the vector divided by its length. -/
def unitize3 (m : CMath K) (a : Vec3f K) : Vec3f K := Vec3f.smul (1 / norm3 m a) a

end

/-! ## Patches and the collaborators of the optimizer -/

/-- The fields of `Patch::Cpatch` that the optimizer reads or writes -/
structure Cpatch (K : Type) where
  m_coord : Vec4f K
  m_normal : Vec4f K
  m_ncc : Fval K
  m_dscale : K
  m_ascale : K
  m_images : List Int
  m_vimages : List Int
  m_timages : Int
  m_tmp : K

/-- What the optimizer reaches through `m_fm`: the options, the photo set `m_pss`,
the patch organizer `m_pos` and the filter `m_filter`.  None of it is defined in
`optim.cc`, so each member function is a field. -/
structure CfindMatch (K : Type) where
  m_num : Int
  m_tnum : Int
  m_tau : Int
  m_level : Nat
  m_depth : Int
  m_wsize : Int
  m_sequenceThreshold : Int
  m_minImageNumThreshold : Int
  m_angleThreshold0 : K
  m_angleThreshold1 : K
  m_maxAngleThreshold : K
  m_nccThreshold : K
  m_nccThresholdBefore : K
  m_visdata2 : Int → List Int
  /-- The field `m_pss.m_photos[i].m_center` -/
  m_center : Int → Vec4f K
  /-- The field `m_pss.m_photos[i].m_oaxis` -/
  m_oaxis : Int → Vec4f K
  /-- The field `m_pss.m_distances[i][j]` -/
  m_distances : Int → Int → K
  /-- The row `m_pss.m_photos[i].m_projection[level][row]` of a projection matrix -/
  m_projection : Int → Nat → Nat → Vec4f K
  /-- The call `m_pss.project(index, coord, level)` -/
  project : Int → Vec4f K → Nat → Vec3f K
  getWidth : Int → Nat → Int
  getHeight : Int → Nat → Int
  getMask : Vec4f K → Nat → Int
  getEdge : Vec4f K → Int → Nat → Int
  checkAngles : Vec4f K → List Int → K → K → Int → Int
  insideBimages : Vec4f K → Int
  /-- The call `m_pos.setScales(patch)`: the new `m_dscale` and `m_ascale` -/
  setScales : Cpatch K → K × K
  /-- The call `m_pos.setVImagesVGrids(patch)`: the new `m_vimages` -/
  setVImagesVGrids : Cpatch K → List Int
  /-- The call `patch.score2(threshold)` -/
  score2 : Cpatch K → K → K
  /-- The call `m_filter.computeGain(patch, 1)` -/
  computeGain : Cpatch K → K
  /-- The number of neighbours that `m_pos.findNeighbors(patch, neighbors, 1, 4, 2)` yields -/
  findNeighbors : Cpatch K → Nat
  /-- The call `m_filter.filterQuad(patch, neighbors)` -/
  filterQuad : Cpatch K → Int

/-- The state of `Coptim` that outlives a call: the image-axis cache, and the sampling
of one window, `grabTex(coord, pxaxis, pyaxis, pzaxis, index, size, tex)`, which is
`none` when `grabTex` returns 1 (the buffer is then empty) and `some tex` when it
returns 0. -/
structure Coptim (K : Type) where
  m_fm : CfindMatch K
  math : CMath K
  m_xaxes : Int → Vec3f K
  m_yaxes : Int → Vec3f K
  m_zaxes : Int → Vec3f K
  m_ipscales : Int → K
  grabTex : Vec4f K → Vec4f K → Vec4f K → Vec4f K → Int → Int → Option (List K)

section
variable {K : Type} [LinearOrderedField K]

/-! ## Textures -/

/-- Sum of channel `c` over the first `size3` pixels of a texture -/
def channelSum (tex : List K) (size3 c : Nat) : K :=
  ((List.range size3).map (fun i => tex.getD (3 * i + c) 0)).sum

/-- The single-texture `Coptim::normalize(std::vector<float>& tex)`, with the float
operations taken as exact operations of `K` and the square root of the math library;
`F32.normalize` is the same routine with every operation rounded to binary32 -/
def normalize (m : CMath K) (tex : List K) : List K :=
  let size := tex.length
  let size3 := size / 3
  let ave0 := channelSum tex size3 0 / (size3 : K)
  let ave1 := channelSum tex size3 1 / (size3 : K)
  let ave2c := channelSum tex size3 2 / (size3 : K)
  let acc := ((List.range size3).map (fun i =>
    (ave0 - tex.getD (3 * i) 0) * (ave0 - tex.getD (3 * i) 0)
      + (ave1 - tex.getD (3 * i + 1) 0) * (ave1 - tex.getD (3 * i + 1) 0)
      + (ave2c - tex.getD (3 * i + 2) 0) * (ave2c - tex.getD (3 * i + 2) 0))).sum
  let ave2 := m.sqrt (acc / (size : K))
  let ave2 := if ave2 = 0 then 1 else ave2
  (List.range size).map (fun k =>
    if k < 3 * size3 then
      (tex.getD k 0 - (if k % 3 = 0 then ave0 else if k % 3 = 1 then ave1 else ave2c)) / ave2
    else tex.getD k 0)

/-- The function `Coptim::dot` (the branch without `PMVS_WNCC`): the loop runs over the
length of `tex0`, and the sum is divided by that length, so an empty `tex0` gives
`0.0f / 0`, NaN.  The sum and the division are exact operations of `K`; `F32.dot` is the
same function with every operation rounded to binary32. -/
def dot (tex0 tex1 : List K) : Fval K :=
  let size := tex0.length
  let ans := (List.range size).foldl (fun ans i => ans + tex0.getD i 0 * tex1.getD i 0) 0
  if size = 0 then none else some (ans / (size : K))

/-- Modelled from the spec: `robustincc` of the missing header `optim.h`,
`robust(x) = x / (1 + 3x)`. -/
def robustincc (x : K) : K := x / (1 + 3 * x)

/-- Modelled from the spec: `unrobustincc` of the missing header `optim.h`,
the inverse `x = score / (1 − 3·score)`. -/
def unrobustincc (x : K) : K := x / (1 - 3 * x)

/-- The function `Coptim::getUnit` -/
def getUnit (o : Coptim K) (index : Int) (coord : Vec4f K) : K :=
  let fz := norm o.math (Vec4f.sub coord (o.m_fm.m_center index))
  let ftmp := o.m_ipscales index
  if ftmp = 0 then 1 else 2 * fz * ((2 ^ o.m_fm.m_level : Nat) : K) / ftmp

/-- Embedding of a `Vec3f` as a `Vec4f` with last component 0 -/
def Vec3f.toVec4 (a : Vec3f K) : Vec4f K := ⟨a.x, a.y, a.z, 0⟩

/-- The function `Coptim::getPAxes`: the pair `(pxaxis, pyaxis)` -/
def getPAxes (o : Coptim K) (index : Int) (coord normal : Vec4f K) : Vec4f K × Vec4f K :=
  let pscale := getUnit o index coord
  let normal3 : Vec3f K := ⟨normal.x, normal.y, normal.z⟩
  let yaxis3 := unitize3 o.math (cross normal3 (o.m_xaxes index))
  let xaxis3 := cross yaxis3 normal3
  let pxaxis := Vec4f.smul pscale xaxis3.toVec4
  let pyaxis := Vec4f.smul pscale yaxis3.toVec4
  let xdis := norm3 o.math (Vec3f.sub (o.m_fm.project index (Vec4f.add coord pxaxis) o.m_fm.m_level)
    (o.m_fm.project index coord o.m_fm.m_level))
  let ydis := norm3 o.math (Vec3f.sub (o.m_fm.project index (Vec4f.add coord pyaxis) o.m_fm.m_level)
    (o.m_fm.project index coord o.m_fm.m_level))
  (Vec4f.smul (1 / xdis) pxaxis, Vec4f.smul (1 / ydis) pyaxis)

/-- The content of `texs[i]` after `grabTex` and, when it returned 0, `normalize` -/
def grabNormalized (o : Coptim K) (coord pxaxis pyaxis pzaxis : Vec4f K) (index : Int) : List K :=
  match o.grabTex coord pxaxis pyaxis pzaxis index o.m_fm.m_wsize with
  | none => []
  | some tex => normalize o.math tex

/-- The first loop of both `setINCCs`: the buffers `texs[0 .. size)` for the images
`indexes`, sampled with the patch axes of `indexes[0]` -/
def sampleTexs (o : Coptim K) (patch : Cpatch K) (indexes : List Int) : List (List K) :=
  let index := indexes.getD 0 0
  let axes := getPAxes o index patch.m_coord patch.m_normal
  indexes.map (fun i => grabNormalized o patch.m_coord axes.1 axes.2 patch.m_normal i)

/-- One entry `1 - dot(a, b)` or `robustincc(1 - dot(a, b))` -/
def inccOf (robust : Int) (a b : List K) : Fval K :=
  if robust = 0 then (dot a b).map (fun d => 1 - d)
  else (dot a b).map (fun d => robustincc (1 - d))

/-- The vector overload of `Coptim::setINCCs`, on given buffers `texs` -/
def inccsOfTexs (texs : List (List K)) (size : Nat) (robust : Int) : List (Fval K) :=
  if (texs.getD 0 []).isEmpty then List.replicate size (some 2)
  else (List.range size).map (fun i =>
    if i = 0 then some 0
    else if !(texs.getD i []).isEmpty then inccOf robust (texs.getD 0 []) (texs.getD i [])
    else some 2)

/-- The vector overload of `Coptim::setINCCs` (it is only called with `indexes` non-empty) -/
def setINCCs (o : Coptim K) (patch : Cpatch K) (indexes : List Int) (robust : Int) : List (Fval K) :=
  inccsOfTexs (sampleTexs o patch indexes) indexes.length robust

/-- The function `Coptim::constraintImages`: the new `m_images`, or `none` when the
list is empty on entry (the code then reads `m_images[0]` of an empty vector) -/
def constraintImages (o : Coptim K) (patch : Cpatch K) (nccThreshold : K) : Option (List Int) :=
  if patch.m_images = [] then none
  else
    let inccs := setINCCs o patch patch.m_images 0
    some ((List.range' 1 (patch.m_images.length - 1)).foldl
      (fun newimages i =>
        if Fval.lt (inccs.getD i none) (some (1 - nccThreshold))
        then newimages ++ [patch.m_images.getD i 0] else newimages)
      [patch.m_images.getD 0 0])


/-- The matrix overload of `Coptim::setINCCs`, on given buffers `texs`: entry `(i, j)` -/
def inccEntry (texs : List (List K)) (robust : Int) (i j : Nat) : Fval K :=
  if i = j then some 0
  else
    let a := texs.getD (min i j) []
    let b := texs.getD (max i j) []
    if !a.isEmpty && !b.isEmpty then inccOf robust a b else some 2

/-- The matrix overload of `Coptim::setINCCs`, on given buffers `texs` -/
def inccsMatOfTexs (texs : List (List K)) (size : Nat) (robust : Int) : List (List (Fval K)) :=
  (List.range size).map (fun i => (List.range size).map (fun j => inccEntry texs robust i j))

/-- The matrix overload of `Coptim::setINCCs` (it is only called with `indexes` non-empty) -/
def setINCCsMat (o : Coptim K) (patch : Cpatch K) (indexes : List Int) (robust : Int) :
    List (List (Fval K)) :=
  inccsMatOfTexs (sampleTexs o patch indexes) indexes.length robust

/-- The call `std::accumulate(row.begin(), row.end(), 0.0f)` -/
def accumulate (row : List (Fval K)) : Fval K := row.foldl Fval.add (some 0)

/-- The value of `INT_MAX/2` once stored in a `float`: 1073741823 rounds to 2^30 -/
def INT_MAX_HALF : K := 1073741824

/-- The search loop of `Coptim::setRefImage`: the pair `(refindex, refncc)` -/
def refSearch (inccs : List (List (Fval K))) (size : Nat) : Int × Fval K :=
  (List.range size).foldl
    (fun st i =>
      let sum := accumulate (inccs.getD i [])
      if Fval.lt sum st.2 then ((i : Int), sum) else st)
    ((-1 : Int), some INT_MAX_HALF)

/-- The swap loop of `Coptim::setRefImage`: the first position holding `refIndex`
is exchanged with position 0 -/
def swapToFront (images : List Int) (refIndex : Int) : List Int :=
  let i := images.indexOf refIndex
  if i < images.length then (images.set 0 refIndex).set i (images.getD 0 0) else images

/-- The function `Coptim::setRefImage`: the new `m_images`, or `none` when no row sum is
below `INT_MAX/2` (the code then reads `indexes[-1]`) -/
def setRefImage (o : Coptim K) (patch : Cpatch K) : Option (List Int) :=
  let indexes := patch.m_images.filter (fun i => decide (i < o.m_fm.m_tnum))
  if indexes = [] then some []
  else
    let inccs := setINCCsMat o patch indexes 1
    let refindex := (refSearch inccs indexes.length).1
    if refindex < 0 then none
    else some (swapToFront patch.m_images (indexes.getD refindex.toNat 0))

/-- The quantity `ray * patch.m_normal` for the unit ray from the patch to camera `index` -/
def rayDotNormal (o : Coptim K) (coord normal : Vec4f K) (index : Int) : K :=
  Vec4f.dot (unitize o.math (Vec4f.sub (o.m_fm.m_center index) coord)) normal

/-- The loop of `Coptim::filterImagesByAngle`; `first` says whether the iterator is at
`m_images.begin()` -/
def filterImagesByAngleLoop (o : Coptim K) (patch : Cpatch K) :
    List Int → Bool → List Int → List Int
  | [], _, newindexes => newindexes
  | index :: rest, first, newindexes =>
    if rayDotNormal o patch.m_coord patch.m_normal index < o.math.cos o.m_fm.m_angleThreshold1 then
      if first then [] else filterImagesByAngleLoop o patch rest false newindexes
    else filterImagesByAngleLoop o patch rest false (newindexes ++ [index])

/-- The function `Coptim::filterImagesByAngle`: the new `m_images` -/
def filterImagesByAngle (o : Coptim K) (patch : Cpatch K) : List Int :=
  filterImagesByAngleLoop o patch patch.m_images true []

/-- The tests of one candidate in `Coptim::addImages`, after the `used` test: inside the
image, on an edge, and within `angleThreshold0` -/
def addImagesAccepts (o : Coptim K) (patch : Cpatch K) (b : Int) : Bool :=
  let icoord := o.m_fm.project b patch.m_coord o.m_fm.m_level
  if icoord.x < 0 ∨ ((o.m_fm.getWidth b o.m_fm.m_level - 1 : Int) : K) ≤ icoord.x ∨
      icoord.y < 0 ∨ ((o.m_fm.getHeight b o.m_fm.m_level - 1 : Int) : K) ≤ icoord.y then false
  else if o.m_fm.getEdge patch.m_coord b o.m_fm.m_level = 0 then false
  else decide (o.math.cos o.m_fm.m_angleThreshold0 ≤ rayDotNormal o patch.m_coord patch.m_normal b)

/-- The function `Coptim::addImages`: the new `m_images`, or `none` when the list is empty
on entry (the code then reads `m_images[0]`).  The array `used` marks the images of the
list on entry and is not written afterwards, so `used[b]` is membership in that list. -/
def addImages (o : Coptim K) (patch : Cpatch K) : Option (List Int) :=
  if patch.m_images = [] then none
  else
    some ((o.m_fm.m_visdata2 (patch.m_images.getD 0 0)).foldl
      (fun images b =>
        if decide (b ∈ patch.m_images) then images
        else if addImagesAccepts o patch b then images ++ [b] else images)
      patch.m_images)

/-- A double approximating π: the constant `M_PI` of `<math.h>` -/
def M_PI : K := 884279719003555 / 281474976710656

/-- The four-argument `Coptim::computeUnits`: the parallel vectors `indexes`, `units` and
`rays` as one list of triples -/
def computeUnits (o : Coptim K) (patch : Cpatch K) : List (Int × K × Vec4f K) :=
  patch.m_images.filterMap (fun b =>
    let ray := unitize o.math (Vec4f.sub (o.m_fm.m_center b) patch.m_coord)
    let d := Vec4f.dot ray patch.m_normal
    if d ≤ 0 then none
    else some (b, getUnit o b patch.m_coord / d, ray))

/-- The call `min_element(units.begin(), units.end()) - units.begin()`: the first position
of a smallest entry -/
def minElement (units : List K) : Nat :=
  (List.range units.length).foldl
    (fun best j => if units.getD j 0 < units.getD best 0 then j else best) 0

/-- The body of the `while (!indexes.empty())` loop of `Coptim::sortImages` (branch
`newm == 1`), run at most `fuel` times -/
def sortImagesLoop (threshold : K) :
    Nat → List (Int × K × Vec4f K) → List Int → List Int
  | 0, _, images => images
  | fuel + 1, cands, images =>
    if cands.isEmpty then images
    else
      let index := minElement (cands.map (fun c => c.2.1))
      let picked := cands.getD index (0, 0, ⟨0, 0, 0, 0⟩)
      let cands2 := (cands.enum.filter (fun jc => decide (jc.1 ≠ index))).map (fun jc =>
        let ftmp := min threshold (max (threshold / 2) (1 - Vec4f.dot picked.2.2 jc.2.2.2))
        (jc.2.1, jc.2.2.1 * (threshold / ftmp), jc.2.2.2))
      sortImagesLoop threshold fuel cands2 (images ++ [picked.1])

/-- The function `Coptim::sortImages` (branch `newm == 1`): the new `m_images`.  Each
round removes one candidate, so `cands.length` rounds empty the list. -/
def sortImages (o : Coptim K) (patch : Cpatch K) : List Int :=
  let threshold : K := 1 - o.math.cos (10 * M_PI / 180)
  let cands := computeUnits o patch
  if cands.length < 2 then []
  else
    let cands0 := cands.enum.map (fun jc => if jc.1 = 0 then (jc.2.1, (0 : K), jc.2.2.2) else jc.2)
    sortImagesLoop threshold cands0.length cands0 []

/-- The function `Coptim::check`: the status and the patch on return -/
def check (o : Coptim K) (patch : Cpatch K) : Int × Cpatch K :=
  let gain := o.m_fm.computeGain patch
  let patch := { patch with m_tmp := gain }
  if gain < 0 then (1, { patch with m_images := [] })
  else if 6 < (o.m_fm.findNeighbors patch : Int) ∧ o.m_fm.filterQuad patch ≠ 0 then
    (1, { patch with m_images := [] })
  else (0, patch)

/-- The function `Coptim::preProcess`: the status and the patch on return, or `none` when
a step reads element 0 of an empty list -/
def preProcess (o : Coptim K) (patch : Cpatch K) : Option (Int × Cpatch K) :=
  (addImages o patch).bind (fun images1 =>
  let patch := { patch with m_images := images1 }
  (constraintImages o patch o.m_fm.m_nccThresholdBefore).bind (fun images2 =>
  let patch := { patch with m_images := images2 }
  let patch := { patch with m_images := sortImages o patch }
  let patch :=
    if 0 < (patch.m_images.length : Int) then
      { patch with m_dscale := (o.m_fm.setScales patch).1, m_ascale := (o.m_fm.setScales patch).2 }
    else patch
  if (patch.m_images.length : Int) < o.m_fm.m_minImageNumThreshold then some (1, patch)
  else
    let flag := o.m_fm.checkAngles patch.m_coord patch.m_images o.m_fm.m_maxAngleThreshold
      o.m_fm.m_angleThreshold1 o.m_fm.m_minImageNumThreshold
    if flag ≠ 0 then some (1, { patch with m_images := [] })
    else some (0, patch)))

/-- The counting loop of `Coptim::postProcess` that sets `m_timages` -/
def countTimages (tnum : Int) (images : List Int) : Int :=
  images.foldl (fun t i => if i < tnum then t + 1 else t) 0

/-- The tail of `Coptim::postProcess`, from `Set m_timages` on -/
def postProcessTail (o : Coptim K) (patch : Cpatch K) : Int × Cpatch K :=
  let patch := { patch with m_timages := countTimages o.m_fm.m_tnum patch.m_images }
  let patch := { patch with m_tmp := o.m_fm.score2 patch o.m_fm.m_nccThreshold }
  if o.m_fm.m_depth ≠ 0 then
    let patch := { patch with m_vimages := o.m_fm.setVImagesVGrids patch }
    if 2 ≤ o.m_fm.m_depth then
      let r := check o patch
      if r.1 ≠ 0 then (1, r.2) else (0, r.2)
    else (0, patch)
  else (0, patch)

/-- The function `Coptim::postProcess`: the status and the patch on return, or `none` when
a step reads element 0 of an empty list or `indexes[-1]`.  The calls `m_pos.setGrids(patch)`
write grid fields that are not part of `Cpatch` here. -/
def postProcess (o : Coptim K) (patch : Cpatch K) : Option (Int × Cpatch K) :=
  if (patch.m_images.length : Int) < o.m_fm.m_minImageNumThreshold then some (1, patch)
  else if o.m_fm.getMask patch.m_coord o.m_fm.m_level = 0 ∨ o.m_fm.insideBimages patch.m_coord = 0 then
    some (1, patch)
  else
    (addImages o patch).bind (fun images1 =>
    let patch := { patch with m_images := images1 }
    (constraintImages o patch o.m_fm.m_nccThreshold).bind (fun images2 =>
    let patch := { patch with m_images := images2 }
    let patch := { patch with m_images := filterImagesByAngle o patch }
    if (patch.m_images.length : Int) < o.m_fm.m_minImageNumThreshold then some (1, patch)
    else
      (setRefImage o patch).bind (fun images3 =>
      let patch := { patch with m_images := images3 }
      (constraintImages o patch o.m_fm.m_nccThreshold).bind (fun images4 =>
      let patch := { patch with m_images := images4 }
      if (patch.m_images.length : Int) < o.m_fm.m_minImageNumThreshold then some (1, patch)
      else some (postProcessTail o patch)))))

/-- The target-range images of a patch, the list `indexes` of `Coptim::setRefImage` -/
def targetImages (o : Coptim K) (patch : Cpatch K) : List Int :=
  patch.m_images.filter (fun i => decide (i < o.m_fm.m_tnum))

/-- The sum of row `i` of the matrix that `setINCCs` builds for the target-range images
of a patch; `setRefImage` calls it with `robust = 1` -/
def refRowSum (o : Coptim K) (patch : Cpatch K) (robust : Int) (i : Nat) : Fval K :=
  accumulate ((setINCCsMat o patch (targetImages o patch) robust).getD i [])

/-! ## Example scenes

Concrete photo sets and patches over `ℚ`, used to run the definitions. -/

/-- A math library over `ℚ` for the example scenes: the square root is exact at 0 and 1,
the only arguments the scenes give it; sine and cosine are their Taylor polynomials -/
def sceneMath : CMath ℚ where
  sqrt := fun x => x
  sin := fun x => x - x * x * x / 6
  cos := fun x => 1 - x * x / 2
  asin := fun x => x
  acos := fun x => 1 - x

/-- A photo set whose cameras all sit at `(0, 0, 1)`, looking at a patch at the origin;
every image is 100 by 100 and the patch projects to `(50, 50)` -/
def sceneFm (tnum minImageNum depth : Int) (visdata2 : Int → List Int) : CfindMatch ℚ where
  m_num := 8
  m_tnum := tnum
  m_tau := 8
  m_level := 0
  m_depth := depth
  m_wsize := 2
  m_sequenceThreshold := -1
  m_minImageNumThreshold := minImageNum
  m_angleThreshold0 := 1
  m_angleThreshold1 := 1
  m_maxAngleThreshold := 1
  m_nccThreshold := 1 / 2
  m_nccThresholdBefore := 1 / 2
  m_visdata2 := visdata2
  m_center := fun _ => ⟨0, 0, 1, 1⟩
  m_oaxis := fun _ => ⟨0, 0, -1, 0⟩
  m_distances := fun _ _ => 1
  m_projection := fun _ _ row => if row = 0 then ⟨1, 0, 0, 0⟩ else ⟨0, 1, 0, 0⟩
  project := fun _ _ _ => ⟨50, 50, 1⟩
  getWidth := fun _ _ => 100
  getHeight := fun _ _ => 100
  getMask := fun _ _ => 1
  getEdge := fun _ _ _ => 1
  checkAngles := fun _ _ _ _ _ => 0
  insideBimages := fun _ => 1
  setScales := fun _ => (1, 1)
  setVImagesVGrids := fun p => p.m_images
  score2 := fun _ _ => 0
  computeGain := fun _ => 1
  findNeighbors := fun _ => 0
  filterQuad := fun _ => 0

/-- An optimizer over `sceneFm` whose windows are given per image by `tex` -/
def sceneOptim (fm : CfindMatch ℚ) (tex : Int → Option (List ℚ)) : Coptim ℚ where
  m_fm := fm
  math := sceneMath
  m_xaxes := fun _ => ⟨1, 0, 0⟩
  m_yaxes := fun _ => ⟨0, 1, 0⟩
  m_zaxes := fun _ => ⟨0, 0, -1⟩
  m_ipscales := fun _ => 1
  grabTex := fun _ _ _ _ index _ => tex index

/-- A patch at the origin facing the cameras of `sceneFm` -/
def scenePatch (images : List Int) : Cpatch ℚ where
  m_coord := ⟨0, 0, 0, 1⟩
  m_normal := ⟨0, 0, 1, 0⟩
  m_ncc := some 0
  m_dscale := 1
  m_ascale := 1
  m_images := images
  m_vimages := []
  m_timages := 0
  m_tmp := 0

/-- Grey 2 by 2 windows with pixel values ±1 (already of mean 0 and variance 1): images
0 and 2 see `(1, 1, -1, -1)`, image 1 sees `(1, -1, 1, -1)`, images 3 and 4 see the
negative `(-1, -1, 1, 1)` -/
def greyTex (index : Int) : Option (List ℚ) :=
  if index = 1 then some [1, 1, 1, -1, -1, -1, 1, 1, 1, -1, -1, -1]
  else if index = 3 ∨ index = 4 then some [-1, -1, -1, -1, -1, -1, 1, 1, 1, 1, 1, 1]
  else some [1, 1, 1, 1, 1, 1, -1, -1, -1, -1, -1, -1]

/-- Five target images with the windows `greyTex` -/
def greyOptim : Coptim ℚ := sceneOptim (sceneFm 5 2 0 (fun _ => [])) greyTex

/-- The test that `filterImagesByAngle` keeps an image on: `ray · normal ≥ cos(angleThreshold1)`,
written as the code does, `!(ray * normal < cos(angleThreshold1))` -/
def passesAngle (o : Coptim K) (patch : Cpatch K) (index : Int) : Bool :=
  !decide (rayDotNormal o patch.m_coord patch.m_normal index < o.math.cos o.m_fm.m_angleThreshold1)

/-- The grey scene with a covisibility list that names image 1 twice -/
def repeatOptim : Coptim ℚ := sceneOptim (sceneFm 5 2 0 (fun _ => [1, 1])) greyTex

/-- The grey scene with `minImageNumThreshold = 3` -/
def strictOptim : Coptim ℚ := sceneOptim (sceneFm 5 3 0 (fun _ => [])) greyTex

/-! ## Refinement -/

/-- The per-worker scratch of one worker `id`: `m_centersT[id]`, `m_raysT[id]`,
`m_indexesT[id]`, `m_dscalesT[id]`, `m_ascalesT[id]`, `m_weightsT[id]` -/
structure Scratch (K : Type) where
  m_centersT : Vec4f K
  m_raysT : Vec4f K
  m_indexesT : List Int
  m_dscalesT : K
  m_ascalesT : K
  m_weightsT : List K

/-- The one-scalar `Coptim::decode`: the position for the depth parameter `vect[0]` -/
def decodeCoord (s : Scratch K) (vect0 : K) : Vec4f K :=
  Vec4f.add s.m_centersT (Vec4f.smul (s.m_dscalesT * vect0) s.m_raysT)

/-- The three-scalar `Coptim::decode`: the position and the normal.  The functions `sin`
and `cos` are those of the math library `o.math`, the arithmetic is that of `K`. -/
def decode (o : Coptim K) (s : Scratch K) (vect : K × K × K) : Vec4f K × Vec4f K :=
  let coord := decodeCoord s vect.1
  let image := s.m_indexesT.getD 0 0
  let angle1 := vect.2.1 * s.m_ascalesT
  let angle2 := vect.2.2 * s.m_ascalesT
  let fx := o.math.sin angle1 * o.math.cos angle2
  let fy := o.math.sin angle2
  let fz := -o.math.cos angle1 * o.math.cos angle2
  let ftmp := Vec3f.add (Vec3f.add (Vec3f.smul fx (o.m_xaxes image)) (Vec3f.smul fy (o.m_yaxes image)))
    (Vec3f.smul fz (o.m_zaxes image))
  (coord, ⟨ftmp.x, ftmp.y, ftmp.z, 0⟩)

/-- The one-scalar `Coptim::encode`: the depth parameter `vect[0]` of a position -/
def encodeCoord (s : Scratch K) (coord : Vec4f K) : K :=
  Vec4f.dot (Vec4f.sub coord s.m_centersT) s.m_raysT / s.m_dscalesT

/-- Modelled from the spec: `proj` of the missing header `numeric/vec4.h`; the normal is
"a unit 3-vector in homogeneous form (last component = 0)" and `proj` takes its 3-vector
part. -/
def proj (a : Vec4f K) : Vec3f K := ⟨a.x, a.y, a.z⟩

/-- The three-scalar `Coptim::encode`.  The functions `asin`, `acos` and `cos` are those
of the math library `o.math`, so the branch `cosb == 0` is taken when that library gives
0; the arithmetic is that of `K`. -/
def encode (o : Coptim K) (s : Scratch K) (coord normal : Vec4f K) : K × K × K :=
  let vect0 := encodeCoord s coord
  let image := s.m_indexesT.getD 0 0
  let fx := Vec3f.dot (o.m_xaxes image) (proj normal)
  let fy := Vec3f.dot (o.m_yaxes image) (proj normal)
  let fz := Vec3f.dot (o.m_zaxes image) (proj normal)
  let vect2 := o.math.asin (max (-1) (min 1 fy))
  let cosb := o.math.cos vect2
  let vect1 :=
    if cosb = 0 then 0
    else
      let sina := fx / cosb
      let cosa := -fz / cosb
      let v := o.math.acos (max (-1) (min 1 cosa))
      if sina < 0 then -v else v
  (vect0, vect1 / s.m_ascalesT, vect2 / s.m_ascalesT)

/-- The accumulation loop of `my_f_lm`: the pair `(ans, denom)` -/
def residualSum (texs : List (List K)) (size : Nat) : Fval K × Int :=
  (List.range' 1 (size - 1)).foldl
    (fun st i =>
      if (texs.getD i []).isEmpty then st
      else (Fval.add st.1 (inccOf 1 (texs.getD 0 []) (texs.getD i [])), st.2 + 1))
    (some 0, 0)

/-- The count `size = min(m_tau, m_indexesT[id].size())` of `my_f_lm` -/
def residualSize (o : Coptim K) (s : Scratch K) : Int :=
  min o.m_fm.m_tau (s.m_indexesT.length : Int)

/-- The buffers `m_texsT[id][0 .. size)` that `my_f_lm` fills: the windows of the first
`size` images at the decoded position and normal, with the patch axes of image 0 -/
def residualTexs (o : Coptim K) (s : Scratch K) (par : K × K × K) : List (List K) :=
  let cn := decode o s par
  let index := s.m_indexesT.getD 0 0
  let axes := getPAxes o index cn.1 cn.2
  (List.range (residualSize o s).toNat).map (fun i =>
    grabNormalized o cn.1 axes.1 axes.2 cn.2 (s.m_indexesT.getD i 0))

/-- The function `Coptim::my_f_lm` (both overloads have the same body): the three
components written to `fvec` -/
def my_f_lm (o : Coptim K) (s : Scratch K) (par : K × K × K) : Fval K × Fval K × Fval K :=
  let angle1 := par.2.1 * s.m_ascalesT
  let angle2 := par.2.2 * s.m_ascalesT
  if angle1 ≤ -M_PI / 2 ∨ M_PI / 2 ≤ angle1 ∨ angle2 ≤ -M_PI / 2 ∨ M_PI / 2 ≤ angle2 then
    (some 2, some 2, some 2)
  else
    let size : Int := residualSize o s
    let mininum : Int := min o.m_fm.m_minImageNumThreshold size
    let texs := residualTexs o s par
    let ret : Fval K := if (texs.getD 0 []).isEmpty then some 2 else some 0
    let sum := residualSum texs size.toNat
    -- both branches of the last test assign `ret`, whatever it held
    let ret : Fval K :=
      Function.const (Fval K)
        (if sum.2 < mininum - 1 then some 2 else Fval.divCount sum.1 sum.2) ret
    (ret, ret, ret)

/-- The two-argument `Coptim::computeUnits`: one unit per image -/
def computeUnits2 (o : Coptim K) (patch : Cpatch K) : List K :=
  patch.m_images.map (fun b =>
    let denom := rayDotNormal o patch.m_coord patch.m_normal b
    if 0 < denom then getUnit o b patch.m_coord / denom else INT_MAX_HALF)

/-- The function `Coptim::setWeightsT`: the new `m_weightsT[id]`.  The range-for loop
reads `m_weightsT[id][0]` afresh in every round, after the first round has overwritten it. -/
def setWeightsT (o : Coptim K) (patch : Cpatch K) : List K :=
  let units := computeUnits2 o patch
  let looped := (List.range units.length).foldl
    (fun w i => w.set i (min 1 (w.getD 0 0 / w.getD i 0))) units
  looped.set 0 1

/-- The scratch that `Coptim::refinePatchBFGS` sets before it encodes the patch -/
def refineScratch (o : Coptim K) (patch : Cpatch K) : Scratch K where
  m_centersT := patch.m_coord
  m_raysT := unitize o.math (Vec4f.sub patch.m_coord (o.m_fm.m_center (patch.m_images.getD 0 0)))
  m_indexesT := patch.m_images
  m_dscalesT := patch.m_dscale
  m_ascalesT := M_PI / 48
  m_weightsT := setWeightsT o patch

/-- The weighted sum loop of the seven-argument `Coptim::computeINCC`: `(score, totalweight)` -/
def computeINCCSum (texs : List (List K)) (weights : List K) (size : Nat) (robust : Int) :
    Fval K × K :=
  (List.range' 1 (size - 1)).foldl
    (fun st i =>
      if !(texs.getD i []).isEmpty then
        (Fval.add st.1 ((inccOf robust (texs.getD 0 []) (texs.getD i [])).map
          (fun v => v * weights.getD i 0)), st.2 + weights.getD i 0)
      else st)
    (some 0, 0)

/-- The seven-argument `Coptim::computeINCC` -/
def computeINCCAxes (o : Coptim K) (s : Scratch K) (coord normal : Vec4f K) (indexes : List Int)
    (pxaxis pyaxis : Vec4f K) (robust : Int) : Fval K :=
  if (indexes.length : Int) < 2 then some 2
  else
    let size : Int := min o.m_fm.m_tau (indexes.length : Int)
    let texs := (List.range size.toNat).map (fun i =>
      grabNormalized o coord pxaxis pyaxis normal (indexes.getD i 0))
    if (texs.getD 0 []).isEmpty then some 2
    else
      let st := computeINCCSum texs s.m_weightsT size.toNat robust
      if st.2 = 0 then some 2 else st.1.map (fun v => v / st.2)

/-- The five-argument `Coptim::computeINCC` -/
def computeINCC (o : Coptim K) (s : Scratch K) (coord normal : Vec4f K) (indexes : List Int)
    (robust : Int) : Fval K :=
  if (indexes.length : Int) < 2 then some 2
  else
    let axes := getPAxes o (indexes.getD 0 0) coord normal
    computeINCCAxes o s coord normal indexes axes.1 axes.2 robust

/-- Windows of the grey scene with the window of image 0 out of bounds: `grabTex`
returns 1 for image 0 -/
def lostRefTex (index : Int) : Option (List ℚ) :=
  if index = 0 then none else greyTex index

/-- The grey scene in which `grabTex` fails for image 0 -/
def lostRefOptim : Coptim ℚ := sceneOptim (sceneFm 5 2 0 (fun _ => [])) lostRefTex

/-- A scratch for the images `indexes` with the patch at the origin, `ascale = 1` -/
def sceneScratch (indexes : List Int) : Scratch ℚ where
  m_centersT := ⟨0, 0, 0, 1⟩
  m_raysT := ⟨0, 0, -1, 0⟩
  m_indexesT := indexes
  m_dscalesT := 1
  m_ascalesT := 1
  m_weightsT := indexes.map (fun _ => 1)

/-- The grey scene with image 2 at half the pixel scale of the others, so that its unit
is 4 where the unit of image 0 is 2 -/
def zoomOptim : Coptim ℚ :=
  { greyOptim with m_ipscales := fun i => if i = 2 then 1 / 2 else 1 }

/-- Windows of the grey scene plus a black square seen by image 5 -/
def blackTex (index : Int) : Option (List ℚ) :=
  if index = 5 then some [0, 0, 0, 0, 0, 0, 0, 0, 0, 0, 0, 0] else greyTex index

/-- The grey scene with the black image 5 and `minImageNumThreshold = 3` -/
def blackOptim : Coptim ℚ := sceneOptim (sceneFm 6 3 0 (fun _ => [])) blackTex

/-- The candidates that one round of the loop of `sortImages` leaves: `indexes2`, `units2`
and `rays2` after the image at the position of the smallest unit has been pushed -/
def sortImagesRest (threshold : K) (cands : List (Int × K × Vec4f K)) :
    List (Int × K × Vec4f K) :=
  let index := minElement (cands.map (fun c => c.2.1))
  let picked := cands.getD index (0, 0, ⟨0, 0, 0, 0⟩)
  (cands.enum.filter (fun jc => decide (jc.1 ≠ index))).map (fun jc =>
    let ftmp := min threshold (max (threshold / 2) (1 - Vec4f.dot picked.2.2 jc.2.2.2))
    (jc.2.1, jc.2.2.1 * (threshold / ftmp), jc.2.2.2))

/-- The constant `threshold` of `sortImages` -/
def sortThreshold (o : Coptim K) : K := 1 - o.math.cos (10 * M_PI / 180)

/-- The candidates with which the loop of `sortImages` starts: those of `computeUnits`,
with `units[0] = 0` -/
def sortImagesStart (o : Coptim K) (patch : Cpatch K) : List (Int × K × Vec4f K) :=
  (computeUnits o patch).enum.map (fun jc => if jc.1 = 0 then (jc.2.1, (0 : K), jc.2.2.2) else jc.2)

/-- The images of a patch that `computeUnits` keeps: those with `ray · normal > 0` -/
def facingImages (o : Coptim K) (patch : Cpatch K) : List Int :=
  patch.m_images.filter (fun b => decide (0 < rayDotNormal o patch.m_coord patch.m_normal b))

/-- The grey scene with camera 0 behind the patch, at `(0, 0, -1)` -/
def backOptim : Coptim ℚ :=
  { greyOptim with
    m_fm := { greyOptim.m_fm with
      m_center := fun i => if i = 0 then ⟨0, 0, -1, 1⟩ else ⟨0, 0, 1, 1⟩ } }

/-! ## Image selection -/

/-- Modelled from the spec: the comparator `Svec2cmp<float>` of the missing header
`numeric/vec2.h`.  The spec has the candidates "sorted ascending by
`distances[ref][cand]`"; pairs of equal distance are ordered by their second component,
the image index. -/
def Svec2cmp (a b : K × Int) : Bool :=
  decide (a.1 < b.1 ∨ (a.1 = b.1 ∧ a.2 < b.2))

/-- The order in which `std::sort` with `Svec2cmp` leaves two entries: `a` may stand
before `b` when `b` does not compare below `a` -/
def sortedBefore (a b : K × Int) : Prop := Svec2cmp b a = false

instance sortedBeforeDecidable : DecidableRel (sortedBefore (K := K)) :=
  fun a b => inferInstanceAs (Decidable (Svec2cmp b a = false))

/-- The function `Coptim::refinePatchBFGS`: success flag and patch on return.  The
argument `lmMinimize` stands for `lm.minimize(x)` of the Levenberg–Marquardt solver of
Eigen (outside this repository): from the residual function and the start vector it
gives the status and the final vector. -/
def refinePatchBFGS (o : Coptim K)
    (lmMinimize : (K × K × K → Fval K × Fval K × Fval K) → K × K × K → Int × (K × K × K))
    (patch : Cpatch K) : Bool × Cpatch K :=
  let s := refineScratch o patch
  let p := encode o s patch.m_coord patch.m_normal
  let r := lmMinimize (my_f_lm o s) p
  if 0 ≤ r.1 ∧ r.1 ≤ 3 then
    let cn := decode o s r.2
    (true, { patch with
      m_coord := cn.1
      m_normal := cn.2
      m_ncc := (computeINCC o s cn.1 cn.2 patch.m_images 1).map (fun v => 1 - unrobustincc v) })
  else (false, patch)

/-- The score `computeINCC(patch.m_coord, patch.m_normal, patch.m_images, id, 1)` that a
successful `refinePatchBFGS` turns into `m_ncc` -/
def refineScore (o : Coptim K)
    (lmMinimize : (K × K × K → Fval K × Fval K × Fval K) → K × K × K → Int × (K × K × K))
    (patch : Cpatch K) : Fval K :=
  let s := refineScratch o patch
  let r := lmMinimize (my_f_lm o s) (encode o s patch.m_coord patch.m_normal)
  computeINCC o s (decode o s r.2).1 (decode o s r.2).2 patch.m_images 1

/-- A solver that stops at once with status 1 -/
def idleSolver (_ : ℚ × ℚ × ℚ → Fval ℚ × Fval ℚ × Fval ℚ) (p : ℚ × ℚ × ℚ) : Int × (ℚ × ℚ × ℚ) :=
  (1, p)

/-! ## The image-axis cache -/

/-- The 3-vector part of a `Vec4f`, as the constructor calls of `setAxesScales` take it -/
def Vec4f.xyz (a : Vec4f K) : Vec3f K := ⟨a.x, a.y, a.z⟩

/-- The function `Coptim::setAxesScales` for one image `index`: the entries
`(m_xaxes[index], m_yaxes[index], m_zaxes[index], m_ipscales[index])` -/
def setAxesScales (fm : CfindMatch K) (m : CMath K) (index : Int) :
    Vec3f K × Vec3f K × Vec3f K × K :=
  let zaxis := (fm.m_oaxis index).xyz
  let xaxis0 := (fm.m_projection index 0 0).xyz
  let yaxis := unitize3 m (cross zaxis xaxis0)
  let xaxis := cross yaxis zaxis
  let xaxe : Vec4f K := ⟨xaxis.x, xaxis.y, xaxis.z, 0⟩
  let yaxe : Vec4f K := ⟨yaxis.x, yaxis.y, yaxis.z, 0⟩
  let fx := Vec4f.dot xaxe (fm.m_projection index 0 0)
  let fy := Vec4f.dot yaxe (fm.m_projection index 0 1)
  (xaxis, yaxis, zaxis, fx + fy)

/-! ## Texture sampling -/

/-- What `grabTex` takes from outside `optim.cc` besides `CfindMatch`: the pyramid colour
lookup `m_pss.getColor(index, x, y, level)`, and the rounding
`(int)floor(log(ratio) / Log2 + 0.5f)` of the base-2 logarithm -/
structure Sampler (K : Type) where
  getColor : Int → K → K → Int → Vec3f K
  roundLog2 : K → Int

/-- The table `answers` of `MyPow2` -/
def MyPow2Table : List K :=
  [1 / 16, 1 / 8, 1 / 4, 1 / 2, 1, 2, 4, 8, 16, 32, 64, 128, 256, 512, 1024]

/-- The function `MyPow2`: the entry `answers[x + 4]`, or `none` when `x + 4` is not a
position of the table -/
def MyPow2 (x : Int) : Option K :=
  if x + 4 < 0 then none else (MyPow2Table (K := K)).get? (x + 4).toNat

/-- The clamp `std::max(-m_fm.m_level, std::min(2, leveldif))` of `grabTex` -/
def clampLevelDif (level : Nat) (leveldif : Int) : Int :=
  max (-(level : Int)) (min 2 leveldif)

/-- The function `Coptim::grabSafe` -/
def grabSafe (fm : CfindMatch K) (index size : Int) (center dx dy : Vec3f K) (level : Int) : Int :=
  let margin : K := ((Int.tdiv size 2 : Int) : K)
  let tl := Vec3f.sub (Vec3f.sub center (Vec3f.smul margin dx)) (Vec3f.smul margin dy)
  let tr := Vec3f.sub (Vec3f.add center (Vec3f.smul margin dx)) (Vec3f.smul margin dy)
  let bl := Vec3f.add (Vec3f.sub center (Vec3f.smul margin dx)) (Vec3f.smul margin dy)
  let br := Vec3f.add (Vec3f.add center (Vec3f.smul margin dx)) (Vec3f.smul margin dy)
  let minx := min tl.x (min tr.x (min bl.x br.x))
  let maxx := max tl.x (max tr.x (max bl.x br.x))
  let miny := min tl.y (min tr.y (min bl.y br.y))
  let maxy := max tl.y (max tr.y (max bl.y br.y))
  let margin2 : Int := 3
  if minx < (margin2 : K) ∨ ((fm.getWidth index level.toNat - 1 - margin2 : Int) : K) ≤ maxx ∨
      miny < (margin2 : K) ∨ ((fm.getHeight index level.toNat - 1 - margin2 : Int) : K) ≤ maxy then 0
  else 1

/-- The window of `grabTex` after the mipmap level is chosen: `center`, `dx`, `dy` divided
by `scale`, and `newlevel`; `none` when `MyPow2` reads outside its table -/
def grabWindow (o : Coptim K) (sm : Sampler K) (coord pxaxis pyaxis : Vec4f K) (index : Int) :
    Option (Vec3f K × Vec3f K × Vec3f K × Int) :=
  let center := o.m_fm.project index coord o.m_fm.m_level
  let dx := Vec3f.sub (o.m_fm.project index (Vec4f.add coord pxaxis) o.m_fm.m_level) center
  let dy := Vec3f.sub (o.m_fm.project index (Vec4f.add coord pyaxis) o.m_fm.m_level) center
  let ratio := (norm3 o.math dx + norm3 o.math dy) / 2
  let leveldif := clampLevelDif o.m_fm.m_level (sm.roundLog2 ratio)
  (MyPow2 leveldif).map (fun scale =>
    (Vec3f.smul (1 / scale) center, Vec3f.smul (1 / scale) dx, Vec3f.smul (1 / scale) dy,
      (o.m_fm.m_level : Int) + leveldif))

/-- The position at which `grabTex` samples pixel `(x, y)` of the window: `left` advanced
`y` times by `dy` and then `x` times by `dx` -/
def samplePos (left dx dy : Vec3f K) (x y : Nat) : Vec3f K :=
  (fun v => Vec3f.add v dx)^[x] ((fun v => Vec3f.add v dy)^[y] left)

/-- The sampling loops of `grabTex`: the colours at the `size × size` positions, row by
row, three floats a pixel -/
def grabColors (sm : Sampler K) (index : Int) (left dx dy : Vec3f K) (size : Nat) (newlevel : Int) :
    List K :=
  (List.range size).flatMap (fun y =>
    (List.range size).flatMap (fun x =>
      let vftmp := samplePos left dx dy x y
      let color := sm.getColor index vftmp.x vftmp.y newlevel
      [color.x, color.y, color.z]))

/-- The function `Coptim::grabTex` as written in `optim.cc`: the returned flag and the
buffer `tex`; `none` when `MyPow2` reads outside its table -/
def grabTex (o : Coptim K) (sm : Sampler K) (coord pxaxis pyaxis pzaxis : Vec4f K)
    (index size : Int) : Option (Int × List K) :=
  let ray := unitize o.math (Vec4f.sub (o.m_fm.m_center index) coord)
  let weight := max 0 (Vec4f.dot ray pzaxis)
  if weight < o.math.cos o.m_fm.m_angleThreshold1 then some (1, [])
  else
    (grabWindow o sm coord pxaxis pyaxis index).map (fun w =>
      if grabSafe o.m_fm index size w.1 w.2.1 w.2.2.1 w.2.2.2 = 0 then (1, [])
      else
        let margin : K := ((Int.tdiv size 2 : Int) : K)
        let left := Vec3f.sub (Vec3f.sub w.1 (Vec3f.smul margin w.2.1)) (Vec3f.smul margin w.2.2.1)
        (0, grabColors sm index left w.2.1 w.2.2.1 size.toNat w.2.2.2))

/-- A scene at pyramid level 5 in which one unit along a patch axis is 1/64 pixel: the
projection scales by 1/64, and the square root is exact at `(1/64)²` -/
def deepOptim : Coptim ℚ :=
  { greyOptim with
    math := { sceneMath with sqrt := fun x => if x = 1 / 4096 then 1 / 64 else x }
    m_fm := { greyOptim.m_fm with
      m_level := 5
      project := fun _ X _ => ⟨50 + X.x / 64, 50 + X.y / 64, 1⟩ } }

/-- A sampler over black images whose logarithm is right at the ratio 1/64:
`floor(log2(1/64) + 0.5) = -6` -/
def deepSampler : Sampler ℚ where
  getColor := fun _ _ _ _ => ⟨0, 0, 0⟩
  roundLog2 := fun r => if r = 1 / 64 then -6 else 0

/-- A scene at pyramid level 0 in which one unit along a patch axis is one pixel: the
point `X` projects to `(50 + X.x, 50 + X.y)` in a 100 by 100 image -/
def flatOptim : Coptim ℚ :=
  { greyOptim with
    m_fm := { greyOptim.m_fm with
      project := fun _ X _ => ⟨50 + X.x, 50 + X.y, 1⟩ } }

/-- A sampler over black images whose logarithm is right at the ratio 1:
`floor(log2(1) + 0.5) = 0` -/
def flatSampler : Sampler ℚ where
  getColor := fun _ _ _ _ => ⟨0, 0, 0⟩
  roundLog2 := fun _ => 0

/-- The mean of channel `c` of a texture as `normalize` computes it: the sum of the
entries `3 i + c` divided by the number of pixels -/
def channelMean (tex : List K) (c : Nat) : K :=
  channelSum tex (tex.length / 3) c / ((tex.length / 3 : Nat) : K)

/-- The sum of the squared deviations from the channel means that `normalize` accumulates
in `ave2` before taking the square root -/
def deviationSum (tex : List K) : K :=
  ((List.range (tex.length / 3)).map (fun i =>
    (channelMean tex 0 - tex.getD (3 * i) 0) * (channelMean tex 0 - tex.getD (3 * i) 0)
      + (channelMean tex 1 - tex.getD (3 * i + 1) 0) * (channelMean tex 1 - tex.getD (3 * i + 1) 0)
      + (channelMean tex 2 - tex.getD (3 * i + 2) 0) * (channelMean tex 2 - tex.getD (3 * i + 2) 0))).sum

/-- The divisor `ave2` of `normalize` after the guard `if (ave2 == 0.0f) ave2 = 1.0f` -/
def normDivisor (m : CMath K) (tex : List K) : K :=
  if m.sqrt (deviationSum tex / (tex.length : K)) = 0 then 1
  else m.sqrt (deviationSum tex / (tex.length : K))

/-- The mean of the squares of all entries of a texture -/
def meanSquare (tex : List K) : K :=
  ((List.range tex.length).map (fun k => tex.getD k 0 * tex.getD k 0)).sum / (tex.length : K)

/-- The laws of the real functions `sin`, `cos`, `asin`, `acos` of `<math.h>` that the
angle encoding relies on -/
structure TrigLaws (m : CMath K) : Prop where
  sin_asin : ∀ y, -1 ≤ y → y ≤ 1 → m.sin (m.asin y) = y
  cos_asin_nonneg : ∀ y, -1 ≤ y → y ≤ 1 → 0 ≤ m.cos (m.asin y)
  cos_acos : ∀ y, -1 ≤ y → y ≤ 1 → m.cos (m.acos y) = y
  sin_acos_nonneg : ∀ y, -1 ≤ y → y ≤ 1 → 0 ≤ m.sin (m.acos y)
  sin_sq_add_cos_sq : ∀ x, m.sin x * m.sin x + m.cos x * m.cos x = 1
  sin_neg : ∀ x, m.sin (-x) = -m.sin x
  cos_neg : ∀ x, m.cos (-x) = m.cos x

/-- A photo set over any number type: the cameras sit at `(0, 0, 1)` and look down the
negative `z` axis at a patch at the origin -/
def frameFm : CfindMatch K where
  m_num := 2
  m_tnum := 2
  m_tau := 2
  m_level := 0
  m_depth := 0
  m_wsize := 2
  m_sequenceThreshold := -1
  m_minImageNumThreshold := 2
  m_angleThreshold0 := 1
  m_angleThreshold1 := 1
  m_maxAngleThreshold := 1
  m_nccThreshold := 1 / 2
  m_nccThresholdBefore := 1 / 2
  m_visdata2 := fun _ => []
  m_center := fun _ => ⟨0, 0, 1, 1⟩
  m_oaxis := fun _ => ⟨0, 0, -1, 0⟩
  m_distances := fun _ _ => 1
  m_projection := fun _ _ row => if row = 0 then ⟨1, 0, 0, 0⟩ else ⟨0, 1, 0, 0⟩
  project := fun _ _ _ => ⟨50, 50, 1⟩
  getWidth := fun _ _ => 100
  getHeight := fun _ _ => 100
  getMask := fun _ _ => 1
  getEdge := fun _ _ _ => 1
  checkAngles := fun _ _ _ _ _ => 0
  insideBimages := fun _ => 1
  setScales := fun _ => (1, 1)
  setVImagesVGrids := fun p => p.m_images
  score2 := fun _ _ => 0
  computeGain := fun _ => 1
  findNeighbors := fun _ => 0
  filterQuad := fun _ => 0

/-- An optimizer over `frameFm` with the math library `m` and the camera frame
`x = (1, 0, 0)`, `y = (0, -1, 0)`, `z = (0, 0, -1)`, for which `x = y × z` -/
def frameOptim (m : CMath K) : Coptim K where
  m_fm := frameFm
  math := m
  m_xaxes := fun _ => ⟨1, 0, 0⟩
  m_yaxes := fun _ => ⟨0, -1, 0⟩
  m_zaxes := fun _ => ⟨0, 0, -1⟩
  m_ipscales := fun _ => 1
  grabTex := fun _ _ _ _ _ _ => none

/-- A scratch for image 0 with the patch at the origin, the unit ray from the camera to
the patch, `dscale = 1` and `ascale = M_PI / 48` -/
def frameScratch : Scratch K where
  m_centersT := ⟨0, 0, 0, 1⟩
  m_raysT := ⟨0, 0, -1, 0⟩
  m_indexesT := [0]
  m_dscalesT := 1
  m_ascalesT := M_PI / 48
  m_weightsT := [1]

/-- A patch at the origin with the given normal, seen in images 0 and 1 -/
def framePatch (normal : Vec4f K) : Cpatch K where
  m_coord := ⟨0, 0, 0, 1⟩
  m_normal := normal
  m_ncc := some 0
  m_dscale := 1
  m_ascale := 1
  m_images := [0, 1]
  m_vimages := []
  m_timages := 0
  m_tmp := 0

/-! ## Binary32 arithmetic

The program computes in `float`.  A finite binary32 number `x` is represented here by the
integer `x · 2^149`: every finite binary32 number is a multiple of `2^-149`, the smallest
subnormal.  Each operation takes the exact result and rounds it to the nearest binary32
number, ties to even, as IEEE 754 prescribes for `+ - * /` and `sqrt`.  Overflow,
infinities and NaN are not represented; the examples stay far from them. -/

namespace F32

/-- The number 1 in units of `2^-149` -/
def one : Int := 2 ^ 149

/-- The number of halvings that bring `t` below `2^24`: the exponent of the unit in the
last place of a number whose integer part, in units of `2^-149`, is `t` -/
def shift (t : Nat) : Nat → Nat
  | 0 => 0
  | fuel + 1 => if t < 2 ^ 24 then 0 else shift (t / 2) fuel + 1

/-- The number of divisions by 4 that bring `m` below `2^48`: the exponent of the unit in
the last place of the square root of `m` -/
def shift4 (m : Nat) : Nat → Nat
  | 0 => 0
  | fuel + 1 => if m < 2 ^ 48 then 0 else shift4 (m / 4) fuel + 1

/-- The non-negative rational `n / d` rounded to 24 significant bits, ties to even -/
def roundNat (n d : Nat) : Nat :=
  let k := shift (n / d) 300
  let u := d * 2 ^ k
  let q := n / u
  let r := n % u
  if 2 * r < u then q * 2 ^ k
  else if u < 2 * r then (q + 1) * 2 ^ k
  else if q % 2 = 0 then q * 2 ^ k
  else (q + 1) * 2 ^ k

/-- The rational `n / d` rounded to the nearest binary32 number -/
def round (n : Int) (d : Nat) : Int :=
  if n < 0 then -((roundNat n.natAbs d : Nat) : Int) else ((roundNat n.natAbs d : Nat) : Int)

/-- The sum of two floats -/
def add (a b : Int) : Int := round (a + b) 1

/-- The difference of two floats -/
def sub (a b : Int) : Int := round (a - b) 1

/-- The product of two floats -/
def mul (a b : Int) : Int := round (a * b) (2 ^ 149)

/-- The quotient of two floats, for a divisor other than 0 -/
def div (a b : Int) : Int := round (if b < 0 then -(a * 2 ^ 149) else a * 2 ^ 149) b.natAbs

/-- The conversion `(float)n` of an `int` -/
def ofInt (n : Int) : Int := round (n * 2 ^ 149) 1

/-- The largest `q` below `2^bits` with `(q · 2^k)² ≤ m`, found bit by bit -/
def sqrtBits (m k : Nat) : Nat → Nat → Nat
  | 0, q => q
  | b + 1, q =>
    if (q + 2 ^ b) * (q + 2 ^ b) * 4 ^ k ≤ m then sqrtBits m k b (q + 2 ^ b)
    else sqrtBits m k b q

/-- The square root of the natural number `m` rounded to 24 significant bits, ties to even -/
def roundSqrt (m : Nat) : Nat :=
  let k := shift4 m 300
  let q := sqrtBits m k 25 0
  if 4 * m < (2 * q + 1) * (2 * q + 1) * 4 ^ k then q * 2 ^ k
  else if (2 * q + 1) * (2 * q + 1) * 4 ^ k < 4 * m then (q + 1) * 2 ^ k
  else if q % 2 = 0 then q * 2 ^ k
  else (q + 1) * 2 ^ k

/-- The square root `sqrt(a)` of a float `a ≥ 0` -/
def sqrt (a : Int) : Int := ((roundSqrt (a.natAbs * 2 ^ 149) : Nat) : Int)

/-- The first loop of `Coptim::normalize` in binary32: the running sum `ave[c]` -/
def channelSum (tex : List Int) (size3 c : Nat) : Int :=
  (List.range size3).foldl (fun ave i => add ave (tex.getD (3 * i + c) 0)) 0

/-- The single-texture `Coptim::normalize(std::vector<float>& tex)` in binary32: the
statements of the source in their order, every operation rounded -/
def normalize (tex : List Int) : List Int :=
  let size := tex.length
  let size3 := size / 3
  let ave0 := div (channelSum tex size3 0) (ofInt size3)
  let ave1 := div (channelSum tex size3 1) (ofInt size3)
  let ave2c := div (channelSum tex size3 2) (ofInt size3)
  let acc := (List.range size3).foldl (fun ave2 i =>
    add ave2 (add (add
      (mul (sub ave0 (tex.getD (3 * i) 0)) (sub ave0 (tex.getD (3 * i) 0)))
      (mul (sub ave1 (tex.getD (3 * i + 1) 0)) (sub ave1 (tex.getD (3 * i + 1) 0))))
      (mul (sub ave2c (tex.getD (3 * i + 2) 0)) (sub ave2c (tex.getD (3 * i + 2) 0))))) 0
  let ave2 := sqrt (div acc (ofInt size))
  let ave2 := if ave2 = 0 then one else ave2
  (List.range size).map (fun k =>
    if k < 3 * size3 then
      div (sub (tex.getD k 0) (if k % 3 = 0 then ave0 else if k % 3 = 1 then ave1 else ave2c)) ave2
    else tex.getD k 0)

/-- The function `Coptim::dot` in binary32, for a non-empty `tex0` -/
def dot (tex0 tex1 : List Int) : Int :=
  div ((List.range tex0.length).foldl
    (fun ans i => add ans (mul (tex0.getD i 0) (tex1.getD i 0))) 0) (ofInt tex0.length)

/-- Inner product of two `Vec3f` in binary32 -/
def dot3 (a b : Vec3f Int) : Int := add (add (mul a.x b.x) (mul a.y b.y)) (mul a.z b.z)

/-- Inner product of two `Vec4f` in binary32 -/
def dot4 (a b : Vec4f Int) : Int :=
  add (add (add (mul a.x b.x) (mul a.y b.y)) (mul a.z b.z)) (mul a.w b.w)

/-- Cross product of two `Vec3f` in binary32 -/
def cross (a b : Vec3f Int) : Vec3f Int :=
  ⟨sub (mul a.y b.z) (mul a.z b.y), sub (mul a.z b.x) (mul a.x b.z),
    sub (mul a.x b.y) (mul a.y b.x)⟩

/-- Modelled from the spec: `unitize` of the missing header `numeric/vec3.h` in binary32,
each component divided by the rounded length; a vector of squared length 0 is left as it
is. -/
def unitize (a : Vec3f Int) : Vec3f Int :=
  if dot3 a a = 0 then a
  else ⟨div a.x (sqrt (dot3 a a)), div a.y (sqrt (dot3 a a)), div a.z (sqrt (dot3 a a))⟩

/-- The function `Coptim::setAxesScales` for one image in binary32, from its optical axis
and the first two rows of its projection matrix: `(xaxis, yaxis, zaxis, ipscale)` -/
def setAxesScales (oaxis row0 row1 : Vec4f Int) : Vec3f Int × Vec3f Int × Vec3f Int × Int :=
  let zaxis : Vec3f Int := ⟨oaxis.x, oaxis.y, oaxis.z⟩
  let xaxis0 : Vec3f Int := ⟨row0.x, row0.y, row0.z⟩
  let yaxis := unitize (cross zaxis xaxis0)
  let xaxis := cross yaxis zaxis
  let fx := dot4 ⟨xaxis.x, xaxis.y, xaxis.z, 0⟩ row0
  let fy := dot4 ⟨yaxis.x, yaxis.y, yaxis.z, 0⟩ row1
  (xaxis, yaxis, zaxis, add fx fy)

end F32

/-- The binary32 number nearest to `0.1`, in units of `2^-149`: `13421773 · 2^-27` -/
def tenth : Int := 13421773 * 2 ^ 122

/-- A photo set over any number type whose cameras look along `(0, 0, 1)` and whose first
projection rows are `(1, 1, 0, 0)` and `(-1, 1, 0, 0)` -/
def skewFm : CfindMatch K :=
  { (frameFm : CfindMatch K) with
    m_oaxis := fun _ => ⟨0, 0, 1, 0⟩
    m_projection := fun _ _ row => if row = 0 then ⟨1, 1, 0, 0⟩ else ⟨-1, 1, 0, 0⟩ }

/-- The values of the binary32 functions `asinf`, `acosf`, `sinf`, `cosf` and `sqrtf` at
the arguments that occur for a normal along the `y` axis of the camera frame:
`asinf(±1) = ±p`, `acosf(0) = p`, `sinf(±p) = ±1`, `cosf(±p) = c`, `cosf(0) = 1` and
`sqrtf(1) = 1`, where `p = 13176795 · 2^-23 = 1.57079637` is the float nearest to `π/2`
and `c = -6151831 · 2^-47 = -4.37113883e-8`.  At other arguments the entries are 0; the
example does not use them. -/
def libmMath : CMath ℚ where
  sqrt := fun x => if x = 1 then 1 else 0
  sin := fun x =>
    if x = 13176795 / 8388608 then 1 else if x = -(13176795 / 8388608) then -1 else 0
  cos := fun x =>
    if x = 13176795 / 8388608 ∨ x = -(13176795 / 8388608) then -(6151831 / 140737488355328)
    else if x = 0 then 1 else 0
  asin := fun x =>
    if x = 1 then 13176795 / 8388608 else if x = -1 then -(13176795 / 8388608) else 0
  acos := fun x => if x = 0 then 13176795 / 8388608 else 0

/-- The photo set of the grey scene with mirrored image 2: the second projection row of
image 2 is `(0, 3, 0, 0)`, that of the other images `(0, -1, 0, 0)` -/
def mirrorFm : CfindMatch ℚ :=
  { greyOptim.m_fm with
    m_projection := fun i _ row =>
      if row = 0 then ⟨1, 0, 0, 0⟩ else if i = 2 then ⟨0, 3, 0, 0⟩ else ⟨0, -1, 0, 0⟩ }

/-- The grey scene over `mirrorFm`, with the axes and pixel scales that `setAxesScales`
computes: `ipscale = 2` for the images other than 2 and `ipscale = -2` for image 2 -/
def mirrorOptim : Coptim ℚ :=
  { greyOptim with
    m_fm := mirrorFm
    m_xaxes := fun i => (setAxesScales mirrorFm sceneMath i).1
    m_yaxes := fun i => (setAxesScales mirrorFm sceneMath i).2.1
    m_zaxes := fun i => (setAxesScales mirrorFm sceneMath i).2.2.1
    m_ipscales := fun i => (setAxesScales mirrorFm sceneMath i).2.2.2 }

end

end PMVS3

/-! ## Theorems -/

namespace PMVS3

section
variable {K : Type} [LinearOrderedField K]

/-- A loop that pushes `f i` for the indices `i` passing a test builds the filtered list -/
theorem foldl_push_eq_filter_map {α : Type} (p : Nat → Bool) (f : Nat → α) (l : List Nat)
    (acc : List α) :
    l.foldl (fun a i => if p i then a ++ [f i] else a) acc = acc ++ (l.filter p).map f := by
  induction l generalizing acc with
  | nil => simp
  | cons i l ih =>
    simp only [List.foldl_cons, List.filter_cons]
    by_cases hp : p i = true
    · simp [hp, ih]
    · simp [hp, ih]

/-- Reading positions `1 .. n` of `x :: xs` gives back `xs` -/
theorem map_getD_range_succ {α : Type} (x : α) (xs : List α) (d : α) :
    (List.range' 1 xs.length).map (fun i => (x :: xs).getD i d) = xs := by
  apply List.ext_getElem
  · simp
  · intro n h1 h2
    simp [List.getElem_range', Nat.add_comm 1 n, List.getElem?_eq_getElem h2]

/-- The push loop of `constraintImages` as a filter over the positions `1 .. n-1`; the
result is a subsequence of the input with the same head -/
theorem constraintImages_char (o : Coptim K) (patch : Cpatch K) (nccThreshold : K)
    (h : patch.m_images ≠ []) :
    ∃ r, constraintImages o patch nccThreshold = some r ∧
      r = patch.m_images.getD 0 0 ::
        ((List.range' 1 (patch.m_images.length - 1)).filter (fun i =>
          Fval.lt ((setINCCs o patch patch.m_images 0).getD i none) (some (1 - nccThreshold)))).map
          (fun i => patch.m_images.getD i 0) ∧
      r.Sublist patch.m_images ∧ r ≠ [] ∧ r.head? = patch.m_images.head? := by
  refine ⟨_, ?_, rfl, ?_, by simp, ?_⟩
  · simp only [constraintImages, h, if_false]
    rw [foldl_push_eq_filter_map]
    rfl
  · cases hx : patch.m_images with
    | nil => exact absurd hx h
    | cons x xs =>
      simp only [List.getD_cons_zero, List.length_cons, Nat.add_sub_cancel]
      apply List.Sublist.cons₂
      have hs := (List.filter_sublist (p := fun i =>
          Fval.lt ((setINCCs o patch (x :: xs) 0).getD i none) (some (1 - nccThreshold)))
          (List.range' 1 xs.length)).map (fun i => (x :: xs).getD i 0)
      rw [map_getD_range_succ] at hs
      exact hs
  · cases hx : patch.m_images with
    | nil => exact absurd hx h
    | cons x xs => simp

/-- What a defined call of `constraintImages` returns: a non-empty subsequence of the
input with the same head -/
theorem constraintImages_some (o : Coptim K) (patch : Cpatch K) (nccThreshold : K)
    (r : List Int) (h : constraintImages o patch nccThreshold = some r) :
    patch.m_images ≠ [] ∧ r.Sublist patch.m_images ∧ r ≠ [] ∧
      r.head? = patch.m_images.head? := by
  have hne : patch.m_images ≠ [] := by
    intro hnil
    simp [constraintImages, hnil] at h
  obtain ⟨r2, h1, _, h3, h4, h5⟩ := constraintImages_char o patch nccThreshold hne
  rw [h] at h1
  cases h1
  exact ⟨hne, h3, h4, h5⟩

/-- A float is below a number exactly when it is a number below it -/
theorem Fval.lt_some_iff (a : Fval K) (b : K) :
    Fval.lt a (some b) = true ↔ ∃ x, a = some x ∧ x < b := by
  cases a with
  | none => simp [Fval.lt]
  | some x => simp [Fval.lt]

/-- Invariant of the search loop of `setRefImage`: the running bound is a number, no row
seen so far is below it, and it is either the sentinel or the sum of the chosen row -/
theorem refSearch_inv (inccs : List (List (Fval K))) (n : Nat) :
    ∃ b : K, (refSearch inccs n).2 = some b ∧
      (∀ j, j < n → Fval.lt (accumulate (inccs.getD j [])) (some b) = false) ∧
      (((refSearch inccs n).1 = -1 ∧ b = INT_MAX_HALF) ∨
        ∃ k, k < n ∧ (refSearch inccs n).1 = (k : Int) ∧
          accumulate (inccs.getD k []) = some b ∧ b < INT_MAX_HALF) := by
  induction n with
  | zero => exact ⟨INT_MAX_HALF, rfl, by simp, Or.inl ⟨rfl, rfl⟩⟩
  | succ n ih =>
    obtain ⟨b, hb, hall, hcase⟩ := ih
    have hstep : refSearch inccs (n + 1) =
        (if Fval.lt (accumulate (inccs.getD n [])) (refSearch inccs n).2 then
          ((n : Int), accumulate (inccs.getD n [])) else refSearch inccs n) := by
      simp [refSearch, List.range_succ, List.foldl_append]
    by_cases hlt : Fval.lt (accumulate (inccs.getD n [])) (some b) = true
    · obtain ⟨a, ha, hab⟩ := (Fval.lt_some_iff _ _).1 hlt
      have hbB : b ≤ INT_MAX_HALF := by
        rcases hcase with ⟨_, h2⟩ | ⟨k, _, _, _, h4⟩
        · exact le_of_eq h2
        · exact le_of_lt h4
      refine ⟨a, ?_, ?_, Or.inr ⟨n, Nat.lt_succ_self n, ?_, ha, lt_of_lt_of_le hab hbB⟩⟩
      · rw [hstep, hb, hlt]; simpa using ha
      · intro j hj
        rcases Nat.lt_succ_iff_lt_or_eq.1 hj with hj | hj
        · have h1 := hall j hj
          cases hc : accumulate (inccs.getD j []) with
          | none => simp [Fval.lt]
          | some c =>
            rw [hc] at h1
            simp only [Fval.lt, decide_eq_false_iff_not, not_lt] at h1 ⊢
            exact le_of_lt (lt_of_lt_of_le hab h1)
        · subst hj; rw [ha]; simp [Fval.lt]
      · rw [hstep, hb, hlt]; simp
    · have hlt2 : Fval.lt (accumulate (inccs.getD n [])) (some b) = false := by
        simpa using hlt
      refine ⟨b, ?_, ?_, ?_⟩
      · rw [hstep, hb, hlt2]; simpa using hb
      · intro j hj
        rcases Nat.lt_succ_iff_lt_or_eq.1 hj with hj | hj
        · exact hall j hj
        · subst hj; exact hlt2
      · rcases hcase with ⟨h1, h2⟩ | ⟨k, h1, h2, h3, h4⟩
        · left; rw [hstep, hb, hlt2]; simpa using ⟨h1, h2⟩
        · right; refine ⟨k, Nat.lt_succ_of_lt h1, ?_, h3, h4⟩
          rw [hstep, hb, hlt2]; simpa using h2

/-- Writing `x` over an occurrence of `a` and putting `a` in front permutes `x :: xs` -/
theorem perm_cons_set {α : Type} (a x : α) (xs : List α) (j : Nat) (hj : j < xs.length)
    (h : xs.getD j x = a) : (a :: xs.set j x).Perm (x :: xs) := by
  induction xs generalizing j with
  | nil => simp at hj
  | cons y ys ih =>
    cases j with
    | zero =>
      simp only [List.getD_cons_zero] at h
      subst h
      simpa using List.Perm.swap x y ys
    | succ j =>
      simp only [List.getD_cons_succ] at h
      have hj2 : j < ys.length := by simpa using hj
      have := ih j hj2 h
      simp only [List.set_cons_succ]
      exact ((List.Perm.swap y a _).trans ((this.cons y).trans (List.Perm.swap x y ys)))

/-- The swap loop of `setRefImage` on a list that holds `refIndex`: positions 0 and `i`
are exchanged, where `i` is the first position of `refIndex` -/
theorem swapToFront_spec (images : List Int) (refIndex : Int) (hmem : refIndex ∈ images) :
    ∃ i, i < images.length ∧ images.getD i 0 = refIndex ∧
      swapToFront images refIndex = (images.set 0 (images.getD i 0)).set i (images.getD 0 0) ∧
      (swapToFront images refIndex).Perm images ∧
      (swapToFront images refIndex).head? = some refIndex := by
  have hi : images.indexOf refIndex < images.length := List.indexOf_lt_length.2 hmem
  have hget : images.getD (images.indexOf refIndex) 0 = refIndex := by
    rw [List.getD_eq_getElem _ _ hi]; exact List.indexOf_get hi
  refine ⟨images.indexOf refIndex, hi, hget, ?_, ?_, ?_⟩
  · simp [swapToFront, hi, hget]
  · cases images with
    | nil => simp at hmem
    | cons x xs =>
      by_cases hx : x = refIndex
      · subst hx; simp [swapToFront]
      · have hne : (x :: xs).indexOf refIndex = xs.indexOf refIndex + 1 :=
          List.indexOf_cons_ne _ hx
        have hj : xs.indexOf refIndex < xs.length := by
          rw [hne, List.length_cons] at hi; omega
        have hg : xs.getD (xs.indexOf refIndex) x = refIndex := by
          rw [List.getD_eq_getElem _ _ hj]; exact List.indexOf_get hj
        have := perm_cons_set refIndex x xs (xs.indexOf refIndex) hj hg
        simp only [swapToFront, hi, if_true]
        rw [hne]
        simpa using this
  · cases images with
    | nil => simp at hmem
    | cons x xs =>
      by_cases hx : x = refIndex
      · subst hx; simp [swapToFront]
      · have hne : (x :: xs).indexOf refIndex = xs.indexOf refIndex + 1 :=
          List.indexOf_cons_ne _ hx
        simp only [swapToFront, hi, if_true]
        rw [hne]
        simp

/-- The choice made by `setRefImage`: when a target-range image exists and some row sum
is below the sentinel, the call swaps to the front a target-range image whose row sum
no other row sum is below -/
theorem setRefImage_choice (o : Coptim K) (patch : Cpatch K)
    (hsum : ∃ i, i < (targetImages o patch).length ∧
      Fval.lt (refRowSum o patch 1 i) (some INT_MAX_HALF) = true) :
    ∃ k, k < (targetImages o patch).length ∧
      setRefImage o patch = some (swapToFront patch.m_images ((targetImages o patch).getD k 0)) ∧
      (∀ j, j < (targetImages o patch).length →
        Fval.lt (refRowSum o patch 1 j) (refRowSum o patch 1 k) = false) ∧
      (targetImages o patch).getD k 0 ∈ patch.m_images ∧
      (targetImages o patch).getD k 0 < o.m_fm.m_tnum := by
  obtain ⟨i, hi, hlt⟩ := hsum
  have hne : targetImages o patch ≠ [] := by
    intro h; rw [h] at hi; simp at hi
  obtain ⟨b, hb, hall, hcase⟩ :=
    refSearch_inv (setINCCsMat o patch (targetImages o patch) 1) (targetImages o patch).length
  rcases hcase with ⟨_, h2⟩ | ⟨k, hk, hr, hacc, _⟩
  · have := hall i hi
    rw [h2] at this
    rw [refRowSum] at hlt
    rw [this] at hlt
    exact absurd hlt (by simp)
  · have hmemT : (targetImages o patch).getD k 0 ∈ targetImages o patch := by
      rw [List.getD_eq_getElem _ _ hk]; exact List.getElem_mem _
    have hmem := List.mem_filter.1 hmemT
    refine ⟨k, hk, ?_, ?_, hmem.1, by simpa using hmem.2⟩
    · have hne2 : ¬ (List.filter (fun i => decide (i < o.m_fm.m_tnum)) patch.m_images = []) := hne
      simp only [setRefImage, hne2, if_false]
      have hr2 : (refSearch (setINCCsMat o patch
          (List.filter (fun i => decide (i < o.m_fm.m_tnum)) patch.m_images) 1)
          (List.filter (fun i => decide (i < o.m_fm.m_tnum)) patch.m_images).length).1 = (k : Int) := hr
      rw [hr2]
      simp [targetImages]
    · intro j hj
      have := hall j hj
      rw [refRowSum, refRowSum, hacc]
      exact this

/-- C3: when some target-range image of the list has a row sum below the sentinel
`INT_MAX/2` (so the list holds an index below `tnum`), `setRefImage` returns the input with position 0 and one position `i`
exchanged (`i = 0` when the chosen image is already in front): a permutation of the
input of the same length whose first element is below `tnum`. -/
theorem setRefImage_swaps (o : Coptim K) (patch : Cpatch K)
    (hsum : ∃ i, i < (targetImages o patch).length ∧
      Fval.lt (refRowSum o patch 1 i) (some INT_MAX_HALF) = true) :
    ∃ r i, setRefImage o patch = some r ∧ i < patch.m_images.length ∧
      r = (patch.m_images.set 0 (patch.m_images.getD i 0)).set i (patch.m_images.getD 0 0) ∧
      r.Perm patch.m_images ∧ r.length = patch.m_images.length ∧
      ∃ x, r.head? = some x ∧ x < o.m_fm.m_tnum := by
  obtain ⟨k, _, hset, _, hmem, htn⟩ := setRefImage_choice o patch hsum
  obtain ⟨i, hi, _, hswap, hperm, hhead⟩ := swapToFront_spec patch.m_images _ hmem
  exact ⟨_, i, hset, hi, hswap, hperm, hperm.length_eq, _, hhead, htn⟩

/-- Normalising one of the grey ±1 windows leaves it as it is -/
theorem normalize_grey (a b c d : ℚ) (ha : a * a = 1) (hb : b * b = 1) (hc : c * c = 1)
    (hd : d * d = 1) (hs : a + b + c + d = 0) :
    normalize sceneMath [a, a, a, b, b, b, c, c, c, d, d, d] = [a, a, a, b, b, b, c, c, c, d, d, d] := by
  have h4 : List.range 4 = [0, 1, 2, 3] := by decide
  have h12 : List.range 12 = [0, 1, 2, 3, 4, 5, 6, 7, 8, 9, 10, 11] := by decide
  have hs2 : a + (b + (c + d)) = 0 := by linarith
  simp [normalize, channelSum, h4, h12, sceneMath, hs2, ha, hb, hc, hd]
  norm_num

/-- The buffers that `setINCCs` samples in the grey scene -/
theorem sampleTexs_grey :
    sampleTexs greyOptim (scenePatch [0, 1, 2, 3, 4]) [0, 1, 2, 3, 4] =
      [[1, 1, 1, 1, 1, 1, -1, -1, -1, -1, -1, -1], [1, 1, 1, -1, -1, -1, 1, 1, 1, -1, -1, -1],
       [1, 1, 1, 1, 1, 1, -1, -1, -1, -1, -1, -1], [-1, -1, -1, -1, -1, -1, 1, 1, 1, 1, 1, 1],
       [-1, -1, -1, -1, -1, -1, 1, 1, 1, 1, 1, 1]] := by
  have e1 := normalize_grey 1 1 (-1) (-1) (by norm_num) (by norm_num) (by norm_num)
    (by norm_num) (by norm_num)
  have e2 := normalize_grey 1 (-1) 1 (-1) (by norm_num) (by norm_num) (by norm_num)
    (by norm_num) (by norm_num)
  have e3 := normalize_grey (-1) (-1) 1 1 (by norm_num) (by norm_num) (by norm_num)
    (by norm_num) (by norm_num)
  simp [sampleTexs, grabNormalized, greyOptim, sceneOptim, greyTex, e1, e2, e3]

/-- Row `i` of the matrix of `setINCCs` -/
theorem inccsMatOfTexs_getD (texs : List (List K)) (size : Nat) (robust : Int) (i : Nat)
    (hi : i < size) :
    (inccsMatOfTexs texs size robust).getD i [] =
      (List.range size).map (fun j => inccEntry texs robust i j) := by
  simp [inccsMatOfTexs, List.getD_eq_getElem?_getD, List.getElem?_map, List.getElem?_range hi]

/-- The inner product of two grey 2 by 2 windows -/
theorem dot_grey (a b c d a2 b2 c2 d2 : ℚ) :
    dot [a, a, a, b, b, b, c, c, c, d, d, d] [a2, a2, a2, b2, b2, b2, c2, c2, c2, d2, d2, d2] =
      some ((a * a2 + b * b2 + c * c2 + d * d2) / 4) := by
  have h12 : List.range 12 = [0, 1, 2, 3, 4, 5, 6, 7, 8, 9, 10, 11] := by decide
  simp only [dot, List.length_cons, List.length_nil, h12]
  norm_num
  ring


/-- The row sums of the grey scene: with `robust = 1` the rows of images 0, 2, 3, 4 sum
to 23/28 and the row of image 1 to 1; with `robust = 0` row 0 sums to 5 and row 1 to 4 -/
theorem refRowSum_grey :
    refRowSum greyOptim (scenePatch [0, 1, 2, 3, 4]) 1 0 = some (23 / 28) ∧
    refRowSum greyOptim (scenePatch [0, 1, 2, 3, 4]) 1 1 = some 1 ∧
    refRowSum greyOptim (scenePatch [0, 1, 2, 3, 4]) 1 2 = some (23 / 28) ∧
    refRowSum greyOptim (scenePatch [0, 1, 2, 3, 4]) 1 3 = some (23 / 28) ∧
    refRowSum greyOptim (scenePatch [0, 1, 2, 3, 4]) 1 4 = some (23 / 28) ∧
    refRowSum greyOptim (scenePatch [0, 1, 2, 3, 4]) 0 0 = some 5 ∧
    refRowSum greyOptim (scenePatch [0, 1, 2, 3, 4]) 0 1 = some 4 := by
  have h5 : List.range 5 = [0, 1, 2, 3, 4] := by decide
  have ht : targetImages greyOptim (scenePatch [0, 1, 2, 3, 4]) = [0, 1, 2, 3, 4] := by
    simp [targetImages, greyOptim, sceneOptim, sceneFm, scenePatch]
  simp only [refRowSum, setINCCsMat, ht, sampleTexs_grey]
  refine ⟨?_, ?_, ?_, ?_, ?_, ?_, ?_⟩ <;>
  · rw [inccsMatOfTexs_getD _ _ _ _ (by decide)]
    simp only [List.length_cons, List.length_nil, h5, List.map_cons, List.map_nil]
    norm_num [inccEntry, dot_grey, inccOf, robustincc, accumulate, Fval.add]

/-- C2 (counterexample): five target images with grey ±1 windows.  `setRefImage` keeps
image 0 in front, whose row of plain dissimilarities `1 - NCC` sums to 5, although the
row of image 1 sums to 4. -/
theorem setRefImage_plain_sum_counterexample :
    setRefImage greyOptim (scenePatch [0, 1, 2, 3, 4]) = some [0, 1, 2, 3, 4] ∧
    targetImages greyOptim (scenePatch [0, 1, 2, 3, 4]) = [0, 1, 2, 3, 4] ∧
    Fval.lt (refRowSum greyOptim (scenePatch [0, 1, 2, 3, 4]) 0 1)
      (refRowSum greyOptim (scenePatch [0, 1, 2, 3, 4]) 0 0) = true := by
  have h5 : List.range 5 = [0, 1, 2, 3, 4] := by decide
  have ht : targetImages greyOptim (scenePatch [0, 1, 2, 3, 4]) = [0, 1, 2, 3, 4] := by
    simp [targetImages, greyOptim, sceneOptim, sceneFm, scenePatch]
  obtain ⟨r0, r1, r2, r3, r4, p0, p1⟩ := refRowSum_grey
  simp only [refRowSum, ht] at r0 r1 r2 r3 r4
  refine ⟨?_, ht, ?_⟩
  · have hf : (scenePatch [0, 1, 2, 3, 4]).m_images.filter
        (fun i => decide (i < greyOptim.m_fm.m_tnum)) = [0, 1, 2, 3, 4] := ht
    have hs : refSearch (setINCCsMat greyOptim (scenePatch [0, 1, 2, 3, 4]) [0, 1, 2, 3, 4] 1)
        ([0, 1, 2, 3, 4] : List Int).length = (0, some (23 / 28)) := by
      simp only [refSearch, List.length_cons, List.length_nil, h5, List.foldl_cons,
        List.foldl_nil, r0, r1, r2, r3, r4]
      norm_num [Fval.lt, INT_MAX_HALF]
    simp only [setRefImage, hf, hs]
    simp [swapToFront, scenePatch]
  · rw [p0, p1]; norm_num [Fval.lt]

/-- C2 (amended): when some target-range image has a row sum below the sentinel
`INT_MAX/2`, `setRefImage` puts in front a target-range image whose row sum, in the
matrix that `setINCCs` builds with `robust = 1` (entries `robust(1 - NCC)`, and 2 where
a window is empty), is smallest: no target-range image has a row sum below it. -/
theorem setRefImage_min_robust (o : Coptim K) (patch : Cpatch K)
    (hsum : ∃ i, i < (targetImages o patch).length ∧
      Fval.lt (refRowSum o patch 1 i) (some INT_MAX_HALF) = true) :
    ∃ r k, setRefImage o patch = some r ∧ k < (targetImages o patch).length ∧
      r.head? = some ((targetImages o patch).getD k 0) ∧
      (targetImages o patch).getD k 0 < o.m_fm.m_tnum ∧
      ∀ j, j < (targetImages o patch).length →
        Fval.lt (refRowSum o patch 1 j) (refRowSum o patch 1 k) = false := by
  obtain ⟨k, hk, hset, hmin, hmem, htn⟩ := setRefImage_choice o patch hsum
  obtain ⟨_, _, _, _, _, hhead⟩ := swapToFront_spec patch.m_images _ hmem
  exact ⟨_, k, hset, hk, hhead, htn, hmin⟩

/-- Row 0 of the grey scene is below the sentinel -/
theorem grey_row_below_sentinel :
    ∃ i, i < (targetImages greyOptim (scenePatch [0, 1, 2, 3, 4])).length ∧
      Fval.lt (refRowSum greyOptim (scenePatch [0, 1, 2, 3, 4]) 1 i) (some INT_MAX_HALF) = true := by
  refine ⟨0, ?_, ?_⟩
  · simp [targetImages, greyOptim, sceneOptim, sceneFm, scenePatch]
  · rw [refRowSum_grey.1]; norm_num [Fval.lt, INT_MAX_HALF]

/-- C2 (witness): the amended statement in the grey scene -/
theorem setRefImage_min_robust_witness :
    (∃ i, i < (targetImages greyOptim (scenePatch [0, 1, 2, 3, 4])).length ∧
      Fval.lt (refRowSum greyOptim (scenePatch [0, 1, 2, 3, 4]) 1 i) (some INT_MAX_HALF) = true) ∧
    ∃ r k, setRefImage greyOptim (scenePatch [0, 1, 2, 3, 4]) = some r ∧
      k < (targetImages greyOptim (scenePatch [0, 1, 2, 3, 4])).length ∧
      r.head? = some ((targetImages greyOptim (scenePatch [0, 1, 2, 3, 4])).getD k 0) ∧
      (targetImages greyOptim (scenePatch [0, 1, 2, 3, 4])).getD k 0 < greyOptim.m_fm.m_tnum ∧
      ∀ j, j < (targetImages greyOptim (scenePatch [0, 1, 2, 3, 4])).length →
        Fval.lt (refRowSum greyOptim (scenePatch [0, 1, 2, 3, 4]) 1 j)
          (refRowSum greyOptim (scenePatch [0, 1, 2, 3, 4]) 1 k) = false :=
  ⟨grey_row_below_sentinel,
    setRefImage_min_robust greyOptim (scenePatch [0, 1, 2, 3, 4]) grey_row_below_sentinel⟩

/-- C3 (witness): the swap in the grey scene -/
theorem setRefImage_swaps_witness :
    (∃ i, i < (targetImages greyOptim (scenePatch [0, 1, 2, 3, 4])).length ∧
      Fval.lt (refRowSum greyOptim (scenePatch [0, 1, 2, 3, 4]) 1 i) (some INT_MAX_HALF) = true) ∧
    ∃ r i, setRefImage greyOptim (scenePatch [0, 1, 2, 3, 4]) = some r ∧
      i < (scenePatch [0, 1, 2, 3, 4]).m_images.length ∧
      r = ((scenePatch [0, 1, 2, 3, 4]).m_images.set 0
        ((scenePatch [0, 1, 2, 3, 4]).m_images.getD i 0)).set i
          ((scenePatch [0, 1, 2, 3, 4]).m_images.getD 0 0) ∧
      r.Perm (scenePatch [0, 1, 2, 3, 4]).m_images ∧
      r.length = (scenePatch [0, 1, 2, 3, 4]).m_images.length ∧
      ∃ x, r.head? = some x ∧ x < greyOptim.m_fm.m_tnum :=
  ⟨grey_row_below_sentinel,
    setRefImage_swaps greyOptim (scenePatch [0, 1, 2, 3, 4]) grey_row_below_sentinel⟩

/-- Away from the first position the loop of `filterImagesByAngle` appends the images
that pass the angle test -/
theorem filterImagesByAngleLoop_false (o : Coptim K) (patch : Cpatch K) (rest acc : List Int) :
    filterImagesByAngleLoop o patch rest false acc = acc ++ rest.filter (passesAngle o patch) := by
  induction rest generalizing acc with
  | nil => simp [filterImagesByAngleLoop]
  | cons x xs ih =>
    by_cases hx : rayDotNormal o patch.m_coord patch.m_normal x
        < o.math.cos o.m_fm.m_angleThreshold1
    · simp [filterImagesByAngleLoop, hx, ih, passesAngle]
    · simp [filterImagesByAngleLoop, hx, ih, passesAngle]

/-- The result of `filterImagesByAngle`: empty when the first image fails the angle test,
else the images that pass -/
theorem filterImagesByAngle_eq (o : Coptim K) (patch : Cpatch K) :
    filterImagesByAngle o patch =
      match patch.m_images with
      | [] => []
      | x :: _ => if passesAngle o patch x then patch.m_images.filter (passesAngle o patch) else [] := by
  unfold filterImagesByAngle
  cases patch.m_images with
  | nil => simp [filterImagesByAngleLoop]
  | cons x xs =>
    by_cases hx : rayDotNormal o patch.m_coord patch.m_normal x
        < o.math.cos o.m_fm.m_angleThreshold1
    · simp [filterImagesByAngleLoop, hx, passesAngle]
    · simp [filterImagesByAngleLoop, hx, passesAngle, filterImagesByAngleLoop_false]

/-- Every image that `filterImagesByAngle` leaves passes the angle test, is an image of
the input, and the head of a non-empty result is the head of the input -/
theorem filterImagesByAngle_mem (o : Coptim K) (patch : Cpatch K) (i : Int)
    (hi : i ∈ filterImagesByAngle o patch) :
    i ∈ patch.m_images ∧
      o.math.cos o.m_fm.m_angleThreshold1 ≤ rayDotNormal o patch.m_coord patch.m_normal i := by
  rw [filterImagesByAngle_eq] at hi
  cases hp : patch.m_images with
  | nil => simp [hp] at hi
  | cons x xs =>
    simp only [hp] at hi
    by_cases hx : passesAngle o patch x = true
    · simp only [hx, if_true] at hi
      have := List.mem_filter.1 hi
      refine ⟨this.1, ?_⟩
      have h2 := this.2
      simp only [passesAngle, Bool.not_eq_true', decide_eq_false_iff_not, not_lt] at h2
      exact h2
    · simp [hx] at hi

/-- The head of a non-empty result of `filterImagesByAngle` is the head of the input -/
theorem filterImagesByAngle_head (o : Coptim K) (patch : Cpatch K)
    (hne : filterImagesByAngle o patch ≠ []) :
    (filterImagesByAngle o patch).head? = patch.m_images.head? := by
  rw [filterImagesByAngle_eq] at hne ⊢
  cases hp : patch.m_images with
  | nil => simp
  | cons x xs =>
    simp only [hp] at hne ⊢
    by_cases hx : passesAngle o patch x = true
    · simp [hx, List.filter_cons]
    · simp [hx] at hne

/-- The swap loop of `setRefImage` permutes the list -/
theorem swapToFront_perm (images : List Int) (refIndex : Int) :
    (swapToFront images refIndex).Perm images := by
  by_cases hmem : refIndex ∈ images
  · exact (swapToFront_spec images refIndex hmem).choose_spec.2.2.2.1
  · have : ¬ images.indexOf refIndex < images.length := by
      rw [List.indexOf_lt_length]; exact hmem
    simp [swapToFront, this]

/-- What a defined call of `setRefImage` returns: the empty list when there is no
target-range image, else the input with a target-range image swapped to the front -/
theorem setRefImage_some (o : Coptim K) (patch : Cpatch K) (r : List Int)
    (h : setRefImage o patch = some r) :
    (r = [] ∧ targetImages o patch = []) ∨
      (r.Perm patch.m_images ∧ ∃ x, r.head? = some x ∧ x < o.m_fm.m_tnum) := by
  by_cases hne : targetImages o patch = []
  · left
    have hne2 : List.filter (fun i => decide (i < o.m_fm.m_tnum)) patch.m_images = [] := hne
    simp only [setRefImage, hne2, if_true] at h
    exact ⟨by cases h; rfl, hne⟩
  · right
    have hne2 : ¬ (List.filter (fun i => decide (i < o.m_fm.m_tnum)) patch.m_images = []) := hne
    simp only [setRefImage, hne2, if_false] at h
    obtain ⟨b, _, _, hcase⟩ :=
      refSearch_inv (setINCCsMat o patch (targetImages o patch) 1) (targetImages o patch).length
    have hcase2 := hcase
    simp only [targetImages] at hcase2
    rcases hcase2 with ⟨h1, _⟩ | ⟨k, hk, hr, _, _⟩
    · rw [h1] at h; simp at h
    · rw [hr] at h
      simp only [Int.toNat_ofNat, Int.natCast_nonneg, not_lt.2, if_false] at h
      have hlt : ¬ ((k : Int) < 0) := by omega
      simp only [hlt, if_false, Option.some.injEq] at h
      have hmemT : (List.filter (fun i => decide (i < o.m_fm.m_tnum)) patch.m_images).getD k 0 ∈
          List.filter (fun i => decide (i < o.m_fm.m_tnum)) patch.m_images := by
        rw [List.getD_eq_getElem _ _ hk]; exact List.getElem_mem _
      have hmem := List.mem_filter.1 hmemT
      obtain ⟨_, _, _, _, hperm, hhead⟩ := swapToFront_spec patch.m_images _ hmem.1
      rw [← h]
      exact ⟨hperm, _, hhead, by simpa using hmem.2⟩

/-- The counting loop of `postProcess` counts the entries below `tnum` -/
theorem countTimages_eq (tnum : Int) (images : List Int) :
    countTimages tnum images = ((images.filter (fun i => decide (i < tnum))).length : Int) := by
  have key : ∀ (l : List Int) (t : Int),
      l.foldl (fun t i => if i < tnum then t + 1 else t) t =
        t + ((l.filter (fun i => decide (i < tnum))).length : Int) := by
    intro l
    induction l with
    | nil => intro t; simp
    | cons x xs ih =>
      intro t
      by_cases hx : x < tnum
      · simp [hx, ih, List.filter_cons]; ring
      · simp [hx, ih, List.filter_cons]
  simpa [countTimages] using key images 0

/-- A rejecting `check` has cleared the image list -/
theorem check_ne_zero (o : Coptim K) (patch : Cpatch K) (h : (check o patch).1 ≠ 0) :
    (check o patch).1 = 1 ∧ (check o patch).2.m_images = [] := by
  simp only [check] at h ⊢
  split_ifs at h ⊢ <;> simp_all

/-- An accepting `check` has written `m_tmp` only -/
theorem check_zero (o : Coptim K) (patch : Cpatch K) (h : ¬ (check o patch).1 ≠ 0) :
    (check o patch).2 = { patch with m_tmp := o.m_fm.computeGain patch } := by
  simp only [check] at h ⊢
  split_ifs at h ⊢ <;> simp_all

/-- The two outcomes of the tail of `postProcess`: status 0 with the image list, the
position and the normal as they were and `m_timages` counted, or status 1 with the image
list cleared by `check` -/
theorem postProcessTail_cases (o : Coptim K) (patch : Cpatch K) :
    ((postProcessTail o patch).1 = 0 ∧ (postProcessTail o patch).2.m_images = patch.m_images ∧
      (postProcessTail o patch).2.m_coord = patch.m_coord ∧
      (postProcessTail o patch).2.m_normal = patch.m_normal ∧
      (postProcessTail o patch).2.m_timages = countTimages o.m_fm.m_tnum patch.m_images) ∨
    ((postProcessTail o patch).1 = 1 ∧ (postProcessTail o patch).2.m_images = [] ∧
      2 ≤ o.m_fm.m_depth) := by
  simp only [postProcessTail]
  split_ifs with hd hd2 hc
  · right
    exact ⟨rfl, (check_ne_zero o _ hc).2, hd2⟩
  · left
    refine ⟨rfl, ?_, ?_, ?_, ?_⟩ <;> simp only [check_zero o _ hc]
  · left; exact ⟨rfl, rfl, rfl, rfl, rfl⟩
  · left; exact ⟨rfl, rfl, rfl, rfl, rfl⟩

/-- The run of a `postProcess` call that gets past its two entry tests: the lists after
`addImages`, `constraintImages`, `filterImagesByAngle`, `setRefImage`, `constraintImages` -/
theorem postProcess_run (o : Coptim K) (patch : Cpatch K) (s : Int) (p2 : Cpatch K)
    (h : postProcess o patch = some (s, p2)) :
    (s = 1 ∧ p2 = patch ∧ ((patch.m_images.length : Int) < o.m_fm.m_minImageNumThreshold ∨
      o.m_fm.getMask patch.m_coord o.m_fm.m_level = 0 ∨ o.m_fm.insideBimages patch.m_coord = 0)) ∨
    ∃ images1 images2, addImages o patch = some images1 ∧
      constraintImages o { patch with m_images := images1 } o.m_fm.m_nccThreshold = some images2 ∧
      ((s = 1 ∧ p2 = { patch with m_images := filterImagesByAngle o { patch with m_images := images2 } } ∧
          ((filterImagesByAngle o { patch with m_images := images2 }).length : Int)
            < o.m_fm.m_minImageNumThreshold) ∨
        ∃ images3 images4,
          setRefImage o { patch with
            m_images := filterImagesByAngle o { patch with m_images := images2 } } = some images3 ∧
          constraintImages o { patch with m_images := images3 } o.m_fm.m_nccThreshold = some images4 ∧
          ((s = 1 ∧ p2 = { patch with m_images := images4 } ∧
              (images4.length : Int) < o.m_fm.m_minImageNumThreshold) ∨
            (¬ ((images4.length : Int) < o.m_fm.m_minImageNumThreshold) ∧
              (s, p2) = postProcessTail o { patch with m_images := images4 }))) := by
  unfold postProcess at h
  by_cases h1 : (patch.m_images.length : Int) < o.m_fm.m_minImageNumThreshold
  · simp only [h1, if_true, Option.some.injEq, Prod.mk.injEq] at h
    exact Or.inl ⟨h.1.symm, h.2.symm, Or.inl h1⟩
  · simp only [h1, if_false] at h
    by_cases h2 : o.m_fm.getMask patch.m_coord o.m_fm.m_level = 0 ∨ o.m_fm.insideBimages patch.m_coord = 0
    · simp only [h2, if_true, Option.some.injEq, Prod.mk.injEq] at h
      exact Or.inl ⟨h.1.symm, h.2.symm, Or.inr h2⟩
    · simp only [h2, if_false] at h
      right
      cases ha : addImages o patch with
      | none => simp [ha] at h
      | some images1 =>
        simp only [ha, Option.some_bind] at h
        cases hc : constraintImages o { patch with m_images := images1 } o.m_fm.m_nccThreshold with
        | none => simp [hc] at h
        | some images2 =>
          simp only [hc, Option.some_bind] at h
          refine ⟨images1, images2, rfl, hc, ?_⟩
          by_cases h3 : ((filterImagesByAngle o { patch with m_images := images2 }).length : Int)
              < o.m_fm.m_minImageNumThreshold
          · simp only [h3, if_true, Option.some.injEq, Prod.mk.injEq] at h
            exact Or.inl ⟨h.1.symm, h.2.symm, h3⟩
          · simp only [h3, if_false] at h
            right
            cases hs : setRefImage o { patch with
                m_images := filterImagesByAngle o { patch with m_images := images2 } } with
            | none => simp [hs] at h
            | some images3 =>
              simp only [hs, Option.some_bind] at h
              cases hc2 : constraintImages o { patch with m_images := images3 }
                  o.m_fm.m_nccThreshold with
              | none => simp [hc2] at h
              | some images4 =>
                simp only [hc2, Option.some_bind] at h
                refine ⟨images3, images4, rfl, hc2, ?_⟩
                by_cases h4 : (images4.length : Int) < o.m_fm.m_minImageNumThreshold
                · simp only [h4, if_true, Option.some.injEq, Prod.mk.injEq] at h
                  exact Or.inl ⟨h.1.symm, h.2.symm, h4⟩
                · simp only [h4, if_false, Option.some.injEq] at h
                  exact Or.inr ⟨h4, h.symm⟩

/-- What an accepted `postProcess` leaves: the final list is a subsequence of the list
that `setRefImage` returned, which permutes the output of `filterImagesByAngle`; it has
at least `minImageNumThreshold` entries and an in-range head; position and normal are
those of the input and `m_timages` is the count of the final list -/
theorem postProcess_accept (o : Coptim K) (patch p2 : Cpatch K)
    (h : postProcess o patch = some (0, p2)) :
    ∃ images2 images3,
      images3.Perm (filterImagesByAngle o { patch with m_images := images2 }) ∧
      p2.m_images.Sublist images3 ∧ p2.m_images.head? = images3.head? ∧
      (∃ x, images3.head? = some x ∧ x < o.m_fm.m_tnum) ∧
      o.m_fm.m_minImageNumThreshold ≤ (p2.m_images.length : Int) ∧
      p2.m_coord = patch.m_coord ∧ p2.m_normal = patch.m_normal ∧
      p2.m_timages = countTimages o.m_fm.m_tnum p2.m_images := by
  rcases postProcess_run o patch 0 p2 h with ⟨h0, _⟩ | ⟨images1, images2, _, _, hrest⟩
  · exact absurd h0 (by decide)
  · rcases hrest with ⟨h0, _⟩ | ⟨images3, images4, hs, hc2, hrest2⟩
    · exact absurd h0 (by decide)
    · rcases hrest2 with ⟨h0, _⟩ | ⟨hlen, htail⟩
      · exact absurd h0 (by decide)
      · obtain ⟨hne3, hsub, _, hhead⟩ := constraintImages_some o _ _ _ hc2
        have hne3b : images3 ≠ [] := hne3
        rcases postProcessTail_cases o { patch with m_images := images4 } with
          ⟨_, hi, hco, hn, ht⟩ | ⟨h1, _, _⟩
        · rw [← htail] at hi hco hn ht
          simp only at hi hco hn ht
          rcases setRefImage_some o _ _ hs with ⟨hnil, _⟩ | ⟨hperm, hx⟩
          · exact absurd hnil hne3b
          · refine ⟨images2, images3, hperm, ?_, ?_, hx, ?_, hco, hn, ?_⟩
            · rw [hi]; exact hsub
            · rw [hi]; exact hhead
            · rw [hi]; exact not_lt.1 hlen
            · rw [ht, hi]
        · rw [← htail] at h1
          simp at h1

/-- C4: when `postProcess` returns 0 the patch has at least `minImageNumThreshold` images
and every one of them satisfies `ray · normal ≥ cos(angleThreshold1)` for the unit ray
from the patch position to the camera centre. -/
theorem postProcess_count_angle (o : Coptim K) (patch p2 : Cpatch K)
    (h : postProcess o patch = some (0, p2)) :
    o.m_fm.m_minImageNumThreshold ≤ (p2.m_images.length : Int) ∧
    ∀ i, i ∈ p2.m_images →
      o.math.cos o.m_fm.m_angleThreshold1 ≤ rayDotNormal o p2.m_coord p2.m_normal i := by
  obtain ⟨images2, images3, hperm, hsub, _, _, hlen, hco, hn, _⟩ := postProcess_accept o patch p2 h
  refine ⟨hlen, ?_⟩
  intro i hi
  have h3 : i ∈ filterImagesByAngle o { patch with m_images := images2 } :=
    hperm.subset (hsub.subset hi)
  have := (filterImagesByAngle_mem o _ i h3).2
  rw [hco, hn]
  exact this

/-- C5: when `postProcess` returns 0 the list has a first image, that image is below
`tnum`, and `m_timages` is the number of entries of the list that are below `tnum`, which
is at least 1. -/
theorem postProcess_reference_target (o : Coptim K) (patch p2 : Cpatch K)
    (h : postProcess o patch = some (0, p2)) :
    (∃ x, p2.m_images.head? = some x ∧ x < o.m_fm.m_tnum) ∧
    p2.m_timages = ((p2.m_images.filter (fun i => decide (i < o.m_fm.m_tnum))).length : Int) ∧
    1 ≤ p2.m_timages := by
  obtain ⟨images2, images3, _, _, hhead, ⟨x, hx, hxt⟩, _, _, _, ht⟩ := postProcess_accept o patch p2 h
  have hh : p2.m_images.head? = some x := by rw [hhead, hx]
  have hcount : p2.m_timages =
      ((p2.m_images.filter (fun i => decide (i < o.m_fm.m_tnum))).length : Int) := by
    rw [ht, countTimages_eq]
  refine ⟨⟨x, hh, hxt⟩, hcount, ?_⟩
  rw [hcount]
  cases hp : p2.m_images with
  | nil => rw [hp] at hh; simp at hh
  | cons y ys =>
    rw [hp] at hh
    simp only [List.head?_cons, Option.some.injEq] at hh
    subst hh
    simp [List.filter_cons, hxt]

/-- The buffers of images 0 and 2 of the grey scene -/
theorem sampleTexs_grey_pair :
    sampleTexs greyOptim (scenePatch [0, 2]) [0, 2] =
      [[1, 1, 1, 1, 1, 1, -1, -1, -1, -1, -1, -1], [1, 1, 1, 1, 1, 1, -1, -1, -1, -1, -1, -1]] := by
  have e1 := normalize_grey 1 1 (-1) (-1) (by norm_num) (by norm_num) (by norm_num)
    (by norm_num) (by norm_num)
  simp [sampleTexs, grabNormalized, greyOptim, sceneOptim, greyTex, e1]

/-- In the grey scene `constraintImages` keeps both of the images 0 and 2 -/
theorem constraintImages_grey_pair :
    constraintImages greyOptim (scenePatch [0, 2]) (1 / 2) = some [0, 2] := by
  have h2 : List.range 2 = [0, 1] := by decide
  have hi : (scenePatch [0, 2]).m_images = [0, 2] := rfl
  simp only [constraintImages, hi, setINCCs, sampleTexs_grey_pair]
  simp [inccsOfTexs, inccOf, dot_grey, h2, Fval.lt, List.range']
  norm_num

/-- In the grey scene `setRefImage` leaves the list `[0, 2]` as it is -/
theorem setRefImage_grey_pair :
    setRefImage greyOptim (scenePatch [0, 2]) = some [0, 2] := by
  have h2 : List.range 2 = [0, 1] := by decide
  have hf : (scenePatch [0, 2]).m_images.filter
      (fun i => decide (i < greyOptim.m_fm.m_tnum)) = [0, 2] := by
    simp [greyOptim, sceneOptim, sceneFm, scenePatch]
  have hs : refSearch (setINCCsMat greyOptim (scenePatch [0, 2]) [0, 2] 1)
      ([0, 2] : List Int).length = (0, some 0) := by
    simp only [refSearch, setINCCsMat, sampleTexs_grey_pair, List.length_cons, List.length_nil,
      h2, List.foldl_cons, List.foldl_nil]
    simp [inccsMatOfTexs, inccEntry, inccOf, dot_grey, robustincc, accumulate, Fval.add,
      Fval.lt, INT_MAX_HALF, h2]
    norm_num
  simp only [setRefImage, hf, hs]
  simp [swapToFront, scenePatch]

/-- In the grey scene both images 0 and 2 pass the angle test -/
theorem filterImagesByAngle_grey_pair :
    filterImagesByAngle greyOptim (scenePatch [0, 2]) = [0, 2] := by
  norm_num [filterImagesByAngle, filterImagesByAngleLoop, rayDotNormal, unitize, norm, Vec4f.dot,
    Vec4f.sub, Vec4f.smul, greyOptim, sceneOptim, sceneFm, sceneMath, scenePatch]

/-- In the grey scene `postProcess` accepts the patch with images 0 and 2 -/
theorem postProcess_grey_pair :
    postProcess greyOptim (scenePatch [0, 2]) =
      some (0, { scenePatch [0, 2] with m_timages := 2 }) := by
  have hp : ({ scenePatch [0, 2] with m_images := [0, 2] } : Cpatch ℚ) = scenePatch [0, 2] := rfl
  have ha : addImages greyOptim (scenePatch [0, 2]) = some [0, 2] := by
    simp [addImages, greyOptim, sceneOptim, sceneFm, scenePatch]
  have hthr : greyOptim.m_fm.m_nccThreshold = 1 / 2 := rfl
  have hmin : greyOptim.m_fm.m_minImageNumThreshold = 2 := rfl
  have hmask : greyOptim.m_fm.getMask (scenePatch [0, 2]).m_coord greyOptim.m_fm.m_level = 1 := rfl
  have hbim : greyOptim.m_fm.insideBimages (scenePatch [0, 2]).m_coord = 1 := rfl
  have hlen : (scenePatch [0, 2]).m_images.length = 2 := rfl
  simp only [postProcess, ha, hthr, hmin, hmask, hbim, hlen, Option.some_bind, hp,
    constraintImages_grey_pair, filterImagesByAngle_grey_pair, setRefImage_grey_pair]
  norm_num [postProcessTail, countTimages, greyOptim, sceneOptim, sceneFm, scenePatch]

/-- C4 (witness): the accepted patch of the grey scene -/
theorem postProcess_count_angle_witness :
    postProcess greyOptim (scenePatch [0, 2]) =
      some (0, { scenePatch [0, 2] with m_timages := 2 }) ∧
    (greyOptim.m_fm.m_minImageNumThreshold ≤
        (({ scenePatch [0, 2] with m_timages := 2 } : Cpatch ℚ).m_images.length : Int) ∧
      ∀ i, i ∈ ({ scenePatch [0, 2] with m_timages := 2 } : Cpatch ℚ).m_images →
        greyOptim.math.cos greyOptim.m_fm.m_angleThreshold1 ≤
          rayDotNormal greyOptim ({ scenePatch [0, 2] with m_timages := 2 } : Cpatch ℚ).m_coord
            ({ scenePatch [0, 2] with m_timages := 2 } : Cpatch ℚ).m_normal i) :=
  ⟨postProcess_grey_pair,
    postProcess_count_angle greyOptim (scenePatch [0, 2]) _ postProcess_grey_pair⟩

/-- C5 (witness): the accepted patch of the grey scene -/
theorem postProcess_reference_target_witness :
    postProcess greyOptim (scenePatch [0, 2]) =
      some (0, { scenePatch [0, 2] with m_timages := 2 }) ∧
    ((∃ x, ({ scenePatch [0, 2] with m_timages := 2 } : Cpatch ℚ).m_images.head? = some x ∧
        x < greyOptim.m_fm.m_tnum) ∧
      ({ scenePatch [0, 2] with m_timages := 2 } : Cpatch ℚ).m_timages =
        ((({ scenePatch [0, 2] with m_timages := 2 } : Cpatch ℚ).m_images.filter
          (fun i => decide (i < greyOptim.m_fm.m_tnum))).length : Int) ∧
      1 ≤ ({ scenePatch [0, 2] with m_timages := 2 } : Cpatch ℚ).m_timages) :=
  ⟨postProcess_grey_pair,
    postProcess_reference_target greyOptim (scenePatch [0, 2]) _ postProcess_grey_pair⟩

/-- The loop of `addImages` appends the candidates that are not in the list on entry and
pass the tests -/
theorem addImages_eq (o : Coptim K) (patch : Cpatch K) (h : patch.m_images ≠ []) :
    addImages o patch = some (patch.m_images ++
      (o.m_fm.m_visdata2 (patch.m_images.getD 0 0)).filter
        (fun b => !decide (b ∈ patch.m_images) && addImagesAccepts o patch b)) := by
  have key : ∀ (l acc : List Int),
      l.foldl (fun images b =>
        if decide (b ∈ patch.m_images) then images
        else if addImagesAccepts o patch b then images ++ [b] else images) acc =
      acc ++ l.filter (fun b => !decide (b ∈ patch.m_images) && addImagesAccepts o patch b) := by
    intro l
    induction l with
    | nil => intro acc; simp
    | cons b l ih =>
      intro acc
      rw [List.foldl_cons, ih, List.filter_cons]
      by_cases hb : b ∈ patch.m_images
      · simp [hb]
      · by_cases ha : addImagesAccepts o patch b = true
        · simp [hb, ha]
        · simp [hb, ha]
  simp only [addImages, h, if_false, key]

/-- When the list is non-empty and duplicate-free and the covisibility list
`visdata2[images[0]]` is duplicate-free, `addImages` returns a duplicate-free list that
has the input as a prefix -/
theorem addImages_nodup (o : Coptim K) (patch : Cpatch K) (hne : patch.m_images ≠ [])
    (hnd : patch.m_images.Nodup)
    (hvis : (o.m_fm.m_visdata2 (patch.m_images.getD 0 0)).Nodup) :
    ∃ r, addImages o patch = some r ∧ patch.m_images <+: r ∧ r.Nodup := by
  refine ⟨_, addImages_eq o patch hne, List.prefix_append _ _, ?_⟩
  rw [List.nodup_append]
  refine ⟨hnd, hvis.filter _, ?_⟩
  intro a ha hb
  have := (List.mem_filter.1 hb).2
  simp [ha] at this

/-- The run of a defined `preProcess` call: the lists after `addImages` and
`constraintImages`, and the three ways out -/
theorem preProcess_run (o : Coptim K) (patch : Cpatch K) (s : Int) (p2 : Cpatch K)
    (h : preProcess o patch = some (s, p2)) :
    ∃ images1 images2, addImages o patch = some images1 ∧
      constraintImages o { patch with m_images := images1 } o.m_fm.m_nccThresholdBefore
        = some images2 ∧
      ((s = 1 ∧ p2.m_images = sortImages o { patch with m_images := images2 } ∧
          ((sortImages o { patch with m_images := images2 }).length : Int)
            < o.m_fm.m_minImageNumThreshold) ∨
        (s = 1 ∧ p2.m_images = [] ∧
          ¬ ((sortImages o { patch with m_images := images2 }).length : Int)
            < o.m_fm.m_minImageNumThreshold) ∨
        (s = 0 ∧ p2.m_images = sortImages o { patch with m_images := images2 } ∧
          ¬ ((sortImages o { patch with m_images := images2 }).length : Int)
            < o.m_fm.m_minImageNumThreshold)) := by
  unfold preProcess at h
  cases ha : addImages o patch with
  | none => simp [ha] at h
  | some images1 =>
    simp only [ha, Option.some_bind] at h
    cases hc : constraintImages o { patch with m_images := images1 }
        o.m_fm.m_nccThresholdBefore with
    | none => simp [hc] at h
    | some images2 =>
      simp only [hc, Option.some_bind] at h
      refine ⟨images1, images2, rfl, hc, ?_⟩
      split_ifs at h with h1 h2 h3 h4 h5 <;>
        simp only [Option.some.injEq, Prod.mk.injEq] at h <;>
        obtain ⟨hs, hp⟩ := h <;> subst hs <;> subst hp <;> simp_all

/-- The exits with status 1: when `preProcess` returns 1 the list on return is empty or shorter than
`minImageNumThreshold` (that exit does not clear it); when `postProcess` returns 1 the
list on return is empty, or shorter than `minImageNumThreshold`, or the mask or
bounding-image test failed and the patch is returned as it came -/
theorem reject_images (o : Coptim K) (patch p2 : Cpatch K) :
    (preProcess o patch = some (1, p2) →
      p2.m_images = [] ∨ (p2.m_images.length : Int) < o.m_fm.m_minImageNumThreshold) ∧
    (postProcess o patch = some (1, p2) →
      p2.m_images = [] ∨ (p2.m_images.length : Int) < o.m_fm.m_minImageNumThreshold ∨
        ((o.m_fm.getMask patch.m_coord o.m_fm.m_level = 0 ∨ o.m_fm.insideBimages patch.m_coord = 0) ∧
          p2 = patch)) := by
  constructor
  · intro h
    obtain ⟨_, _, _, _, hcase⟩ := preProcess_run o patch 1 p2 h
    rcases hcase with ⟨_, hi, hl⟩ | ⟨_, hi, _⟩ | ⟨h0, _, _⟩
    · right; rw [hi]; exact hl
    · left; exact hi
    · exact absurd h0 (by decide)
  · intro h
    rcases postProcess_run o patch 1 p2 h with ⟨_, hp, hc⟩ | ⟨images1, images2, _, _, hrest⟩
    · rcases hc with hc | hc
      · right; left; rw [hp]; exact hc
      · right; right; exact ⟨hc, hp⟩
    · rcases hrest with ⟨_, hp, hl⟩ | ⟨images3, images4, _, _, hrest2⟩
      · right; left; rw [hp]; exact hl
      · rcases hrest2 with ⟨_, hp, hl⟩ | ⟨_, htail⟩
        · right; left; rw [hp]; exact hl
        · rcases postProcessTail_cases o { patch with m_images := images4 } with
            ⟨h0, _⟩ | ⟨_, hi, _⟩
          · rw [← htail] at h0; simp at h0
          · rw [← htail] at hi; left; exact hi

/-- With `minImageNumThreshold = 3` the patch with the two images 0 and 2 is rejected at
the first test of `postProcess` and comes back as it was -/
theorem postProcess_strict_pair :
    postProcess strictOptim (scenePatch [0, 2]) = some (1, scenePatch [0, 2]) := by
  simp [postProcess, strictOptim, sceneOptim, sceneFm, scenePatch]

/-- The candidates of `sortImages` are at most as many as the images -/
theorem computeUnits_length_le (o : Coptim K) (patch : Cpatch K) :
    (computeUnits o patch).length ≤ patch.m_images.length := by
  unfold computeUnits
  exact List.length_filterMap_le _ _

/-- On a single image `constraintImages` returns the list as it is -/
theorem constraintImages_single (o : Coptim K) (patch : Cpatch K) (nccThreshold : K) (a : Int)
    (h : patch.m_images = [a]) : constraintImages o patch nccThreshold = some [a] := by
  simp [constraintImages, h, List.range']

/-- On fewer than two images `sortImages` empties the list -/
theorem sortImages_short (o : Coptim K) (patch : Cpatch K) (h : patch.m_images.length < 2) :
    sortImages o patch = [] := by
  have := computeUnits_length_le o patch
  have h2 : (computeUnits o patch).length < 2 := by omega
  simp [sortImages, h2]

/-- C8: a patch with a single image to which `addImages` adds nothing is rejected by
`preProcess` whenever `minImageNumThreshold ≥ 1`; and `preProcess` returns 0 only with at
least `minImageNumThreshold` images in the list. -/
theorem preProcess_single_image (o : Coptim K) (patch : Cpatch K) (a : Int)
    (himg : patch.m_images = [a]) (hadd : addImages o patch = some patch.m_images)
    (hmin : 1 ≤ o.m_fm.m_minImageNumThreshold) :
    (∃ p2, preProcess o patch = some (1, p2)) ∧
    (∀ q p3 : Cpatch K, preProcess o q = some (0, p3) →
      o.m_fm.m_minImageNumThreshold ≤ (p3.m_images.length : Int)) := by
  constructor
  · have hc : constraintImages o { patch with m_images := [a] } o.m_fm.m_nccThresholdBefore
        = some [a] := constraintImages_single o _ _ a rfl
    have hs : sortImages o { patch with m_images := [a] } = [] :=
      sortImages_short o _ (by simp)
    have hlt : (0 : Int) < o.m_fm.m_minImageNumThreshold := by omega
    rw [himg] at hadd
    refine ⟨{ patch with m_images := [] }, ?_⟩
    simp only [preProcess, hadd, Option.some_bind, hc, hs]
    simp [hlt]
  · intro q p3 h
    obtain ⟨_, _, _, _, hcase⟩ := preProcess_run o q 0 p3 h
    rcases hcase with ⟨h0, _⟩ | ⟨h0, _⟩ | ⟨_, hi, hl⟩
    · exact absurd h0 (by decide)
    · exact absurd h0 (by decide)
    · rw [hi]; exact not_lt.1 hl

/-- In the grey scene `sortImages` keeps the images 0 and 2 in their order -/
theorem sortImages_grey_pair : sortImages greyOptim (scenePatch [0, 2]) = [0, 2] := by
  have hc : computeUnits greyOptim (scenePatch [0, 2]) =
      [(0, 2, ⟨0, 0, 1, 0⟩), (2, 2, ⟨0, 0, 1, 0⟩)] := by
    norm_num [computeUnits, getUnit, unitize, norm, Vec4f.dot, Vec4f.sub, Vec4f.smul,
      greyOptim, sceneOptim, sceneFm, sceneMath, scenePatch, List.filterMap_cons]
  have h1 : List.range 1 = [0] := by decide
  have h2 : List.range 2 = [0, 1] := by decide
  simp only [sortImages, hc]
  norm_num [sortImagesLoop, minElement, List.enum, List.enumFrom, h1, h2, Vec4f.dot,
    greyOptim, sceneOptim, sceneMath, M_PI]

/-- In the grey scene `preProcess` accepts the patch with images 0 and 2 -/
theorem preProcess_grey_pair :
    preProcess greyOptim (scenePatch [0, 2]) = some (0, scenePatch [0, 2]) := by
  have hp : ({ scenePatch [0, 2] with m_images := [0, 2] } : Cpatch ℚ) = scenePatch [0, 2] := rfl
  have ha : addImages greyOptim (scenePatch [0, 2]) = some [0, 2] := by
    simp [addImages, greyOptim, sceneOptim, sceneFm, scenePatch]
  have hthr : greyOptim.m_fm.m_nccThresholdBefore = 1 / 2 := rfl
  simp only [preProcess, ha, hthr, Option.some_bind, hp, constraintImages_grey_pair,
    sortImages_grey_pair]
  simp [greyOptim, sceneOptim, sceneFm, scenePatch]

/-- The constant `M_PI` is below π -/
theorem M_PI_lt_pi : (M_PI : ℝ) < Real.pi := by
  have h := Real.pi_gt_d20
  have h2 : (M_PI : ℝ) < 3.14159265358979323846 := by
    unfold M_PI
    norm_num
  exact lt_trans h2 h

/-- The early exit of `my_f_lm`: an angle at or beyond `±M_PI/2` gives 2 in all three
components -/
theorem my_f_lm_cap (o : Coptim K) (s : Scratch K) (par : K × K × K)
    (h : M_PI / 2 ≤ |par.2.1 * s.m_ascalesT| ∨ M_PI / 2 ≤ |par.2.2 * s.m_ascalesT|) :
    my_f_lm o s par = (some 2, some 2, some 2) := by
  have hc : par.2.1 * s.m_ascalesT ≤ -M_PI / 2 ∨ M_PI / 2 ≤ par.2.1 * s.m_ascalesT ∨
      par.2.2 * s.m_ascalesT ≤ -M_PI / 2 ∨ M_PI / 2 ≤ par.2.2 * s.m_ascalesT := by
    rcases h with h | h
    · rcases le_abs'.1 h with h | h
      · left; linarith
      · right; left; exact h
    · rcases le_abs'.1 h with h | h
      · right; right; left; linarith
      · right; right; right; exact h
  simp only [my_f_lm, hc, if_true]

/-- C9: when `|p1·ascale| ≥ π/2` or `|p2·ascale| ≥ π/2` (for the constant `M_PI` of the
code, and so also for the real number π, which is larger), `my_f_lm` writes 2 into all
three components, whatever the images and textures are; and for every input the three
components are equal. -/
theorem my_f_lm_angle_cap :
    (∀ (K : Type) [LinearOrderedField K] (o : Coptim K) (s : Scratch K) (par : K × K × K),
      (M_PI / 2 ≤ |par.2.1 * s.m_ascalesT| ∨ M_PI / 2 ≤ |par.2.2 * s.m_ascalesT|) →
        my_f_lm o s par = (some 2, some 2, some 2)) ∧
    (∀ (o : Coptim ℝ) (s : Scratch ℝ) (par : ℝ × ℝ × ℝ),
      (Real.pi / 2 ≤ |par.2.1 * s.m_ascalesT| ∨ Real.pi / 2 ≤ |par.2.2 * s.m_ascalesT|) →
        my_f_lm o s par = (some 2, some 2, some 2)) ∧
    (∀ (K : Type) [LinearOrderedField K] (o : Coptim K) (s : Scratch K) (par : K × K × K),
      (my_f_lm o s par).1 = (my_f_lm o s par).2.1 ∧
        (my_f_lm o s par).2.1 = (my_f_lm o s par).2.2) := by
  refine ⟨?_, ?_, ?_⟩
  · intro K _ o s par h
    exact my_f_lm_cap o s par h
  · intro o s par h
    apply my_f_lm_cap
    have hpi : (M_PI : ℝ) / 2 ≤ Real.pi / 2 := by linarith [M_PI_lt_pi]
    rcases h with h | h
    · left; exact le_trans hpi h
    · right; exact le_trans hpi h
  · intro K _ o s par
    simp only [my_f_lm]
    split_ifs <;> exact ⟨rfl, rfl⟩

/-- C9 (witness): the parameter vector `(0, 100, 0)` with `ascale = 1` in the grey scene -/
theorem my_f_lm_angle_cap_witness :
    (M_PI / 2 ≤ |((0 : ℚ), (100 : ℚ), (0 : ℚ)).2.1 * (sceneScratch [0, 2]).m_ascalesT| ∨
      M_PI / 2 ≤ |((0 : ℚ), (100 : ℚ), (0 : ℚ)).2.2 * (sceneScratch [0, 2]).m_ascalesT|) ∧
    my_f_lm greyOptim (sceneScratch [0, 2]) (0, 100, 0) = (some 2, some 2, some 2) := by
  have h : M_PI / 2 ≤ |((0 : ℚ), (100 : ℚ), (0 : ℚ)).2.1 * (sceneScratch [0, 2]).m_ascalesT| ∨
      M_PI / 2 ≤ |((0 : ℚ), (100 : ℚ), (0 : ℚ)).2.2 * (sceneScratch [0, 2]).m_ascalesT| := by
    left
    norm_num [sceneScratch, M_PI, abs_of_pos]
  exact ⟨h, my_f_lm_angle_cap.1 ℚ greyOptim (sceneScratch [0, 2]) (0, 100, 0) h⟩

/-- C10 (failing input): images 0 and 1, both angles 0, and `grabTex` fails for the
reference image 0 while image 1 has a valid window.  The count `denom = 1` passes the
last test, which overwrites the 2 stored for the empty reference by `ans / denom`, and
`ans` is NaN because `dot` divides by the length 0 of the empty reference buffer. -/
theorem my_f_lm_empty_reference :
    my_f_lm lostRefOptim (sceneScratch [0, 1]) (0, 0, 0) = (none, none, none) ∧
    my_f_lm lostRefOptim (sceneScratch [0, 1]) (0, 0, 0) ≠ (some 2, some 2, some 2) := by
  have h2 : List.range 2 = [0, 1] := by decide
  have hval : my_f_lm lostRefOptim (sceneScratch [0, 1]) (0, 0, 0) = (none, none, none) := by
    have hpi : ¬ ((0 : ℚ) ≤ -M_PI / 2 ∨ M_PI / 2 ≤ (0 : ℚ) ∨ (0 : ℚ) ≤ -M_PI / 2 ∨
        M_PI / 2 ≤ (0 : ℚ)) := by
      norm_num [M_PI]
    have e1 := normalize_grey 1 (-1) 1 (-1) (by norm_num) (by norm_num) (by norm_num)
      (by norm_num) (by norm_num)
    have hs : (sceneScratch [0, 1]).m_ascalesT = 1 := rfl
    have hi : (sceneScratch [0, 1]).m_indexesT = [0, 1] := rfl
    have htau : lostRefOptim.m_fm.m_tau = 8 := rfl
    have hmin : lostRefOptim.m_fm.m_minImageNumThreshold = 2 := rfl
    simp only [my_f_lm, residualTexs, residualSize, hs, mul_one, hpi, if_false, hi, htau, hmin]
    simp [grabNormalized, lostRefOptim, sceneOptim, lostRefTex, greyTex, e1, h2, residualSum,
      List.range', inccOf, dot, Fval.add, Fval.divCount]
  exact ⟨hval, by rw [hval]; simp⟩

/-- C8 (witness): in the grey scene the patch with the single image 0 is rejected, and
the patch with images 0 and 2, which `preProcess` accepts, has the two images required -/
theorem preProcess_single_image_witness :
    (scenePatch [0]).m_images = [0] ∧
    addImages greyOptim (scenePatch [0]) = some (scenePatch [0]).m_images ∧
    1 ≤ greyOptim.m_fm.m_minImageNumThreshold ∧
    (∃ p2, preProcess greyOptim (scenePatch [0]) = some (1, p2)) ∧
    preProcess greyOptim (scenePatch [0, 2]) = some (0, scenePatch [0, 2]) ∧
    greyOptim.m_fm.m_minImageNumThreshold ≤ ((scenePatch [0, 2]).m_images.length : Int) := by
  have himg : (scenePatch [0]).m_images = [0] := rfl
  have hadd : addImages greyOptim (scenePatch [0]) = some (scenePatch [0]).m_images := by
    simp [addImages, greyOptim, sceneOptim, sceneFm, scenePatch]
  have hmin : 1 ≤ greyOptim.m_fm.m_minImageNumThreshold := by
    simp [greyOptim, sceneOptim, sceneFm]
  have h := preProcess_single_image greyOptim (scenePatch [0]) 0 himg hadd hmin
  exact ⟨himg, hadd, hmin, h.1, preProcess_grey_pair, h.2 _ _ preProcess_grey_pair⟩

/-- C19: if `images[0]` fails `ray · normal ≥ cos(angleThreshold1)` the result of
`filterImagesByAngle` is empty; otherwise it is the input filtered by the test, in order,
and starts with `images[0]`; in every case it is a subsequence of the input. -/
theorem filterImagesByAngle_spec (o : Coptim K) (patch : Cpatch K) :
    (∀ x xs, patch.m_images = x :: xs →
      rayDotNormal o patch.m_coord patch.m_normal x < o.math.cos o.m_fm.m_angleThreshold1 →
        filterImagesByAngle o patch = []) ∧
    (∀ x xs, patch.m_images = x :: xs →
      o.math.cos o.m_fm.m_angleThreshold1 ≤ rayDotNormal o patch.m_coord patch.m_normal x →
        filterImagesByAngle o patch = patch.m_images.filter (fun i =>
          decide (o.math.cos o.m_fm.m_angleThreshold1 ≤
            rayDotNormal o patch.m_coord patch.m_normal i)) ∧
        (filterImagesByAngle o patch).head? = some x) ∧
    (filterImagesByAngle o patch).Sublist patch.m_images := by
  have hfun : passesAngle o patch = fun i =>
      decide (o.math.cos o.m_fm.m_angleThreshold1 ≤
        rayDotNormal o patch.m_coord patch.m_normal i) := by
    funext i
    by_cases h : rayDotNormal o patch.m_coord patch.m_normal i
        < o.math.cos o.m_fm.m_angleThreshold1
    · simp [passesAngle, h, not_le.2 h]
    · simp [passesAngle, h, not_lt.1 h]
  refine ⟨?_, ?_, ?_⟩
  · intro x xs hx hlt
    rw [filterImagesByAngle_eq, hx]
    simp [passesAngle, hlt]
  · intro x xs hx hle
    have hp : passesAngle o patch x = true := by simp [passesAngle, hle]
    rw [filterImagesByAngle_eq, hx]
    simp only [hp, if_true]
    rw [← hfun]
    exact ⟨rfl, by simp [List.filter_cons, hp]⟩
  · rw [filterImagesByAngle_eq]
    cases hx : patch.m_images with
    | nil => simp
    | cons x xs =>
      simp only
      split_ifs
      · exact List.filter_sublist _
      · exact List.nil_sublist _

/-- C19 (witness): the images 0 and 2 of the grey scene, which both pass the test -/
theorem filterImagesByAngle_spec_witness :
    (scenePatch [0, 2]).m_images = 0 :: [2] ∧
    greyOptim.math.cos greyOptim.m_fm.m_angleThreshold1 ≤
      rayDotNormal greyOptim (scenePatch [0, 2]).m_coord (scenePatch [0, 2]).m_normal 0 ∧
    filterImagesByAngle greyOptim (scenePatch [0, 2]) =
      (scenePatch [0, 2]).m_images.filter (fun i =>
        decide (greyOptim.math.cos greyOptim.m_fm.m_angleThreshold1 ≤
          rayDotNormal greyOptim (scenePatch [0, 2]).m_coord (scenePatch [0, 2]).m_normal i)) ∧
    (filterImagesByAngle greyOptim (scenePatch [0, 2])).head? = some 0 := by
  have hle : greyOptim.math.cos greyOptim.m_fm.m_angleThreshold1 ≤
      rayDotNormal greyOptim (scenePatch [0, 2]).m_coord (scenePatch [0, 2]).m_normal 0 := by
    norm_num [rayDotNormal, unitize, norm, Vec4f.dot, Vec4f.sub, Vec4f.smul, greyOptim,
      sceneOptim, sceneFm, sceneMath, scenePatch]
  exact ⟨rfl, hle,
    (filterImagesByAngle_spec greyOptim (scenePatch [0, 2])).2.1 0 [2] rfl hle⟩

/-- The length of a texture is kept by `normalize` -/
theorem normalize_length (m : CMath K) (tex : List K) :
    (normalize m tex).length = tex.length := by
  simp [normalize]

/-- The inner product `dot` does not depend on the order of two buffers of equal length -/
theorem dot_comm_of_length (a b : List K) (h : a.length = b.length) : dot a b = dot b a := by
  have hf : (fun (ans : K) (i : Nat) => ans + a.getD i 0 * b.getD i 0) =
      (fun (ans : K) (i : Nat) => ans + b.getD i 0 * a.getD i 0) := by
    funext ans i
    rw [mul_comm]
  simp only [dot, h, hf]

/-- C17: for textures of equal length, constant or not,
`dot(normalize(a), normalize(b)) = dot(normalize(b), normalize(a))`. -/
theorem dot_normalize_symm (m : CMath K) (a b : List K) (h : a.length = b.length) :
    dot (normalize m a) (normalize m b) = dot (normalize m b) (normalize m a) :=
  dot_comm_of_length _ _ (by rw [normalize_length, normalize_length, h])

/-- C13 (amended): `refinePatchBFGS` stores `ray_T = unit(coord − center_{images[0]})`,
the unit vector from the reference camera centre toward the patch; decoding `p0` puts the
position at distance `|coord − center| + p0·dscale` from the camera centre along that
ray, so a positive `p0` moves it away from the reference camera. -/
theorem refine_ray_direction (o : Coptim K) (patch : Cpatch K) (p0 : K)
    (hn : norm o.math (Vec4f.sub patch.m_coord (o.m_fm.m_center (patch.m_images.getD 0 0))) ≠ 0) :
    (refineScratch o patch).m_raysT =
      unitize o.math (Vec4f.sub patch.m_coord (o.m_fm.m_center (patch.m_images.getD 0 0))) ∧
    Vec4f.sub (decodeCoord (refineScratch o patch) p0) (o.m_fm.m_center (patch.m_images.getD 0 0)) =
      Vec4f.smul
        (norm o.math (Vec4f.sub patch.m_coord (o.m_fm.m_center (patch.m_images.getD 0 0)))
          + patch.m_dscale * p0)
        (unitize o.math (Vec4f.sub patch.m_coord (o.m_fm.m_center (patch.m_images.getD 0 0)))) := by
  refine ⟨rfl, ?_⟩
  simp only [decodeCoord, refineScratch, unitize]
  generalize norm o.math (Vec4f.sub patch.m_coord (o.m_fm.m_center (patch.m_images.getD 0 0)))
    = n at hn ⊢
  simp only [Vec4f.sub, Vec4f.add, Vec4f.smul, Vec4f.mk.injEq]
  refine ⟨?_, ?_, ?_, ?_⟩ <;> field_simp <;> ring

/-- C13 (witness): the grey scene, camera 0 at height 1 above the patch -/
theorem refine_ray_direction_witness :
    norm greyOptim.math (Vec4f.sub (scenePatch [0, 2]).m_coord
      (greyOptim.m_fm.m_center ((scenePatch [0, 2]).m_images.getD 0 0))) ≠ 0 ∧
    (refineScratch greyOptim (scenePatch [0, 2])).m_raysT =
      unitize greyOptim.math (Vec4f.sub (scenePatch [0, 2]).m_coord
        (greyOptim.m_fm.m_center ((scenePatch [0, 2]).m_images.getD 0 0))) ∧
    Vec4f.sub (decodeCoord (refineScratch greyOptim (scenePatch [0, 2])) 3)
        (greyOptim.m_fm.m_center ((scenePatch [0, 2]).m_images.getD 0 0)) =
      Vec4f.smul
        (norm greyOptim.math (Vec4f.sub (scenePatch [0, 2]).m_coord
            (greyOptim.m_fm.m_center ((scenePatch [0, 2]).m_images.getD 0 0)))
          + (scenePatch [0, 2]).m_dscale * 3)
        (unitize greyOptim.math (Vec4f.sub (scenePatch [0, 2]).m_coord
          (greyOptim.m_fm.m_center ((scenePatch [0, 2]).m_images.getD 0 0)))) := by
  have hn : norm greyOptim.math (Vec4f.sub (scenePatch [0, 2]).m_coord
      (greyOptim.m_fm.m_center ((scenePatch [0, 2]).m_images.getD 0 0))) ≠ 0 := by
    norm_num [norm, Vec4f.dot, Vec4f.sub, greyOptim, sceneOptim, sceneFm, sceneMath, scenePatch]
  exact ⟨hn, refine_ray_direction greyOptim (scenePatch [0, 2]) 3 hn⟩

/-- C13 (counterexample): in the grey scene the camera is at `(0, 0, 1)` and the patch at
the origin; the stored ray is `(0, 0, -1)`, not `unit(center − coord) = (0, 0, 1)`, and
decoding `p0 = 1` gives `(0, 0, -1)`, one unit further from the camera. -/
theorem refine_ray_counterexample :
    (refineScratch greyOptim (scenePatch [0, 2])).m_raysT = ⟨0, 0, -1, 0⟩ ∧
    unitize greyOptim.math (Vec4f.sub (greyOptim.m_fm.m_center 0) (scenePatch [0, 2]).m_coord)
      = ⟨0, 0, 1, 0⟩ ∧
    (refineScratch greyOptim (scenePatch [0, 2])).m_raysT ≠
      unitize greyOptim.math (Vec4f.sub (greyOptim.m_fm.m_center 0) (scenePatch [0, 2]).m_coord) ∧
    decodeCoord (refineScratch greyOptim (scenePatch [0, 2])) 1 = ⟨0, 0, -1, 1⟩ := by
  have h1 : (refineScratch greyOptim (scenePatch [0, 2])).m_raysT = ⟨0, 0, -1, 0⟩ := by
    norm_num [refineScratch, unitize, norm, Vec4f.dot, Vec4f.sub, Vec4f.smul, greyOptim,
      sceneOptim, sceneFm, sceneMath, scenePatch]
  have h2 : unitize greyOptim.math
      (Vec4f.sub (greyOptim.m_fm.m_center 0) (scenePatch [0, 2]).m_coord) = ⟨0, 0, 1, 0⟩ := by
    norm_num [unitize, norm, Vec4f.dot, Vec4f.sub, Vec4f.smul, greyOptim,
      sceneOptim, sceneFm, sceneMath, scenePatch]
  refine ⟨h1, h2, ?_, ?_⟩
  · rw [h1, h2]
    simp only [ne_eq, Vec4f.mk.injEq, not_and]
    norm_num
  · simp only [decodeCoord, h1]
    norm_num [refineScratch, Vec4f.add, Vec4f.smul, scenePatch]

/-- C14 (failing input): the units of images 0 and 2 are 2 and 4.  The loop of
`setWeightsT` first overwrites entry 0 with `min(1, 2/2) = 1` and then divides that 1 by
the unit of image 2: the weight is `1/4`, where `min(1, unit_0 / unit_2) = 1/2`. -/
theorem setWeightsT_overwrites_unit0 :
    computeUnits2 zoomOptim (scenePatch [0, 2]) = [2, 4] ∧
    setWeightsT zoomOptim (scenePatch [0, 2]) = [1, 1 / 4] ∧
    min (1 : ℚ) (2 / 4) = 1 / 2 := by
  have h2 : List.range 2 = [0, 1] := by decide
  have hu : computeUnits2 zoomOptim (scenePatch [0, 2]) = [2, 4] := by
    norm_num [computeUnits2, rayDotNormal, getUnit, unitize, norm, Vec4f.dot, Vec4f.sub,
      Vec4f.smul, zoomOptim, greyOptim, sceneOptim, sceneFm, sceneMath, scenePatch]
  refine ⟨hu, ?_, by norm_num⟩
  simp only [setWeightsT, hu]
  norm_num [h2]

/-- A sum of `n` equal terms -/
theorem sum_map_range_const (n : Nat) (f : Nat → K) (a : K) (h : ∀ i, i < n → f i = a) :
    ((List.range n).map f).sum = (n : K) * a := by
  induction n with
  | zero => simp
  | succ n ih =>
    rw [List.range_succ, List.map_append, List.sum_append, ih (fun i hi => h i (Nat.lt_succ_of_lt hi))]
    simp [h n (Nat.lt_succ_self n)]
    ring

/-- A window whose pixels all have the colour of pixel 0 is normalised to zeros, when
`sqrt(0) = 0` -/
theorem normalize_constant (m : CMath K) (c : List K) (hsqrt : m.sqrt 0 = 0)
    (hne : c ≠ []) (h3 : c.length % 3 = 0)
    (hc : ∀ k, k < c.length → c.getD k 0 = c.getD (k % 3) 0) :
    normalize m c = List.replicate c.length 0 := by
  have hlen : c.length = 3 * (c.length / 3) := by omega
  have hn : 0 < c.length / 3 := by
    have : 0 < c.length := List.length_pos.2 hne
    omega
  have hnK : ((c.length / 3 : Nat) : K) ≠ 0 := by
    exact_mod_cast (Nat.pos_iff_ne_zero.1 hn)
  have hch : ∀ ch, ch < 3 → channelSum c (c.length / 3) ch / ((c.length / 3 : Nat) : K)
      = c.getD ch 0 := by
    intro ch hch
    have : channelSum c (c.length / 3) ch = ((c.length / 3 : Nat) : K) * c.getD ch 0 := by
      unfold channelSum
      apply sum_map_range_const
      intro i hi
      have hk : 3 * i + ch < c.length := by omega
      rw [hc _ hk]
      congr 1
      omega
    rw [this]
    field_simp
  have hacc : ∀ i, i < c.length / 3 →
      (c.getD 0 0 - c.getD (3 * i) 0) * (c.getD 0 0 - c.getD (3 * i) 0)
        + (c.getD 1 0 - c.getD (3 * i + 1) 0) * (c.getD 1 0 - c.getD (3 * i + 1) 0)
        + (c.getD 2 0 - c.getD (3 * i + 2) 0) * (c.getD 2 0 - c.getD (3 * i + 2) 0) = 0 := by
    intro i hi
    have e0 : c.getD (3 * i) 0 = c.getD 0 0 := by
      rw [hc _ (by omega)]; congr 1; omega
    have e1 : c.getD (3 * i + 1) 0 = c.getD 1 0 := by
      rw [hc _ (by omega)]; congr 1; omega
    have e2 : c.getD (3 * i + 2) 0 = c.getD 2 0 := by
      rw [hc _ (by omega)]; congr 1; omega
    rw [e0, e1, e2]
    ring
  unfold normalize
  simp only [hch 0 (by decide), hch 1 (by decide), hch 2 (by decide)]
  rw [sum_map_range_const _ _ 0 hacc]
  simp only [mul_zero, zero_div, hsqrt, if_true, div_one]
  apply List.ext_getElem
  · simp
  · intro k h1 h2
    have hk : k < c.length := by simpa using h1
    have hk3 : k < 3 * (c.length / 3) := by omega
    simp only [List.getElem_map, List.getElem_range, List.getElem_replicate, hk3, if_true]
    rw [hc k hk]
    have hmod : k % 3 = 0 ∨ k % 3 = 1 ∨ k % 3 = 2 := by omega
    rcases hmod with h | h | h <;> simp [h]

/-- The inner product with a buffer of zeros is 0 -/
theorem dot_zeros (t0 : List K) (n : Nat) (h : t0 ≠ []) :
    dot t0 (List.replicate n 0) = some 0 := by
  have hz : ∀ i, (List.replicate n (0 : K)).getD i 0 = 0 := by
    intro i
    by_cases hi : i < n
    · simp [List.getD_eq_getElem?_getD, List.getElem?_replicate, hi]
    · simp [List.getD_eq_getElem?_getD, List.getElem?_replicate, hi]
  have hf : ∀ (l : List Nat) , l.foldl
      (fun (ans : K) i => ans + t0.getD i 0 * (List.replicate n (0 : K)).getD i 0) 0 = 0 := by
    intro l
    induction l with
    | nil => rfl
    | cons x xs ih => simp only [List.foldl_cons, hz, mul_zero, add_zero]; simp [hz]
  have hl : t0.length ≠ 0 := by
    intro h0; exact h (List.length_eq_zero.1 h0)
  simp only [dot, hl, if_false, hf, zero_div]

/-- The residual over three images whose windows were all sampled: both non-reference
buffers are counted -/
theorem my_f_lm_three (o : Coptim K) (s : Scratch K) (par : K × K × K) (t0 w1 w2 : List K)
    (hang : ¬ (par.2.1 * s.m_ascalesT ≤ -M_PI / 2 ∨ M_PI / 2 ≤ par.2.1 * s.m_ascalesT ∨
      par.2.2 * s.m_ascalesT ≤ -M_PI / 2 ∨ M_PI / 2 ≤ par.2.2 * s.m_ascalesT))
    (htex : residualTexs o s par = [t0, normalize o.math w1, normalize o.math w2])
    (h1 : w1 ≠ []) (h2 : w2 ≠ []) :
    (residualSum (residualTexs o s par) (residualSize o s).toNat).2 = 2 ∧
    my_f_lm o s par =
      (Fval.divCount (Fval.add (Fval.add (some 0) (inccOf 1 t0 (normalize o.math w1)))
          (inccOf 1 t0 (normalize o.math w2))) 2,
        Fval.divCount (Fval.add (Fval.add (some 0) (inccOf 1 t0 (normalize o.math w1)))
          (inccOf 1 t0 (normalize o.math w2))) 2,
        Fval.divCount (Fval.add (Fval.add (some 0) (inccOf 1 t0 (normalize o.math w1)))
          (inccOf 1 t0 (normalize o.math w2))) 2) := by
  have hsz : (residualSize o s).toNat = 3 := by
    have := congrArg List.length htex
    simpa [residualTexs] using this
  have hsz2 : residualSize o s = 3 := by
    have : (0 : Int) < residualSize o s := by
      by_contra hneg
      have : (residualSize o s).toNat = 0 := Int.toNat_eq_zero.2 (by omega)
      omega
    have h3 := Int.toNat_of_nonneg (le_of_lt this)
    omega
  have hn1 : normalize o.math w1 ≠ [] := by
    intro hw
    have := congrArg List.length hw
    rw [normalize_length] at this
    exact h1 (List.length_eq_zero.1 this)
  have hn2 : normalize o.math w2 ≠ [] := by
    intro hw
    have := congrArg List.length hw
    rw [normalize_length] at this
    exact h2 (List.length_eq_zero.1 this)
  have hsum : residualSum [t0, normalize o.math w1, normalize o.math w2] 3 =
      (Fval.add (Fval.add (some 0) (inccOf 1 t0 (normalize o.math w1)))
        (inccOf 1 t0 (normalize o.math w2)), 2) := by
    simp [residualSum, List.range', hn1, hn2]
  refine ⟨by rw [htex, hsz, hsum], ?_⟩
  have hmin : ¬ ((2 : Int) < min o.m_fm.m_minImageNumThreshold 3 - 1) := by
    have := min_le_right o.m_fm.m_minImageNumThreshold (3 : Int)
    omega
  have h33 : (3 : Int).toNat = 3 := rfl
  simp only [my_f_lm, hang, if_false, htex, hsz2, h33, hsum, hmin, Function.const]

/-- C11 (amended): in a residual evaluation over three images whose windows were all
sampled, both non-reference textures are counted, `denom = 2`, and the residual is
`(robust(1 − dot(tex_0, tex_1)) + robust(1 − dot(tex_0, tex_2))) / 2` for every
`minImageNumThreshold`; a zero-variance window is normalised to a buffer of zeros of the
same length, which is not empty and contributes `robust(1 − 0) = 1/4` to the sum. -/
theorem my_f_lm_zero_variance (o : Coptim K) (s : Scratch K) (par : K × K × K)
    (t0 w1 w2 : List K)
    (hang : ¬ (par.2.1 * s.m_ascalesT ≤ -M_PI / 2 ∨ M_PI / 2 ≤ par.2.1 * s.m_ascalesT ∨
      par.2.2 * s.m_ascalesT ≤ -M_PI / 2 ∨ M_PI / 2 ≤ par.2.2 * s.m_ascalesT))
    (htex : residualTexs o s par = [t0, normalize o.math w1, normalize o.math w2])
    (h0 : t0 ≠ []) (h1 : w1 ≠ []) (h2 : w2 ≠ []) (hsqrt : o.math.sqrt 0 = 0) :
    ((residualSum (residualTexs o s par) (residualSize o s).toNat).2 = 2 ∧
      my_f_lm o s par =
        (Fval.divCount (Fval.add (Fval.add (some 0) (inccOf 1 t0 (normalize o.math w1)))
            (inccOf 1 t0 (normalize o.math w2))) 2,
          Fval.divCount (Fval.add (Fval.add (some 0) (inccOf 1 t0 (normalize o.math w1)))
            (inccOf 1 t0 (normalize o.math w2))) 2,
          Fval.divCount (Fval.add (Fval.add (some 0) (inccOf 1 t0 (normalize o.math w1)))
            (inccOf 1 t0 (normalize o.math w2))) 2)) ∧
    (∀ c : List K, c ≠ [] → c.length % 3 = 0 →
      (∀ k, k < c.length → c.getD k 0 = c.getD (k % 3) 0) →
        normalize o.math c = List.replicate c.length 0 ∧ normalize o.math c ≠ [] ∧
        inccOf 1 t0 (normalize o.math c) = some (1 / 4)) := by
  refine ⟨my_f_lm_three o s par t0 w1 w2 hang htex h1 h2, ?_⟩
  intro c hne h3 hc
  have hz := normalize_constant o.math c hsqrt hne h3 hc
  refine ⟨hz, ?_, ?_⟩
  · intro hnil
    have := congrArg List.length hnil
    rw [normalize_length] at this
    exact hne (List.length_eq_zero.1 this)
  · rw [hz]
    simp only [inccOf, dot_zeros t0 _ h0]
    norm_num [robustincc]

/-- The buffers of the residual over the images 0, 5 (black), 1 of the black scene -/
theorem residualTexs_black :
    residualTexs blackOptim (sceneScratch [0, 5, 1]) (0, 0, 0) =
      [[1, 1, 1, 1, 1, 1, -1, -1, -1, -1, -1, -1],
        normalize blackOptim.math [0, 0, 0, 0, 0, 0, 0, 0, 0, 0, 0, 0],
        normalize blackOptim.math [1, 1, 1, -1, -1, -1, 1, 1, 1, -1, -1, -1]] := by
  have e1 := normalize_grey 1 1 (-1) (-1) (by norm_num) (by norm_num) (by norm_num)
    (by norm_num) (by norm_num)
  have h3 : List.range 3 = [0, 1, 2] := by decide
  have hm : blackOptim.math = sceneMath := rfl
  have hsz : (residualSize blackOptim (sceneScratch [0, 5, 1])).toNat = 3 := by
    simp [residualSize, blackOptim, sceneOptim, sceneFm, sceneScratch]
  simp only [residualTexs, hsz, h3, hm]
  simp [grabNormalized, blackOptim, sceneOptim, blackTex, greyTex, sceneScratch, e1]

/-- The angles 0 are inside the cap of `my_f_lm` -/
theorem zero_angles_inside (a : ℚ) :
    ¬ ((0 : ℚ) * a ≤ -M_PI / 2 ∨ M_PI / 2 ≤ (0 : ℚ) * a ∨ (0 : ℚ) * a ≤ -M_PI / 2 ∨
      M_PI / 2 ≤ (0 : ℚ) * a) := by
  norm_num [M_PI]

/-- C11 (witness): the images 0, 5, 1 of the black scene, image 5 seeing a black square -/
theorem my_f_lm_zero_variance_witness :
    (residualSum (residualTexs blackOptim (sceneScratch [0, 5, 1]) (0, 0, 0))
      (residualSize blackOptim (sceneScratch [0, 5, 1])).toNat).2 = 2 ∧
    normalize blackOptim.math [0, 0, 0, 0, 0, 0, 0, 0, 0, 0, 0, 0] =
      List.replicate ([0, 0, 0, 0, 0, 0, 0, 0, 0, 0, 0, 0] : List ℚ).length 0 ∧
    inccOf 1 [1, 1, 1, 1, 1, 1, -1, -1, -1, -1, -1, -1]
      (normalize blackOptim.math [0, 0, 0, 0, 0, 0, 0, 0, 0, 0, 0, 0]) = some (1 / 4) := by
  have h := my_f_lm_zero_variance blackOptim (sceneScratch [0, 5, 1]) (0, 0, 0)
    [1, 1, 1, 1, 1, 1, -1, -1, -1, -1, -1, -1] [0, 0, 0, 0, 0, 0, 0, 0, 0, 0, 0, 0]
    [1, 1, 1, -1, -1, -1, 1, 1, 1, -1, -1, -1]
    (zero_angles_inside _) residualTexs_black (by simp) (by simp) (by simp) rfl
  have hc := h.2 [0, 0, 0, 0, 0, 0, 0, 0, 0, 0, 0, 0] (by simp) (by decide)
    (by intro k hk; simp only [List.length_cons, List.length_nil] at hk
        interval_cases k <;> rfl)
  exact ⟨h.1.1, hc.1, hc.2.2⟩

/-- C11 (counterexample): three images with `minImageNumThreshold = 3`, the second one
seeing a black square.  The black window is counted, `denom = 2`, and the residual is
`(1/4 + 1/4) / 2 = 1/4`, not 2. -/
theorem my_f_lm_black_counterexample :
    blackOptim.m_fm.m_minImageNumThreshold = 3 ∧
    (residualSum (residualTexs blackOptim (sceneScratch [0, 5, 1]) (0, 0, 0))
      (residualSize blackOptim (sceneScratch [0, 5, 1])).toNat).2 = 2 ∧
    my_f_lm blackOptim (sceneScratch [0, 5, 1]) (0, 0, 0) =
      (some (1 / 4), some (1 / 4), some (1 / 4)) := by
  have h := my_f_lm_three blackOptim (sceneScratch [0, 5, 1]) (0, 0, 0)
    [1, 1, 1, 1, 1, 1, -1, -1, -1, -1, -1, -1] [0, 0, 0, 0, 0, 0, 0, 0, 0, 0, 0, 0]
    [1, 1, 1, -1, -1, -1, 1, 1, 1, -1, -1, -1]
    (zero_angles_inside _) residualTexs_black (by simp) (by simp)
  refine ⟨rfl, h.1, ?_⟩
  rw [h.2]
  have hm : blackOptim.math = sceneMath := rfl
  have e2 := normalize_grey 1 (-1) 1 (-1) (by norm_num) (by norm_num) (by norm_num)
    (by norm_num) (by norm_num)
  have ez : normalize sceneMath [0, 0, 0, 0, 0, 0, 0, 0, 0, 0, 0, 0] =
      List.replicate 12 0 :=
    normalize_constant sceneMath _ rfl (by simp) (by decide)
      (by intro k hk; simp only [List.length_cons, List.length_nil] at hk
          interval_cases k <;> rfl)
  have hd : dot ([1, 1, 1, 1, 1, 1, -1, -1, -1, -1, -1, -1] : List ℚ) (List.replicate 12 0)
      = some 0 := dot_zeros _ _ (by simp)
  rw [hm, e2, ez]
  simp only [inccOf, hd, dot_grey]
  norm_num [robustincc, Fval.add, Fval.divCount]

/-- The status of `check` is 1 exactly when the gain is negative or `filterQuad` rejects
a patch with more than six neighbours; else it is 0 -/
theorem check_status (o : Coptim K) (patch : Cpatch K) :
    ((check o patch).1 = 1 ↔
      (o.m_fm.computeGain patch < 0 ∨
        (¬ o.m_fm.computeGain patch < 0 ∧
          6 < (o.m_fm.findNeighbors { patch with m_tmp := o.m_fm.computeGain patch } : Int) ∧
          o.m_fm.filterQuad { patch with m_tmp := o.m_fm.computeGain patch } ≠ 0))) ∧
    ((check o patch).1 = 0 ∨ (check o patch).1 = 1) := by
  simp only [check]
  split_ifs with h1 h2
  · simp [h1]
  · simp [h1, h2]
  · simp only [zero_ne_one, h1, not_false_eq_true, true_and, false_or, false_iff, true_or,
      and_true]
    exact h2

/-- C22: `check` returns 1 exactly when `computeGain(patch) < 0`, or the gain is not
negative, `findNeighbors` yields more than 6 neighbours and `filterQuad` is non-zero;
otherwise it returns 0.  On return 1 the image list is empty, on return 0 it is unchanged. -/
theorem check_spec (o : Coptim K) (patch : Cpatch K) :
    ((check o patch).1 = 1 ↔
      (o.m_fm.computeGain patch < 0 ∨
        (¬ o.m_fm.computeGain patch < 0 ∧
          6 < (o.m_fm.findNeighbors { patch with m_tmp := o.m_fm.computeGain patch } : Int) ∧
          o.m_fm.filterQuad { patch with m_tmp := o.m_fm.computeGain patch } ≠ 0))) ∧
    ((check o patch).1 = 0 ∨ (check o patch).1 = 1) ∧
    ((check o patch).1 = 1 → (check o patch).2.m_images = []) ∧
    ((check o patch).1 = 0 → (check o patch).2.m_images = patch.m_images) := by
  refine ⟨(check_status o patch).1, (check_status o patch).2, ?_, ?_⟩
  · intro h
    exact (check_ne_zero o patch (by rw [h]; decide)).2
  · intro h
    rw [check_zero o patch (by rw [h]; simp)]

/-- C22 (witness): in the grey scene the gain is 1 and there are no neighbours, so
`check` returns 0 and leaves the images `[0, 2]` -/
theorem check_spec_witness :
    (check greyOptim (scenePatch [0, 2])).1 = 0 ∧
    (check greyOptim (scenePatch [0, 2])).2.m_images = (scenePatch [0, 2]).m_images := by
  have h0 : (check greyOptim (scenePatch [0, 2])).1 = 0 := by
    norm_num [check, greyOptim, sceneOptim, sceneFm]
  exact ⟨h0, (check_spec greyOptim (scenePatch [0, 2])).2.2.2 h0⟩

/-- The list that `addImages` returns keeps the head of a non-empty input -/
theorem addImages_head (o : Coptim K) (patch : Cpatch K) (x : Int)
    (hhead : patch.m_images.head? = some x) :
    ∃ images1, addImages o patch = some images1 ∧ images1.head? = some x := by
  have hne : patch.m_images ≠ [] := by
    intro h; rw [h] at hhead; simp at hhead
  refine ⟨_, addImages_eq o patch hne, ?_⟩
  cases hp : patch.m_images with
  | nil => exact absurd hp hne
  | cons y ys =>
    rw [hp] at hhead
    simpa using hhead

/-- A list with head `x` is not empty -/
theorem ne_nil_of_head {α : Type} (l : List α) (x : α) (h : l.head? = some x) : l ≠ [] := by
  intro hl; rw [hl] at h; simp at h

/-- The position found by `min_element` lies inside a non-empty vector -/
theorem minElement_lt (units : List K) (h : units ≠ []) : minElement units < units.length := by
  have hpos : 0 < units.length := List.length_pos.2 h
  have key : ∀ (l : List Nat) (best : Nat), best < units.length → (∀ j, j ∈ l → j < units.length) →
      l.foldl (fun best j => if units.getD j 0 < units.getD best 0 then j else best) best
        < units.length := by
    intro l
    induction l with
    | nil => intro best hb _; simpa using hb
    | cons j l ih =>
      intro best hb hl
      simp only [List.foldl_cons]
      apply ih
      · split_ifs
        · exact hl j (List.mem_cons_self _ _)
        · exact hb
      · intro k hk
        exact hl k (List.mem_cons_of_mem _ hk)
  exact key _ 0 hpos (fun j hj => List.mem_range.1 hj)

/-- When no entry is below entry 0, `min_element` finds position 0 -/
theorem minElement_zero (units : List K) (h : ∀ j, ¬ units.getD j 0 < units.getD 0 0) :
    minElement units = 0 := by
  have key : ∀ (l : List Nat),
      l.foldl (fun best j => if units.getD j 0 < units.getD best 0 then j else best) 0 = 0 := by
    intro l
    induction l with
    | nil => rfl
    | cons j l ih => simp only [List.foldl_cons, h j, if_false]; exact ih
  exact key _

/-- Dropping position `i` from an enumerated list -/
theorem enumFrom_filter_ne {α : Type} (l : List α) (n i : Nat) :
    ((l.enumFrom n).filter (fun jc => decide (jc.1 ≠ n + i))).map Prod.snd = l.eraseIdx i := by
  induction l generalizing n i with
  | nil => simp
  | cons x xs ih =>
    cases i with
    | zero =>
      have hall : ∀ jc ∈ xs.enumFrom (n + 1), decide (jc.1 ≠ n + 0) = true := by
        intro jc hjc
        have := List.le_fst_of_mem_enumFrom hjc
        simp only [add_zero, ne_eq, decide_eq_true_eq]
        omega
      simp only [List.enumFrom_cons, List.eraseIdx_cons_zero]
      rw [List.filter_cons]
      simp only [add_zero, ne_eq, not_true_eq_false, decide_False, Bool.false_eq_true, if_false]
      rw [List.filter_eq_self.2 (by simpa using hall)]
      simp [List.enumFrom_map_snd]
    | succ i =>
      simp only [List.enumFrom_cons, List.eraseIdx_cons_succ]
      rw [List.filter_cons]
      have hne : decide ((n, x).1 ≠ n + (i + 1)) = true := by
        simp only [ne_eq, decide_eq_true_eq]; omega
      simp only [hne, if_true, List.map_cons]
      congr 1
      have := ih (n + 1) i
      have he : n + 1 + i = n + (i + 1) := by omega
      rw [he] at this
      exact this

/-- Putting the entry at position `i` in front of the list without it permutes the list -/
theorem perm_cons_eraseIdx {α : Type} (l : List α) (i : Nat) (d : α) (h : i < l.length) :
    (l.getD i d :: l.eraseIdx i).Perm l := by
  induction l generalizing i with
  | nil => simp at h
  | cons x xs ih =>
    cases i with
    | zero => simp
    | succ i =>
      have hi : i < xs.length := by simpa using h
      simp only [List.getD_cons_succ, List.eraseIdx_cons_succ]
      exact (List.Perm.swap x _ _).trans ((ih i hi).cons x)

/-- Mapping commutes with dropping a position -/
theorem map_eraseIdx {α β : Type} (f : α → β) (l : List α) (i : Nat) :
    (l.eraseIdx i).map f = (l.map f).eraseIdx i := by
  induction l generalizing i with
  | nil => simp
  | cons x xs ih =>
    cases i with
    | zero => simp
    | succ i => simp [ih]

/-- One round of the loop of `sortImages` on a non-empty candidate list: the image at the
position of the smallest unit is pushed and leaves the candidates -/
theorem sortImagesLoop_step (threshold : K) (fuel : Nat) (cands : List (Int × K × Vec4f K))
    (images : List Int) (h : cands ≠ []) :
    sortImagesLoop threshold (fuel + 1) cands images =
        sortImagesLoop threshold fuel (sortImagesRest threshold cands)
          (images ++ [(cands.getD (minElement (cands.map (fun c => c.2.1))) (0, 0, ⟨0, 0, 0, 0⟩)).1]) ∧
      (sortImagesRest threshold cands).map (fun c => c.1) =
        (cands.map (fun c => c.1)).eraseIdx (minElement (cands.map (fun c => c.2.1))) ∧
      (sortImagesRest threshold cands).length + 1 = cands.length := by
  have hemp : cands.isEmpty = false := by
    cases cands with
    | nil => exact absurd rfl h
    | cons _ _ => rfl
  have hlt : minElement (cands.map (fun c => c.2.1)) < cands.length := by
    have := minElement_lt (cands.map (fun c => c.2.1)) (by simpa using h)
    simpa using this
  have hsnd : ((cands.enum.filter (fun jc =>
      decide (jc.1 ≠ minElement (cands.map (fun c => c.2.1))))).map Prod.snd) =
      cands.eraseIdx (minElement (cands.map (fun c => c.2.1))) := by
    have := enumFrom_filter_ne cands 0 (minElement (cands.map (fun c => c.2.1)))
    simp only [Nat.zero_add] at this
    exact this
  refine ⟨?_, ?_, ?_⟩
  · simp only [sortImagesLoop, hemp, Bool.false_eq_true, if_false]
    rfl
  · simp only [sortImagesRest, List.map_map]
    show List.map ((fun (c : Int × K × Vec4f K) => c.1) ∘ Prod.snd) _ = _
    rw [← List.map_map, hsnd, map_eraseIdx]
  · have h1 := congrArg List.length hsnd
    simp only [List.length_map] at h1
    simp only [sortImagesRest, List.length_map]
    rw [h1, List.length_eraseIdx, if_pos hlt]
    omega

/-- The loop of `sortImages`, given at least as much fuel as there are candidates,
returns the images pushed so far followed by a permutation of the candidates' images -/
theorem sortImagesLoop_perm (threshold : K) (fuel : Nat) :
    ∀ (cands : List (Int × K × Vec4f K)) (images : List Int), cands.length ≤ fuel →
      ∃ rest, sortImagesLoop threshold fuel cands images = images ++ rest ∧
        rest.Perm (cands.map (fun c => c.1)) := by
  induction fuel with
  | zero =>
    intro cands images h
    have : cands = [] := List.length_eq_zero.1 (Nat.le_zero.1 h)
    subst this
    exact ⟨[], by simp [sortImagesLoop], by simp⟩
  | succ fuel ih =>
    intro cands images h
    by_cases hc : cands = []
    · subst hc
      exact ⟨[], by simp [sortImagesLoop], by simp⟩
    · obtain ⟨hstep, hmap, hlen⟩ := sortImagesLoop_step threshold fuel cands images hc
      obtain ⟨rest, hr, hp⟩ := ih (sortImagesRest threshold cands) _ (by omega)
      refine ⟨(cands.getD (minElement (cands.map (fun c => c.2.1))) (0, 0, ⟨0, 0, 0, 0⟩)).1 :: rest,
        by rw [hstep, hr]; simp, ?_⟩
      have hlt : minElement (cands.map (fun c => c.2.1)) < (cands.map (fun c => c.1)).length := by
        have := minElement_lt (cands.map (fun c => c.2.1)) (by simpa using hc)
        simpa using this
      have hperm := perm_cons_eraseIdx (cands.map (fun c => c.1))
        (minElement (cands.map (fun c => c.2.1))) 0 hlt
      rw [← hmap] at hperm
      have hget : (cands.map (fun c => c.1)).getD (minElement (cands.map (fun c => c.2.1))) 0 =
          (cands.getD (minElement (cands.map (fun c => c.2.1))) (0, 0, ⟨0, 0, 0, 0⟩)).1 := by
        have hl2 : minElement (cands.map (fun c => c.2.1)) < cands.length := by simpa using hlt
        rw [List.getD_eq_getElem _ _ hlt, List.getD_eq_getElem _ _ hl2, List.getElem_map]
      rw [hget] at hperm
      exact (hp.cons _).trans hperm

/-- More fuel than candidates does not change the result of the loop of `sortImages` -/
theorem sortImagesLoop_fuel (threshold : K) (fuel : Nat) :
    ∀ (cands : List (Int × K × Vec4f K)) (images : List Int) (extra : Nat),
      cands.length ≤ fuel →
      sortImagesLoop threshold (fuel + extra) cands images =
        sortImagesLoop threshold fuel cands images := by
  induction fuel with
  | zero =>
    intro cands images extra h
    have : cands = [] := List.length_eq_zero.1 (Nat.le_zero.1 h)
    subst this
    cases extra <;> simp [sortImagesLoop]
  | succ fuel ih =>
    intro cands images extra h
    have he : fuel + 1 + extra = (fuel + extra) + 1 := by omega
    rw [he]
    by_cases hc : cands = []
    · subst hc
      simp [sortImagesLoop]
    · obtain ⟨hstep, _, hlen⟩ := sortImagesLoop_step threshold fuel cands images hc
      obtain ⟨hstep3, _, _⟩ := sortImagesLoop_step threshold (fuel + extra) cands images hc
      rw [hstep, hstep3]
      exact ih _ _ extra (by omega)

/-- The function `sortImages` in terms of its start candidates and threshold -/
theorem sortImages_eq (o : Coptim K) (patch : Cpatch K) :
    sortImages o patch =
      if (computeUnits o patch).length < 2 then []
      else sortImagesLoop (sortThreshold o) (sortImagesStart o patch).length
        (sortImagesStart o patch) [] := rfl

/-- The images of the candidates of `computeUnits` are the images with `ray · normal > 0` -/
theorem computeUnits_images (o : Coptim K) (patch : Cpatch K) :
    (computeUnits o patch).map (fun c => c.1) = facingImages o patch := by
  unfold computeUnits facingImages
  induction patch.m_images with
  | nil => simp
  | cons b bs ih =>
    rw [List.filterMap_cons, List.filter_cons]
    by_cases hb : rayDotNormal o patch.m_coord patch.m_normal b ≤ 0
    · have hb2 : Vec4f.dot (unitize o.math (Vec4f.sub (o.m_fm.m_center b) patch.m_coord))
          patch.m_normal ≤ 0 := hb
      simp only [hb2, if_true, not_lt.2 hb, decide_False, Bool.false_eq_true, if_false]
      exact ih
    · have hb2 : ¬ Vec4f.dot (unitize o.math (Vec4f.sub (o.m_fm.m_center b) patch.m_coord))
          patch.m_normal ≤ 0 := hb
      simp only [hb2, if_false, not_le.1 hb, decide_True, if_true, List.map_cons]
      rw [ih]

/-- Setting `units[0] = 0` keeps the images and the number of the candidates -/
theorem sortImagesStart_images (o : Coptim K) (patch : Cpatch K) :
    (sortImagesStart o patch).map (fun c => c.1) = facingImages o patch ∧
    (sortImagesStart o patch).length = (facingImages o patch).length := by
  have hf : ((fun (c : Int × K × Vec4f K) => c.1) ∘
      fun (jc : Nat × Int × K × Vec4f K) =>
        if jc.1 = 0 then (jc.2.1, (0 : K), jc.2.2.2) else jc.2) =
      (fun (c : Int × K × Vec4f K) => c.1) ∘ Prod.snd := by
    funext jc
    simp only [Function.comp]
    split_ifs <;> rfl
  have h1 : (sortImagesStart o patch).map (fun c => c.1) = facingImages o patch := by
    unfold sortImagesStart
    rw [List.map_map, hf, ← List.map_map, List.enum_map_snd, computeUnits_images]
  refine ⟨h1, ?_⟩
  have := congrArg List.length h1
  simpa using this

/-- C25: let `V` be the images with `ray · normal > 0`.  If `|V| < 2`, `sortImages` empties
the list; otherwise its result is a permutation of `V` of the same length, and the greedy
loop is over after `|V|` rounds: more rounds do not change the result. -/
theorem sortImages_exhausts (o : Coptim K) (patch : Cpatch K) :
    ((facingImages o patch).length < 2 → sortImages o patch = []) ∧
    (2 ≤ (facingImages o patch).length →
      (sortImages o patch).Perm (facingImages o patch) ∧
      (sortImages o patch).length = (facingImages o patch).length ∧
      ∀ extra, sortImagesLoop (sortThreshold o) ((facingImages o patch).length + extra)
        (sortImagesStart o patch) [] = sortImages o patch) := by
  have hlen : (computeUnits o patch).length = (facingImages o patch).length := by
    have := congrArg List.length (computeUnits_images o patch)
    simpa using this
  obtain ⟨hmap, hlen2⟩ := sortImagesStart_images o patch
  constructor
  · intro h
    rw [sortImages_eq, hlen, if_pos h]
  · intro h
    have hnot : ¬ (facingImages o patch).length < 2 := by omega
    have heq : sortImages o patch = sortImagesLoop (sortThreshold o)
        (sortImagesStart o patch).length (sortImagesStart o patch) [] := by
      rw [sortImages_eq, hlen, if_neg hnot]
    obtain ⟨rest, hr, hp⟩ := sortImagesLoop_perm (sortThreshold o)
      (sortImagesStart o patch).length (sortImagesStart o patch) [] (le_refl _)
    rw [hmap] at hp
    have hres : sortImages o patch = rest := by rw [heq, hr]; simp
    refine ⟨by rw [hres]; exact hp, by rw [hres]; exact hp.length_eq, ?_⟩
    intro extra
    rw [heq, ← hlen2]
    exact sortImagesLoop_fuel _ _ _ _ extra (le_refl _)

/-- The images with `ray · normal > 0` in the grey scene -/
theorem facingImages_grey_pair : facingImages greyOptim (scenePatch [0, 2]) = [0, 2] := by
  norm_num [facingImages, rayDotNormal, unitize, norm, Vec4f.dot, Vec4f.sub, Vec4f.smul,
    greyOptim, sceneOptim, sceneFm, sceneMath, scenePatch, List.filter_cons]

/-- C25 (witness): the images 0 and 2 of the grey scene -/
theorem sortImages_exhausts_witness :
    2 ≤ (facingImages greyOptim (scenePatch [0, 2])).length ∧
    (sortImages greyOptim (scenePatch [0, 2])).Perm (facingImages greyOptim (scenePatch [0, 2])) ∧
    (sortImages greyOptim (scenePatch [0, 2])).length =
      (facingImages greyOptim (scenePatch [0, 2])).length ∧
    ∀ extra, sortImagesLoop (sortThreshold greyOptim)
      ((facingImages greyOptim (scenePatch [0, 2])).length + extra)
      (sortImagesStart greyOptim (scenePatch [0, 2])) [] =
        sortImages greyOptim (scenePatch [0, 2]) := by
  have h : 2 ≤ (facingImages greyOptim (scenePatch [0, 2])).length := by
    rw [facingImages_grey_pair]; decide
  exact ⟨h, (sortImages_exhausts greyOptim (scenePatch [0, 2])).2 h⟩

/-- The first pick of `sortImages`: when no candidate has a negative unit, a non-empty
result starts with the first image that has `ray · normal > 0` -/
theorem sortImages_head (o : Coptim K) (patch : Cpatch K)
    (hne : sortImages o patch ≠ [])
    (hunits : ∀ c, c ∈ computeUnits o patch → 0 ≤ c.2.1) :
    (sortImages o patch).head? = (facingImages o patch).head? := by
  have hlen : ¬ (computeUnits o patch).length < 2 := by
    intro h
    apply hne
    rw [sortImages_eq, if_pos h]
  obtain ⟨hmap, hlen2⟩ := sortImagesStart_images o patch
  have hclen : (sortImagesStart o patch).length = (computeUnits o patch).length := by
    simp [sortImagesStart]
  have hsne : sortImagesStart o patch ≠ [] := by
    intro h
    rw [h] at hclen
    simp at hclen
    omega
  obtain ⟨n, hn⟩ : ∃ n, (sortImagesStart o patch).length = n + 1 := by
    cases hs : (sortImagesStart o patch).length with
    | zero => exact absurd (List.length_eq_zero.1 hs) hsne
    | succ n => exact ⟨n, rfl⟩
  have hmin : minElement ((sortImagesStart o patch).map (fun c => c.2.1)) = 0 := by
    apply minElement_zero
    intro j
    have h0 : ((sortImagesStart o patch).map (fun c => c.2.1)).getD 0 0 = 0 := by
      cases hcu : computeUnits o patch with
      | nil => rw [hcu] at hlen; simp at hlen
      | cons c cs => simp [sortImagesStart, hcu, List.enum, List.enumFrom]
    rw [h0]
    by_cases hj : j < ((sortImagesStart o patch).map (fun c => c.2.1)).length
    · rw [List.getD_eq_getElem _ _ hj, not_lt]
      have hj2 : j < (computeUnits o patch).enum.length := by
        simpa [sortImagesStart] using hj
      have hj3 : j < (computeUnits o patch).length := by simpa using hj2
      simp only [sortImagesStart, List.getElem_map, List.getElem_enum]
      split_ifs
      · exact le_refl _
      · exact hunits _ (List.getElem_mem _)
    · rw [List.getD_eq_default _ _ (not_lt.1 hj)]
      exact lt_irrefl _
  have heq : sortImages o patch = sortImagesLoop (sortThreshold o)
      (sortImagesStart o patch).length (sortImagesStart o patch) [] := by
    rw [sortImages_eq, if_neg hlen]
  obtain ⟨hstep, _, hl⟩ := sortImagesLoop_step (sortThreshold o) n (sortImagesStart o patch) [] hsne
  obtain ⟨rest, hr, _⟩ := sortImagesLoop_perm (sortThreshold o) n
    (sortImagesRest (sortThreshold o) (sortImagesStart o patch))
    ([] ++ [((sortImagesStart o patch).getD
      (minElement ((sortImagesStart o patch).map (fun c => c.2.1))) (0, 0, ⟨0, 0, 0, 0⟩)).1])
    (by omega)
  rw [heq, hn, hstep, hr, hmin, ← hmap]
  cases hs : sortImagesStart o patch with
  | nil => exact absurd hs hsne
  | cons c cs => simp

/-- When `images[0]` has `ray · normal > 0` and no candidate of
`computeUnits` has a negative unit, a non-empty result of `sortImages` starts with
`images[0]`.  (An image with `ray · normal ≤ 0` is skipped by `computeUnits`, also at
position 0; the result then starts with the first image that is not skipped.) -/
theorem sortImages_pins_reference (o : Coptim K) (patch : Cpatch K) (x : Int)
    (hne : sortImages o patch ≠ [])
    (hhead : patch.m_images.head? = some x)
    (hfront : 0 < rayDotNormal o patch.m_coord patch.m_normal x)
    (hunits : ∀ c, c ∈ computeUnits o patch → 0 ≤ c.2.1) :
    (sortImages o patch).head? = patch.m_images.head? := by
  rw [sortImages_head o patch hne hunits, hhead]
  cases hp : patch.m_images with
  | nil => rw [hp] at hhead; simp at hhead
  | cons y ys =>
    rw [hp] at hhead
    simp only [List.head?_cons, Option.some.injEq] at hhead
    subst hhead
    simp [facingImages, hp, List.filter_cons, hfront]

/-- The candidates of `computeUnits` for the images 0 and 2 of the grey scene -/
theorem computeUnits_grey_pair :
    computeUnits greyOptim (scenePatch [0, 2]) =
      [(0, 2, ⟨0, 0, 1, 0⟩), (2, 2, ⟨0, 0, 1, 0⟩)] := by
  norm_num [computeUnits, getUnit, unitize, norm, Vec4f.dot, Vec4f.sub, Vec4f.smul,
    greyOptim, sceneOptim, sceneFm, sceneMath, scenePatch, List.filterMap_cons]

/-- The value that a successful `refinePatchBFGS` stores in `m_ncc` -/
theorem refinePatchBFGS_ncc (o : Coptim K)
    (lmMinimize : (K × K × K → Fval K × Fval K × Fval K) → K × K × K → Int × (K × K × K))
    (patch : Cpatch K) (hok : (refinePatchBFGS o lmMinimize patch).1 = true) :
    (refinePatchBFGS o lmMinimize patch).2.m_ncc =
      (refineScore o lmMinimize patch).map (fun v => 1 - unrobustincc v) := by
  simp only [refinePatchBFGS] at hok ⊢
  split_ifs at hok ⊢ with h
  rfl

/-- C18 (amended): after a successful `refinePatchBFGS`,
`patch.ncc = 1 − robust⁻¹(score)` with `robust⁻¹(s) = s/(1−3s)` and `score` the value of
`computeINCC`; when the score lies in `[0, 2/7]` (the range of `robust` on dissimilarities
in `[0, 2]`), `patch.ncc` lies in `[−1, 1]`; a perfect match (score 0) gives
`patch.ncc = 1`, and the cap (score 2) gives `patch.ncc = 7/5`. -/
theorem refinePatchBFGS_ncc_range (o : Coptim K)
    (lmMinimize : (K × K × K → Fval K × Fval K × Fval K) → K × K × K → Int × (K × K × K))
    (patch : Cpatch K) (hok : (refinePatchBFGS o lmMinimize patch).1 = true) :
    (refinePatchBFGS o lmMinimize patch).2.m_ncc =
      (refineScore o lmMinimize patch).map (fun v => 1 - v / (1 - 3 * v)) ∧
    (∀ sc, refineScore o lmMinimize patch = some sc → 0 ≤ sc → sc ≤ 2 / 7 →
      ∃ v, (refinePatchBFGS o lmMinimize patch).2.m_ncc = some v ∧ -1 ≤ v ∧ v ≤ 1) ∧
    (refineScore o lmMinimize patch = some 0 →
      (refinePatchBFGS o lmMinimize patch).2.m_ncc = some 1) ∧
    (refineScore o lmMinimize patch = some 2 →
      (refinePatchBFGS o lmMinimize patch).2.m_ncc = some (7 / 5)) := by
  have h := refinePatchBFGS_ncc o lmMinimize patch hok
  refine ⟨h, ?_, ?_, ?_⟩
  · intro sc hsc h0 h1
    rw [h, hsc]
    refine ⟨1 - unrobustincc sc, rfl, ?_, ?_⟩
    · have hpos : 0 < 1 - 3 * sc := by linarith
      have : unrobustincc sc ≤ 2 := by
        unfold unrobustincc
        rw [div_le_iff₀ hpos]
        linarith
      linarith
    · have hpos : 0 < 1 - 3 * sc := by linarith
      have : 0 ≤ unrobustincc sc := div_nonneg h0 (le_of_lt hpos)
      linarith
  · intro hsc
    rw [h, hsc]
    simp [unrobustincc]
  · intro hsc
    rw [h, hsc]
    simp only [Option.map_some', unrobustincc]
    norm_num

/-- The weights of `setWeightsT` for two images of the grey scene -/
theorem setWeightsT_grey (a b : Int) :
    setWeightsT greyOptim (scenePatch [a, b]) = [1, 1 / 2] := by
  have h2 : List.range 2 = [0, 1] := by decide
  have hu : computeUnits2 greyOptim (scenePatch [a, b]) = [2, 2] := by
    norm_num [computeUnits2, rayDotNormal, getUnit, unitize, norm, Vec4f.dot, Vec4f.sub,
      Vec4f.smul, greyOptim, sceneOptim, sceneFm, sceneMath, scenePatch]
  simp only [setWeightsT, hu]
  norm_num [h2]

/-- The score of the idle solver on the images 0 and 2 of the grey scene, which see the
same window, is 0 -/
theorem refineScore_grey_same :
    refineScore greyOptim idleSolver (scenePatch [0, 2]) = some 0 := by
  have h2 : List.range 2 = [0, 1] := by decide
  have e1 := normalize_grey 1 1 (-1) (-1) (by norm_num) (by norm_num) (by norm_num)
    (by norm_num) (by norm_num)
  have hw : (refineScratch greyOptim (scenePatch [0, 2])).m_weightsT = [1, 1 / 2] :=
    setWeightsT_grey 0 2
  have hi : (scenePatch [0, 2]).m_images = [0, 2] := rfl
  have htau : greyOptim.m_fm.m_tau = 8 := rfl
  simp only [refineScore, computeINCC, computeINCCAxes, hi, hw, htau]
  simp [grabNormalized, greyOptim, sceneOptim, greyTex, e1, h2, computeINCCSum, List.range',
    inccOf, dot_grey, robustincc, Fval.add]
  norm_num

/-- The score of the idle solver on the images 0 and 3 of the grey scene, which see
opposite windows, is 2/7 -/
theorem refineScore_grey_opposite :
    refineScore greyOptim idleSolver (scenePatch [0, 3]) = some (2 / 7) := by
  have h2 : List.range 2 = [0, 1] := by decide
  have e1 := normalize_grey 1 1 (-1) (-1) (by norm_num) (by norm_num) (by norm_num)
    (by norm_num) (by norm_num)
  have e3 := normalize_grey (-1) (-1) 1 1 (by norm_num) (by norm_num) (by norm_num)
    (by norm_num) (by norm_num)
  have hw : (refineScratch greyOptim (scenePatch [0, 3])).m_weightsT = [1, 1 / 2] :=
    setWeightsT_grey 0 3
  have hi : (scenePatch [0, 3]).m_images = [0, 3] := rfl
  have htau : greyOptim.m_fm.m_tau = 8 := rfl
  simp only [refineScore, computeINCC, computeINCCAxes, hi, hw, htau]
  simp [grabNormalized, greyOptim, sceneOptim, greyTex, e1, e3, h2, computeINCCSum, List.range',
    inccOf, dot_grey, robustincc, Fval.add]
  norm_num

/-- The idle solver reports success -/
theorem refine_idle_ok (patch : Cpatch ℚ) :
    (refinePatchBFGS greyOptim idleSolver patch).1 = true := by
  simp [refinePatchBFGS, idleSolver]

/-- C18 (witness): the images 0 and 2 of the grey scene and a solver that stops at once -/
theorem refinePatchBFGS_ncc_range_witness :
    (refinePatchBFGS greyOptim idleSolver (scenePatch [0, 2])).1 = true ∧
    refineScore greyOptim idleSolver (scenePatch [0, 2]) = some 0 ∧
    (refinePatchBFGS greyOptim idleSolver (scenePatch [0, 2])).2.m_ncc = some 1 :=
  ⟨refine_idle_ok _, refineScore_grey_same,
    (refinePatchBFGS_ncc_range greyOptim idleSolver (scenePatch [0, 2]) (refine_idle_ok _)).2.2.1
      refineScore_grey_same⟩

/-- C18 (counterexample): with the same window in both images the match is perfect, the
score is 0 and `patch.ncc` is 1, not 0; with opposite windows the score is 2/7 and
`patch.ncc` is −1, outside `[0, 2]`. -/
theorem refinePatchBFGS_ncc_counterexample :
    (refinePatchBFGS greyOptim idleSolver (scenePatch [0, 2])).1 = true ∧
    refineScore greyOptim idleSolver (scenePatch [0, 2]) = some 0 ∧
    (refinePatchBFGS greyOptim idleSolver (scenePatch [0, 2])).2.m_ncc = some 1 ∧
    (refinePatchBFGS greyOptim idleSolver (scenePatch [0, 3])).1 = true ∧
    (refinePatchBFGS greyOptim idleSolver (scenePatch [0, 3])).2.m_ncc = some (-1) := by
  refine ⟨refine_idle_ok _, refineScore_grey_same, ?_, refine_idle_ok _, ?_⟩
  · rw [refinePatchBFGS_ncc _ _ _ (refine_idle_ok _), refineScore_grey_same]
    simp [unrobustincc]
  · rw [refinePatchBFGS_ncc _ _ _ (refine_idle_ok _), refineScore_grey_opposite]
    simp only [Option.map_some', unrobustincc]
    norm_num

/-- A vector of squared length 0 is the zero vector -/
theorem vec3_eq_zero_of_dot (c : Vec3f K) (h : Vec3f.dot c c = 0) : c = ⟨0, 0, 0⟩ := by
  obtain ⟨x, y, z⟩ := c
  simp only [Vec3f.dot] at h
  have hx : x * x = 0 := by nlinarith [mul_self_nonneg x, mul_self_nonneg y, mul_self_nonneg z]
  have hy : y * y = 0 := by nlinarith [mul_self_nonneg x, mul_self_nonneg y, mul_self_nonneg z]
  have hz : z * z = 0 := by nlinarith [mul_self_nonneg x, mul_self_nonneg y, mul_self_nonneg z]
  simp only [mul_self_eq_zero] at hx hy hz
  rw [hx, hy, hz]

/-- The frame that `setAxesScales` builds from a unit axis `z` and a vector `x0` not
parallel to it, when the square root is exact at the squared length of `z × x0` -/
theorem axes_frame (m : CMath K) (z x0 : Vec3f K) (hz : Vec3f.dot z z = 1)
    (hnp : cross z x0 ≠ ⟨0, 0, 0⟩)
    (hs : m.sqrt (Vec3f.dot (cross z x0) (cross z x0)) * m.sqrt (Vec3f.dot (cross z x0) (cross z x0))
      = Vec3f.dot (cross z x0) (cross z x0)) :
    Vec3f.dot (unitize3 m (cross z x0)) z = 0 ∧
    Vec3f.dot (unitize3 m (cross z x0)) (unitize3 m (cross z x0)) = 1 ∧
    Vec3f.dot (cross (unitize3 m (cross z x0)) z) (cross (unitize3 m (cross z x0)) z) = 1 ∧
    Vec3f.dot (cross (unitize3 m (cross z x0)) z) (unitize3 m (cross z x0)) = 0 ∧
    Vec3f.dot (cross (unitize3 m (cross z x0)) z) z = 0 := by
  have hq : Vec3f.dot (cross z x0) (cross z x0) ≠ 0 := fun h => hnp (vec3_eq_zero_of_dot _ h)
  have hn : m.sqrt (Vec3f.dot (cross z x0) (cross z x0)) ≠ 0 := by
    intro h0
    rw [h0, mul_zero] at hs
    exact hq hs.symm
  have hyz : Vec3f.dot (unitize3 m (cross z x0)) z = 0 := by
    simp only [unitize3, norm3, Vec3f.smul, Vec3f.dot, cross]
    ring
  have hyy : Vec3f.dot (unitize3 m (cross z x0)) (unitize3 m (cross z x0)) = 1 := by
    have h1 : Vec3f.dot (unitize3 m (cross z x0)) (unitize3 m (cross z x0)) =
        (1 / m.sqrt (Vec3f.dot (cross z x0) (cross z x0))) *
          (1 / m.sqrt (Vec3f.dot (cross z x0) (cross z x0))) *
          Vec3f.dot (cross z x0) (cross z x0) := by
      simp only [unitize3, norm3, Vec3f.smul, Vec3f.dot]
      ring
    rw [h1]
    nth_rewrite 3 [← hs]
    field_simp
  have hlag : ∀ y : Vec3f K, Vec3f.dot (cross y z) (cross y z) =
      Vec3f.dot y y * Vec3f.dot z z - Vec3f.dot y z * Vec3f.dot y z := by
    intro y
    simp only [Vec3f.dot, cross]
    ring
  refine ⟨hyz, hyy, ?_, ?_, ?_⟩
  · rw [hlag, hyy, hz, hyz]
    ring
  · simp only [Vec3f.dot, cross]
    ring
  · simp only [Vec3f.dot, cross]
    ring

/-- C26 (amended): in exact arithmetic, for an image whose optical axis is a unit vector
not parallel to the first three entries of its first projection row, and with a square
root that is exact at the squared length of their cross product, `setAxesScales` stores `yaxis ⊥ zaxis`,
`xaxis = yaxis × zaxis`, and `xaxis`, `yaxis`, `zaxis` unit and mutually orthogonal. -/
theorem setAxesScales_frame (fm : CfindMatch K) (m : CMath K) (index : Int)
    (hz : Vec3f.dot (fm.m_oaxis index).xyz (fm.m_oaxis index).xyz = 1)
    (hnp : cross (fm.m_oaxis index).xyz (fm.m_projection index 0 0).xyz ≠ ⟨0, 0, 0⟩)
    (hs : m.sqrt (Vec3f.dot (cross (fm.m_oaxis index).xyz (fm.m_projection index 0 0).xyz)
          (cross (fm.m_oaxis index).xyz (fm.m_projection index 0 0).xyz)) *
        m.sqrt (Vec3f.dot (cross (fm.m_oaxis index).xyz (fm.m_projection index 0 0).xyz)
          (cross (fm.m_oaxis index).xyz (fm.m_projection index 0 0).xyz)) =
        Vec3f.dot (cross (fm.m_oaxis index).xyz (fm.m_projection index 0 0).xyz)
          (cross (fm.m_oaxis index).xyz (fm.m_projection index 0 0).xyz)) :
    Vec3f.dot (setAxesScales fm m index).2.1 (setAxesScales fm m index).2.2.1 = 0 ∧
    (setAxesScales fm m index).1 =
      cross (setAxesScales fm m index).2.1 (setAxesScales fm m index).2.2.1 ∧
    Vec3f.dot (setAxesScales fm m index).1 (setAxesScales fm m index).1 = 1 ∧
    Vec3f.dot (setAxesScales fm m index).2.1 (setAxesScales fm m index).2.1 = 1 ∧
    Vec3f.dot (setAxesScales fm m index).2.2.1 (setAxesScales fm m index).2.2.1 = 1 ∧
    Vec3f.dot (setAxesScales fm m index).1 (setAxesScales fm m index).2.1 = 0 ∧
    Vec3f.dot (setAxesScales fm m index).1 (setAxesScales fm m index).2.2.1 = 0 := by
  obtain ⟨h1, h2, h3, h4, h5⟩ := axes_frame m _ _ hz hnp hs
  exact ⟨h1, rfl, h3, h2, hz, h4, h5⟩

/-- The clamped level difference lies in `[-level, 2]` -/
theorem clampLevelDif_range (level : Nat) (leveldif : Int) :
    -(level : Int) ≤ clampLevelDif level leveldif ∧ clampLevelDif level leveldif ≤ 2 := by
  unfold clampLevelDif
  constructor
  · exact le_max_left _ _
  · apply max_le
    · omega
    · exact min_le_left _ _

/-- The table of `MyPow2` holds the powers of two from `2^-4` to `2^10` -/
theorem MyPow2_eq (x : Int) (h1 : -4 ≤ x) (h2 : x ≤ 10) :
    MyPow2 (K := K) x = some ((2 : K) ^ x) := by
  have hx : ¬ (x + 4 < 0) := by omega
  simp only [MyPow2, hx, if_false]
  interval_cases x <;> simp [MyPow2Table] <;> norm_num

/-- The clamped `leveldif` lies in `[-level, 2]` and the pyramid level used,
`level + leveldif`, in `[0, level + 2]`; for `level ≤ 4` the lookup `MyPow2(leveldif)`
stays inside its table and gives `2^leveldif` exactly -/
theorem grabTex_level_selection (level : Nat) (raw : Int) :
    (-(level : Int) ≤ clampLevelDif level raw ∧ clampLevelDif level raw ≤ 2) ∧
    (0 ≤ (level : Int) + clampLevelDif level raw ∧
      (level : Int) + clampLevelDif level raw ≤ (level : Int) + 2) ∧
    (level ≤ 4 → MyPow2 (K := K) (clampLevelDif level raw) = some ((2 : K) ^ clampLevelDif level raw)) := by
  obtain ⟨h1, h2⟩ := clampLevelDif_range level raw
  refine ⟨⟨h1, h2⟩, ⟨by omega, by omega⟩, ?_⟩
  intro hl
  apply MyPow2_eq
  · have : (level : Int) ≤ 4 := by exact_mod_cast hl
    omega
  · omega

/-- Advancing a position `n` times by `d` adds `n · d` -/
theorem iterate_add_vec (d v : Vec3f K) (n : Nat) :
    (fun a => Vec3f.add a d)^[n] v = Vec3f.add v (Vec3f.smul (n : K) d) := by
  induction n generalizing v with
  | zero => simp [Vec3f.add, Vec3f.smul]
  | succ n ih =>
    rw [Function.iterate_succ_apply, ih]
    simp only [Vec3f.add, Vec3f.smul, Vec3f.mk.injEq]
    push_cast
    refine ⟨by ring, by ring, by ring⟩

/-- The buffer of `grabTex` holds three floats for each of the `size × size` pixels -/
theorem grabColors_length (sm : Sampler K) (index : Int) (left dx dy : Vec3f K) (size : Nat)
    (newlevel : Int) :
    (grabColors sm index left dx dy size newlevel).length = 3 * size * size := by
  have inner : ∀ (f : Nat → List K), (∀ x, (f x).length = 3) → ∀ n,
      ((List.range n).flatMap f).length = 3 * n := by
    intro f hf n
    induction n with
    | zero => simp
    | succ n ih =>
      rw [List.range_succ, List.flatMap_append, List.length_append, ih]
      simp [hf]
      ring
  have outer : ∀ (g : Nat → List K) (k : Nat), (∀ y, (g y).length = k) → ∀ n,
      ((List.range n).flatMap g).length = n * k := by
    intro g k hg n
    induction n with
    | zero => simp
    | succ n ih =>
      rw [List.range_succ, List.flatMap_append, List.length_append, ih]
      simp [hg]
      ring
  unfold grabColors
  rw [outer _ (3 * size) (fun y => inner _ (fun x => by rfl) size)]
  ring

/-- An affine function on a square is at most its largest corner value -/
theorem affine_le_corner (c p q a b M : K) (ha1 : -M ≤ a) (ha2 : a ≤ M) (hb1 : -M ≤ b)
    (hb2 : b ≤ M) :
    c + a * p + b * q ≤
      max (c - M * p - M * q) (max (c + M * p - M * q) (max (c - M * p + M * q) (c + M * p + M * q))) := by
  rcases le_total 0 p with hp | hp <;> rcases le_total 0 q with hq | hq
  · have h1 : a * p ≤ M * p := mul_le_mul_of_nonneg_right ha2 hp
    have h2 : b * q ≤ M * q := mul_le_mul_of_nonneg_right hb2 hq
    refine le_trans ?_ (le_trans (le_max_right _ _) (le_trans (le_max_right _ _) (le_max_right _ _)))
    linarith
  · have h1 : a * p ≤ M * p := mul_le_mul_of_nonneg_right ha2 hp
    have h2 : b * q ≤ -M * q := mul_le_mul_of_nonpos_right hb1 hq
    refine le_trans ?_ (le_trans (le_max_left _ _) (le_max_right _ _))
    linarith
  · have h1 : a * p ≤ -M * p := mul_le_mul_of_nonpos_right ha1 hp
    have h2 : b * q ≤ M * q := mul_le_mul_of_nonneg_right hb2 hq
    refine le_trans ?_ (le_trans (le_max_left _ _) (le_trans (le_max_right _ _) (le_max_right _ _)))
    linarith
  · have h1 : a * p ≤ -M * p := mul_le_mul_of_nonpos_right ha1 hp
    have h2 : b * q ≤ -M * q := mul_le_mul_of_nonpos_right hb1 hq
    refine le_trans ?_ (le_max_left _ _)
    linarith

/-- An affine function on a square is at least its smallest corner value -/
theorem corner_le_affine (c p q a b M : K) (ha1 : -M ≤ a) (ha2 : a ≤ M) (hb1 : -M ≤ b)
    (hb2 : b ≤ M) :
    min (c - M * p - M * q) (min (c + M * p - M * q) (min (c - M * p + M * q) (c + M * p + M * q)))
      ≤ c + a * p + b * q := by
  rcases le_total 0 p with hp | hp <;> rcases le_total 0 q with hq | hq
  · have h1 : -M * p ≤ a * p := mul_le_mul_of_nonneg_right ha1 hp
    have h2 : -M * q ≤ b * q := mul_le_mul_of_nonneg_right hb1 hq
    refine le_trans (min_le_left _ _) ?_
    linarith
  · have h1 : -M * p ≤ a * p := mul_le_mul_of_nonneg_right ha1 hp
    have h2 : M * q ≤ b * q := mul_le_mul_of_nonpos_right hb2 hq
    refine le_trans (le_trans (min_le_right _ _) (le_trans (min_le_right _ _) (min_le_left _ _))) ?_
    linarith
  · have h1 : M * p ≤ a * p := mul_le_mul_of_nonpos_right ha2 hp
    have h2 : -M * q ≤ b * q := mul_le_mul_of_nonneg_right hb1 hq
    refine le_trans (le_trans (min_le_right _ _) (min_le_left _ _)) ?_
    linarith
  · have h1 : M * p ≤ a * p := mul_le_mul_of_nonpos_right ha2 hp
    have h2 : M * q ≤ b * q := mul_le_mul_of_nonpos_right hb2 hq
    refine le_trans (le_trans (min_le_right _ _) (le_trans (min_le_right _ _) (min_le_right _ _))) ?_
    linarith

/-- The sample position of pixel `(x, y)` is `left + x · dx + y · dy` -/
theorem samplePos_eq (left dx dy : Vec3f K) (x y : Nat) :
    samplePos left dx dy x y
      = Vec3f.add (Vec3f.add left (Vec3f.smul (y : K) dy)) (Vec3f.smul (x : K) dx) := by
  unfold samplePos
  rw [iterate_add_vec, iterate_add_vec]

/-- The offset `x - size / 2` of a window pixel lies within the margin -/
theorem offset_in_margin (size : Int) (x : Nat) (hsize : 1 ≤ size) (hx : x < size.toNat) :
    -(((Int.tdiv size 2 : Int) : K)) ≤ ((x : Int) - Int.tdiv size 2 : Int) ∧
      (((x : Int) - Int.tdiv size 2 : Int) : K) ≤ ((Int.tdiv size 2 : Int) : K) := by
  have h0 : Int.tdiv size 2 = size / 2 := Int.tdiv_eq_ediv (by omega) (by omega)
  have hx2 : (x : Int) < size := by omega
  rw [h0]
  constructor
  · have : -(size / 2) ≤ (x : Int) - size / 2 := by omega
    exact_mod_cast this
  · have : (x : Int) - size / 2 ≤ size / 2 := by omega
    exact_mod_cast this

/-- Every sample position of an accepted window lies inside the bounding box checked by
`grabSafe` -/
theorem grabSafe_sample (fm : CfindMatch K) (index size : Int) (center dx dy : Vec3f K)
    (level : Int) (x y : Nat) (hsize : 1 ≤ size) (hx : x < size.toNat) (hy : y < size.toNat)
    (h : grabSafe fm index size center dx dy level ≠ 0) :
    let margin : K := ((Int.tdiv size 2 : Int) : K)
    let left := Vec3f.sub (Vec3f.sub center (Vec3f.smul margin dx)) (Vec3f.smul margin dy)
    let p := samplePos left dx dy x y
    p = Vec3f.add (Vec3f.add center
          (Vec3f.smul ((((x : Int) - Int.tdiv size 2 : Int) : K)) dx))
          (Vec3f.smul ((((y : Int) - Int.tdiv size 2 : Int) : K)) dy) ∧
      3 ≤ p.x ∧ p.x < ((fm.getWidth index level.toNat - 4 : Int) : K) ∧
      3 ≤ p.y ∧ p.y < ((fm.getHeight index level.toNat - 4 : Int) : K) := by
  intro margin left p
  have hp : p = Vec3f.add (Vec3f.add center
          (Vec3f.smul ((((x : Int) - Int.tdiv size 2 : Int) : K)) dx))
          (Vec3f.smul ((((y : Int) - Int.tdiv size 2 : Int) : K)) dy) := by
    show samplePos left dx dy x y = _
    rw [samplePos_eq]
    simp only [left, margin, Vec3f.add, Vec3f.sub, Vec3f.smul, Vec3f.mk.injEq]
    push_cast
    refine ⟨by ring, by ring, by ring⟩
  refine ⟨hp, ?_⟩
  obtain ⟨ha1, ha2⟩ := offset_in_margin (K := K) size x hsize hx
  obtain ⟨hb1, hb2⟩ := offset_in_margin (K := K) size y hsize hy
  have hxu := affine_le_corner center.x dx.x dy.x _ _ _ ha1 ha2 hb1 hb2
  have hxl := corner_le_affine center.x dx.x dy.x _ _ _ ha1 ha2 hb1 hb2
  have hyu := affine_le_corner center.y dx.y dy.y _ _ _ ha1 ha2 hb1 hb2
  have hyl := corner_le_affine center.y dx.y dy.y _ _ _ ha1 ha2 hb1 hb2
  have hpx : p.x = center.x + (((x : Int) - Int.tdiv size 2 : Int) : K) * dx.x
      + (((y : Int) - Int.tdiv size 2 : Int) : K) * dy.x := by
    rw [hp]; rfl
  have hpy : p.y = center.y + (((x : Int) - Int.tdiv size 2 : Int) : K) * dx.y
      + (((y : Int) - Int.tdiv size 2 : Int) : K) * dy.y := by
    rw [hp]; rfl
  unfold grabSafe at h
  simp only [Vec3f.add, Vec3f.sub, Vec3f.smul] at h
  split_ifs at h with hc
  · exact absurd rfl h
  · simp only [not_or, not_lt, not_le] at hc
    obtain ⟨c1, c2, c3, c4⟩ := hc
    have e1 : ((fm.getWidth index level.toNat - 1 - 3 : Int) : K)
        = ((fm.getWidth index level.toNat - 4 : Int) : K) := by
      congr 1; ring
    have e2 : ((fm.getHeight index level.toNat - 1 - 3 : Int) : K)
        = ((fm.getHeight index level.toNat - 4 : Int) : K) := by
      congr 1; ring
    rw [e1] at c2
    rw [e2] at c4
    have c1' := c1
    have c3' := c3
    rw [Int.cast_ofNat] at c1' c3'
    rw [hpx, hpy]
    refine ⟨le_trans c1' hxl, lt_of_le_of_lt hxu c2, le_trans c3' hyl, lt_of_le_of_lt hyu c4⟩

/-- An accepted `grabTex` call: the window passed `grabSafe` and the buffer holds the
sampled colours -/
theorem grabTex_accept (o : Coptim K) (sm : Sampler K) (coord pxaxis pyaxis pzaxis : Vec4f K)
    (index size : Int) (tex : List K)
    (h : grabTex o sm coord pxaxis pyaxis pzaxis index size = some (0, tex)) :
    ∃ center dx dy newlevel,
      grabWindow o sm coord pxaxis pyaxis index = some (center, dx, dy, newlevel) ∧
      grabSafe o.m_fm index size center dx dy newlevel ≠ 0 ∧
      tex = grabColors sm index
        (Vec3f.sub (Vec3f.sub center (Vec3f.smul ((Int.tdiv size 2 : Int) : K) dx))
          (Vec3f.smul ((Int.tdiv size 2 : Int) : K) dy)) dx dy size.toNat newlevel := by
  unfold grabTex at h
  simp only at h
  split_ifs at h with hw
  · simp at h
  · cases hg : grabWindow o sm coord pxaxis pyaxis index with
    | none => rw [hg] at h; simp at h
    | some w =>
      obtain ⟨center, dx, dy, newlevel⟩ := w
      rw [hg] at h
      simp only [Option.map_some', Option.some.injEq] at h
      split_ifs at h with hs
      · simp at h
      · simp only [Prod.mk.injEq, true_and] at h
        exact ⟨center, dx, dy, newlevel, rfl, hs, h.symm⟩

/-- What an accepted `grabTex` call samples: the buffer length and the sample positions -/
theorem grabTex_inside (o : Coptim K) (sm : Sampler K) (coord pxaxis pyaxis pzaxis : Vec4f K)
    (index size : Int) (tex : List K) (hsize : 1 ≤ size)
    (h : grabTex o sm coord pxaxis pyaxis pzaxis index size = some (0, tex)) :
    ∃ center dx dy newlevel,
      grabWindow o sm coord pxaxis pyaxis index = some (center, dx, dy, newlevel) ∧
      tex.length = 3 * size.toNat * size.toNat ∧
      tex = grabColors sm index
        (Vec3f.sub (Vec3f.sub center (Vec3f.smul ((Int.tdiv size 2 : Int) : K) dx))
          (Vec3f.smul ((Int.tdiv size 2 : Int) : K) dy)) dx dy size.toNat newlevel ∧
      ∀ x y : Nat, x < size.toNat → y < size.toNat →
        samplePos (Vec3f.sub (Vec3f.sub center (Vec3f.smul ((Int.tdiv size 2 : Int) : K) dx))
            (Vec3f.smul ((Int.tdiv size 2 : Int) : K) dy)) dx dy x y
          = Vec3f.add (Vec3f.add center
              (Vec3f.smul ((((x : Int) - Int.tdiv size 2 : Int) : K)) dx))
              (Vec3f.smul ((((y : Int) - Int.tdiv size 2 : Int) : K)) dy) ∧
        3 ≤ (samplePos (Vec3f.sub (Vec3f.sub center (Vec3f.smul ((Int.tdiv size 2 : Int) : K) dx))
            (Vec3f.smul ((Int.tdiv size 2 : Int) : K) dy)) dx dy x y).x ∧
        (samplePos (Vec3f.sub (Vec3f.sub center (Vec3f.smul ((Int.tdiv size 2 : Int) : K) dx))
            (Vec3f.smul ((Int.tdiv size 2 : Int) : K) dy)) dx dy x y).x
          < ((o.m_fm.getWidth index newlevel.toNat - 4 : Int) : K) ∧
        3 ≤ (samplePos (Vec3f.sub (Vec3f.sub center (Vec3f.smul ((Int.tdiv size 2 : Int) : K) dx))
            (Vec3f.smul ((Int.tdiv size 2 : Int) : K) dy)) dx dy x y).y ∧
        (samplePos (Vec3f.sub (Vec3f.sub center (Vec3f.smul ((Int.tdiv size 2 : Int) : K) dx))
            (Vec3f.smul ((Int.tdiv size 2 : Int) : K) dy)) dx dy x y).y
          < ((o.m_fm.getHeight index newlevel.toNat - 4 : Int) : K) := by
  obtain ⟨center, dx, dy, newlevel, hw, hs, ht⟩ :=
    grabTex_accept o sm coord pxaxis pyaxis pzaxis index size tex h
  refine ⟨center, dx, dy, newlevel, hw, ?_, ht, ?_⟩
  · rw [ht, grabColors_length]
  · intro x y hx hy
    exact grabSafe_sample o.m_fm index size center dx dy newlevel x y hsize hx hy hs

/-- The call of `grabTex` on the one-pixel-per-unit scene is accepted and returns twelve
zeros -/
theorem grabTex_flat :
    grabTex flatOptim flatSampler ⟨0, 0, 0, 1⟩ ⟨1, 0, 0, 0⟩ ⟨0, 1, 0, 0⟩ ⟨0, 0, 1, 0⟩ 0 2
      = some (0, [0, 0, 0, 0, 0, 0, 0, 0, 0, 0, 0, 0]) := by
  have hn1 : norm3 flatOptim.math ⟨1, 0, 0⟩ = 1 := by
    norm_num [norm3, Vec3f.dot, flatOptim, greyOptim, sceneOptim, sceneMath]
  have hn2 : norm3 flatOptim.math ⟨0, 1, 0⟩ = 1 := by
    norm_num [norm3, Vec3f.dot, flatOptim, greyOptim, sceneOptim, sceneMath]
  have hl : flatOptim.m_fm.m_level = 0 := rfl
  have hp : MyPow2 (K := ℚ) 0 = some 1 := by simp [MyPow2, MyPow2Table]
  have hc : clampLevelDif 0 0 = 0 := by decide
  have hw : grabWindow flatOptim flatSampler ⟨0, 0, 0, 1⟩ ⟨1, 0, 0, 0⟩ ⟨0, 1, 0, 0⟩ 0
      = some (⟨50, 50, 1⟩, ⟨1, 0, 0⟩, ⟨0, 1, 0⟩, 0) := by
    have hce : flatOptim.m_fm.project 0 ⟨0, 0, 0, 1⟩ 0 = ⟨50, 50, 1⟩ := by
      norm_num [flatOptim]
    have hdx : Vec3f.sub (flatOptim.m_fm.project 0 (Vec4f.add ⟨0, 0, 0, 1⟩ ⟨1, 0, 0, 0⟩) 0)
        (flatOptim.m_fm.project 0 ⟨0, 0, 0, 1⟩ 0) = ⟨1, 0, 0⟩ := by
      norm_num [Vec3f.sub, Vec4f.add, flatOptim]
    have hdy : Vec3f.sub (flatOptim.m_fm.project 0 (Vec4f.add ⟨0, 0, 0, 1⟩ ⟨0, 1, 0, 0⟩) 0)
        (flatOptim.m_fm.project 0 ⟨0, 0, 0, 1⟩ 0) = ⟨0, 1, 0⟩ := by
      norm_num [Vec3f.sub, Vec4f.add, flatOptim]
    simp only [grabWindow, hl, hdx, hdy, hn1, hn2]
    norm_num [flatSampler, hc, hp, Vec3f.smul, hce]
  have hs : grabSafe flatOptim.m_fm 0 2 ⟨50, 50, 1⟩ ⟨1, 0, 0⟩ ⟨0, 1, 0⟩ 0 = 1 := by
    have ht : Int.tdiv 2 2 = 1 := by decide
    simp only [grabSafe, ht]
    norm_num [Vec3f.add, Vec3f.sub, Vec3f.smul, flatOptim, greyOptim, sceneOptim, sceneFm]
  have h2 : List.range 2 = [0, 1] := by decide
  have hg : ∀ left : Vec3f ℚ, grabColors flatSampler 0 left ⟨1, 0, 0⟩ ⟨0, 1, 0⟩ 2 0
      = [0, 0, 0, 0, 0, 0, 0, 0, 0, 0, 0, 0] := by
    intro left
    simp [grabColors, h2, flatSampler]
  have h22 : (2 : Int).toNat = 2 := rfl
  simp only [grabTex, hw, hs, Option.map_some', h22, hg]
  norm_num [unitize, norm, Vec4f.dot, Vec4f.sub, Vec4f.smul, flatOptim, greyOptim, sceneOptim,
    sceneFm, sceneMath]

/-- The accumulation loop of `dot` is a sum -/
theorem foldl_add_eq_sum (g : Nat → K) (l : List Nat) (init : K) :
    l.foldl (fun ans i => ans + g i) init = init + (l.map g).sum := by
  induction l generalizing init with
  | nil => simp
  | cons x xs ih => rw [List.foldl_cons, ih, List.map_cons, List.sum_cons]; ring

/-- A sum over `3 n` entries is the sum over `n` pixels of their three channels -/
theorem sum_range_three (f : Nat → K) (n : Nat) :
    ((List.range (3 * n)).map f).sum
      = ((List.range n).map (fun i => f (3 * i) + f (3 * i + 1) + f (3 * i + 2))).sum := by
  induction n with
  | zero => simp
  | succ n ih =>
    have h : 3 * (n + 1) = 3 * n + 1 + 1 + 1 := by ring
    rw [h, List.range_succ, List.range_succ, List.range_succ]
    simp only [List.map_append, List.sum_append, List.map_cons, List.map_nil, List.sum_cons,
      List.sum_nil, ih, add_zero]
    rw [List.range_succ]
    simp only [List.map_append, List.sum_append, List.map_cons, List.map_nil, List.sum_cons,
      List.sum_nil, add_zero]
    ring

/-- The sum of `(f i - a) / d` -/
theorem sum_map_affine (n : Nat) (f : Nat → K) (a d : K) :
    ((List.range n).map (fun i => (f i - a) / d)).sum
      = (((List.range n).map f).sum - (n : K) * a) / d := by
  induction n with
  | zero => simp
  | succ n ih =>
    rw [List.range_succ, List.map_append, List.sum_append, ih, List.map_append, List.sum_append]
    simp only [List.map_cons, List.map_nil, List.sum_cons, List.sum_nil, add_zero]
    push_cast
    ring

/-- The sum of `f i / d` -/
theorem sum_map_div (n : Nat) (f : Nat → K) (d : K) :
    ((List.range n).map (fun i => f i / d)).sum = ((List.range n).map f).sum / d := by
  induction n with
  | zero => simp
  | succ n ih =>
    rw [List.range_succ, List.map_append, List.sum_append, ih, List.map_append, List.sum_append]
    simp only [List.map_cons, List.map_nil, List.sum_cons, List.sum_nil, add_zero]
    ring

/-- Two sums over a range agree when their terms agree -/
theorem sum_map_range_congr (n : Nat) (f g : Nat → K) (h : ∀ i, i < n → f i = g i) :
    ((List.range n).map f).sum = ((List.range n).map g).sum := by
  have : (List.range n).map f = (List.range n).map g :=
    List.map_congr_left (fun i hi => h i (List.mem_range.1 hi))
  rw [this]

/-- The function `normalize` in terms of the channel means and the divisor -/
theorem normalize_eq (m : CMath K) (tex : List K) :
    normalize m tex = (List.range tex.length).map (fun k =>
      if k < 3 * (tex.length / 3) then
        (tex.getD k 0 - (if k % 3 = 0 then channelMean tex 0 else if k % 3 = 1 then channelMean tex 1
          else channelMean tex 2)) / normDivisor m tex
      else tex.getD k 0) := rfl

/-- Entry `k` of a normalised texture of length `3 n` -/
theorem normalize_getD (m : CMath K) (tex : List K) (h3 : tex.length % 3 = 0) (k : Nat)
    (hk : k < tex.length) :
    (normalize m tex).getD k 0 = (tex.getD k 0 - channelMean tex (k % 3)) / normDivisor m tex := by
  have hk3 : k < 3 * (tex.length / 3) := by omega
  have hm : (if k % 3 = 0 then channelMean tex 0 else if k % 3 = 1 then channelMean tex 1
      else channelMean tex 2) = channelMean tex (k % 3) := by
    have hlt : k % 3 < 3 := Nat.mod_lt _ (by decide)
    generalize k % 3 = r at hlt ⊢
    interval_cases r <;> simp
  rw [normalize_eq, List.getD_eq_getElem?_getD, List.getElem?_map, List.getElem?_range hk]
  simp only [Option.map_some', Option.getD_some, hk3, if_true, hm]

/-- Two lists of equal length with equal entries are equal -/
theorem ext_getD (l1 l2 : List K) (hl : l1.length = l2.length)
    (h : ∀ k, k < l1.length → l1.getD k 0 = l2.getD k 0) : l1 = l2 := by
  apply List.ext_getElem hl
  intro i h1 h2
  have := h i h1
  rwa [List.getD_eq_getElem _ _ h1, List.getD_eq_getElem _ _ h2] at this

/-- After `normalize` each channel of a non-empty texture of length `3 n` has mean 0 -/
theorem channelMean_normalize (m : CMath K) (tex : List K) (hne : tex ≠ [])
    (h3 : tex.length % 3 = 0) (c : Nat) (hc : c < 3) :
    channelMean (normalize m tex) c = 0 := by
  have hn : 0 < tex.length / 3 := by
    have : 0 < tex.length := List.length_pos.2 hne
    omega
  have hnK : ((tex.length / 3 : Nat) : K) ≠ 0 := by
    exact_mod_cast (Nat.pos_iff_ne_zero.1 hn)
  have hs : channelSum (normalize m tex) (tex.length / 3) c
      = (channelSum tex (tex.length / 3) c - ((tex.length / 3 : Nat) : K) * channelMean tex c)
          / normDivisor m tex := by
    unfold channelSum
    rw [← sum_map_affine]
    apply sum_map_range_congr
    intro i hi
    have hk : 3 * i + c < tex.length := by omega
    have hmod : (3 * i + c) % 3 = c := by omega
    rw [normalize_getD m tex h3 _ hk, hmod]
  unfold channelMean
  rw [normalize_length, hs]
  unfold channelMean
  rw [mul_div_cancel₀ _ hnK, sub_self, zero_div, zero_div]

/-- The sum of the squares of a normalised texture is the deviation sum over the squared
divisor -/
theorem meanSquare_normalize (m : CMath K) (tex : List K) (h3 : tex.length % 3 = 0) :
    meanSquare (normalize m tex)
      = deviationSum tex / (normDivisor m tex * normDivisor m tex) / (tex.length : K) := by
  have hlen : tex.length = 3 * (tex.length / 3) := by omega
  unfold meanSquare
  rw [normalize_length]
  congr 1
  rw [sum_map_range_congr tex.length _
    (fun k => (tex.getD k 0 - channelMean tex (k % 3)) / normDivisor m tex
      * ((tex.getD k 0 - channelMean tex (k % 3)) / normDivisor m tex))
    (fun k hk => by rw [normalize_getD m tex h3 k hk])]
  nth_rewrite 1 [hlen]
  rw [sum_range_three]
  unfold deviationSum
  rw [← sum_map_div]
  apply sum_map_range_congr
  intro i _
  have h0 : (3 * i) % 3 = 0 := by omega
  have h1 : (3 * i + 1) % 3 = 1 := by omega
  have h2 : (3 * i + 2) % 3 = 2 := by omega
  rw [h0, h1, h2]
  ring

/-- The deviation sum is not negative -/
theorem deviationSum_nonneg (tex : List K) : 0 ≤ deviationSum tex := by
  unfold deviationSum
  apply List.sum_nonneg
  intro x hx
  obtain ⟨i, _, rfl⟩ := List.mem_map.1 hx
  have := mul_self_nonneg (channelMean tex 0 - tex.getD (3 * i) 0)
  have := mul_self_nonneg (channelMean tex 1 - tex.getD (3 * i + 1) 0)
  have := mul_self_nonneg (channelMean tex 2 - tex.getD (3 * i + 2) 0)
  linarith

/-- A sum of non-negative terms with one positive term is positive -/
theorem sum_pos_of_term (n : Nat) (f : Nat → K) (h0 : ∀ i, 0 ≤ f i) (j : Nat) (hj : j < n)
    (hp : 0 < f j) : 0 < ((List.range n).map f).sum := by
  induction n with
  | zero => omega
  | succ n ih =>
    rw [List.range_succ, List.map_append, List.sum_append]
    simp only [List.map_cons, List.map_nil, List.sum_cons, List.sum_nil, add_zero]
    have hnn : 0 ≤ ((List.range n).map f).sum := by
      apply List.sum_nonneg
      intro x hx
      obtain ⟨i, _, rfl⟩ := List.mem_map.1 hx
      exact h0 i
    by_cases hjn : j = n
    · subst hjn
      linarith
    · have := ih (by omega)
      linarith [h0 n]

/-- If some entry differs from its channel mean, the deviation sum is positive -/
theorem deviationSum_pos (tex : List K) (h3 : tex.length % 3 = 0) (k : Nat) (hk : k < tex.length)
    (hd : tex.getD k 0 ≠ channelMean tex (k % 3)) : 0 < deviationSum tex := by
  unfold deviationSum
  apply sum_pos_of_term _ _ _ (k / 3) (by omega)
  · have hk3 : k = 3 * (k / 3) + k % 3 := by omega
    have hlt : k % 3 < 3 := Nat.mod_lt _ (by decide)
    have a0 := mul_self_nonneg (channelMean tex 0 - tex.getD (3 * (k / 3)) 0)
    have a1 := mul_self_nonneg (channelMean tex 1 - tex.getD (3 * (k / 3) + 1) 0)
    have a2 := mul_self_nonneg (channelMean tex 2 - tex.getD (3 * (k / 3) + 2) 0)
    have hpos : 0 < (channelMean tex (k % 3) - tex.getD k 0) * (channelMean tex (k % 3) - tex.getD k 0) :=
      mul_self_pos.2 (sub_ne_zero.2 (Ne.symm hd))
    rw [hk3] at hpos
    have e : (3 * (k / 3) + k % 3) % 3 = k % 3 := by omega
    rw [e] at hpos
    generalize k % 3 = r at hlt hpos
    generalize k / 3 = q at a0 a1 a2 hpos ⊢
    interval_cases r
    · simp only [add_zero] at hpos
      linarith
    · linarith
    · linarith
  · intro i
    have := mul_self_nonneg (channelMean tex 0 - tex.getD (3 * i) 0)
    have := mul_self_nonneg (channelMean tex 1 - tex.getD (3 * i + 1) 0)
    have := mul_self_nonneg (channelMean tex 2 - tex.getD (3 * i + 2) 0)
    linarith

/-- A texture whose entries all equal their channel means is normalised to zeros -/
theorem normalize_zero_variance (m : CMath K) (tex : List K) (h3 : tex.length % 3 = 0)
    (hc : ∀ k, k < tex.length → tex.getD k 0 = channelMean tex (k % 3)) :
    normalize m tex = List.replicate tex.length 0 := by
  apply ext_getD
  · rw [normalize_length, List.length_replicate]
  · intro k hk
    rw [normalize_length] at hk
    rw [normalize_getD m tex h3 k hk, hc k hk, sub_self, zero_div]
    simp [List.getD_eq_getElem?_getD, List.getElem?_replicate, hk]

/-- When the square root is exact at the positive variance of a texture, the divisor of
`normalize` is the root and the mean of the squares after `normalize` is 1 -/
theorem meanSquare_normalize_of_pos (m : CMath K) (tex : List K) (hne : tex ≠ [])
    (h3 : tex.length % 3 = 0)
    (hsq : m.sqrt (deviationSum tex / (tex.length : K)) * m.sqrt (deviationSum tex / (tex.length : K))
      = deviationSum tex / (tex.length : K))
    (hD : 0 < deviationSum tex) :
    normDivisor m tex = m.sqrt (deviationSum tex / (tex.length : K)) ∧
      meanSquare (normalize m tex) = 1 := by
  have hL : (0 : K) < (tex.length : K) := by
    have : 0 < tex.length := List.length_pos.2 hne
    exact_mod_cast this
  have hv : deviationSum tex / (tex.length : K) ≠ 0 := ne_of_gt (div_pos hD hL)
  have hs : m.sqrt (deviationSum tex / (tex.length : K)) ≠ 0 := by
    intro h0
    rw [h0, mul_zero] at hsq
    exact hv hsq.symm
  have hdiv : normDivisor m tex = m.sqrt (deviationSum tex / (tex.length : K)) := by
    unfold normDivisor
    rw [if_neg hs]
  refine ⟨hdiv, ?_⟩
  rw [meanSquare_normalize m tex h3, hdiv, hsq]
  field_simp

/-- The deviation sum of a texture whose entries all equal their channel means is 0 -/
theorem deviationSum_zero (tex : List K) (h3 : tex.length % 3 = 0)
    (hc : ∀ k, k < tex.length → tex.getD k 0 = channelMean tex (k % 3)) :
    deviationSum tex = 0 := by
  unfold deviationSum
  rw [sum_map_range_congr _ _ (fun _ => (0 : K))]
  · simp
  · intro i hi
    have h0 := hc (3 * i) (by omega)
    have h1 := hc (3 * i + 1) (by omega)
    have h2 := hc (3 * i + 2) (by omega)
    have e0 : (3 * i) % 3 = 0 := by omega
    have e1 : (3 * i + 1) % 3 = 1 := by omega
    have e2 : (3 * i + 2) % 3 = 2 := by omega
    rw [e0] at h0
    rw [e1] at h1
    rw [e2] at h2
    rw [h0, h1, h2]
    ring

/-- The postcondition of `normalize` on a non-empty texture of length `3 n` -/
theorem normalize_post (m : CMath K) (tex : List K) (hne : tex ≠ []) (h3 : tex.length % 3 = 0)
    (hsq : m.sqrt (deviationSum tex / (tex.length : K)) * m.sqrt (deviationSum tex / (tex.length : K))
      = deviationSum tex / (tex.length : K)) :
    (normalize m tex).length = tex.length ∧
    (∀ c, c < 3 → channelMean (normalize m tex) c = 0) ∧
    ((∃ k, k < tex.length ∧ tex.getD k 0 ≠ channelMean tex (k % 3)) →
      meanSquare (normalize m tex) = 1 ∧
      ∀ k, k < tex.length → (normalize m tex).getD k 0
        = (tex.getD k 0 - channelMean tex (k % 3)) / m.sqrt (deviationSum tex / (tex.length : K))) ∧
    ((∀ k, k < tex.length → tex.getD k 0 = channelMean tex (k % 3)) →
      normDivisor m tex = 1 ∧ normalize m tex = List.replicate tex.length 0) := by
  refine ⟨normalize_length m tex, fun c hc => channelMean_normalize m tex hne h3 c hc, ?_, ?_⟩
  · rintro ⟨k, hk, hd⟩
    obtain ⟨hdiv, hms⟩ :=
      meanSquare_normalize_of_pos m tex hne h3 hsq (deviationSum_pos tex h3 k hk hd)
    refine ⟨hms, fun j hj => ?_⟩
    rw [normalize_getD m tex h3 j hj, hdiv]
  · intro hc
    refine ⟨?_, normalize_zero_variance m tex h3 hc⟩
    have hz := deviationSum_zero tex h3 hc
    rw [hz, zero_div] at hsq
    have h0 : m.sqrt 0 = 0 := mul_self_eq_zero.1 hsq
    unfold normDivisor
    rw [hz, zero_div, if_pos h0]

/-- The variance of a texture with channel means 0 is the mean of its squares -/
theorem deviationSum_mean_zero (x : List K) (h3 : x.length % 3 = 0)
    (hmean : ∀ c, c < 3 → channelMean x c = 0) :
    deviationSum x / (x.length : K) = meanSquare x := by
  have hlen : x.length = 3 * (x.length / 3) := by omega
  unfold meanSquare deviationSum
  congr 1
  rw [hmean 0 (by decide), hmean 1 (by decide), hmean 2 (by decide)]
  nth_rewrite 2 [hlen]
  rw [sum_range_three]
  apply sum_map_range_congr
  intro i _
  ring

/-- Normalising a normalised texture changes nothing -/
theorem normalize_idem (m : CMath K) (tex : List K) (hne : tex ≠ []) (h3 : tex.length % 3 = 0)
    (hsq : m.sqrt (deviationSum tex / (tex.length : K)) * m.sqrt (deviationSum tex / (tex.length : K))
      = deviationSum tex / (tex.length : K))
    (h1 : m.sqrt 1 = 1) :
    normalize m (normalize m tex) = normalize m tex := by
  have hN3 : (normalize m tex).length % 3 = 0 := by rw [normalize_length]; exact h3
  have hNne : normalize m tex ≠ [] := by
    intro h
    have := normalize_length m tex
    rw [h] at this
    exact hne (List.length_eq_zero.1 this.symm)
  have hmean : ∀ c, c < 3 → channelMean (normalize m tex) c = 0 :=
    fun c hc => channelMean_normalize m tex hne h3 c hc
  by_cases hc : ∀ k, k < tex.length → tex.getD k 0 = channelMean tex (k % 3)
  · have hz : ∀ k, k < (normalize m tex).length →
        (normalize m tex).getD k 0 = channelMean (normalize m tex) (k % 3) := by
      intro k hk
      rw [normalize_length] at hk
      rw [hmean _ (Nat.mod_lt _ (by decide)), normalize_getD m tex h3 k hk, hc k hk, sub_self,
        zero_div]
    rw [normalize_zero_variance m (normalize m tex) hN3 hz, normalize_length,
      normalize_zero_variance m tex h3 hc]
  · push_neg at hc
    obtain ⟨k, hk, hd⟩ := hc
    obtain ⟨_, hms⟩ :=
      meanSquare_normalize_of_pos m tex hne h3 hsq (deviationSum_pos tex h3 k hk hd)
    have hv : deviationSum (normalize m tex) / ((normalize m tex).length : K) = 1 := by
      rw [deviationSum_mean_zero _ hN3 hmean, hms]
    have hdiv : normDivisor m (normalize m tex) = 1 := by
      unfold normDivisor
      rw [hv, h1, if_neg one_ne_zero]
    apply ext_getD
    · rw [normalize_length]
    · intro j hj
      rw [normalize_length] at hj
      rw [normalize_getD m (normalize m tex) hN3 j hj, hdiv,
        hmean _ (Nat.mod_lt _ (by decide)), sub_zero, div_one]

/-- The inner product `dot` of a non-empty buffer as a sum -/
theorem dot_eq_sum (x y : List K) (hne : x ≠ []) :
    dot x y = some (((List.range x.length).map (fun i => x.getD i 0 * y.getD i 0)).sum
      / (x.length : K)) := by
  have hl : x.length ≠ 0 := fun h => hne (List.length_eq_zero.1 h)
  unfold dot
  simp only [hl, if_false]
  rw [foldl_add_eq_sum (fun i => x.getD i 0 * y.getD i 0), zero_add]

/-- Twice a sum of products is at most the two sums of squares, in absolute value -/
theorem two_mul_sum_le (n : Nat) (f g : Nat → K) :
    2 * ((List.range n).map (fun i => f i * g i)).sum
        ≤ ((List.range n).map (fun i => f i * f i)).sum + ((List.range n).map (fun i => g i * g i)).sum ∧
    -(((List.range n).map (fun i => f i * f i)).sum + ((List.range n).map (fun i => g i * g i)).sum)
        ≤ 2 * ((List.range n).map (fun i => f i * g i)).sum := by
  induction n with
  | zero => simp
  | succ n ih =>
    simp only [List.range_succ, List.map_append, List.sum_append, List.map_cons, List.map_nil,
      List.sum_cons, List.sum_nil, add_zero]
    have a := mul_self_nonneg (f n - g n)
    have b := mul_self_nonneg (f n + g n)
    constructor
    · nlinarith [ih.1]
    · nlinarith [ih.2]

/-- The mean of the squares of a normalised texture is at most 1 -/
theorem meanSquare_normalize_le (m : CMath K) (tex : List K) (hne : tex ≠ [])
    (h3 : tex.length % 3 = 0)
    (hsq : m.sqrt (deviationSum tex / (tex.length : K)) * m.sqrt (deviationSum tex / (tex.length : K))
      = deviationSum tex / (tex.length : K)) :
    meanSquare (normalize m tex) ≤ 1 := by
  rcases (deviationSum_nonneg tex).lt_or_eq with hD | hD
  · rw [(meanSquare_normalize_of_pos m tex hne h3 hsq hD).2]
  · rw [meanSquare_normalize m tex h3, ← hD, zero_div, zero_div]
    exact zero_le_one

/-- The inner product of two buffers of equal length whose mean squares are at most 1 lies
in `[-1, 1]` -/
theorem dot_bound (x y : List K) (hne : x ≠ []) (hlen : x.length = y.length)
    (hx : meanSquare x ≤ 1) (hy : meanSquare y ≤ 1) :
    ∃ r, dot x y = some r ∧ -1 ≤ r ∧ r ≤ 1 := by
  have hL : (0 : K) < (x.length : K) := by
    have : 0 < x.length := List.length_pos.2 hne
    exact_mod_cast this
  refine ⟨_, dot_eq_sum x y hne, ?_⟩
  unfold meanSquare at hx hy
  rw [← hlen] at hy
  rw [div_le_iff₀ hL, one_mul] at hx hy
  obtain ⟨h1, h2⟩ := two_mul_sum_le x.length (fun i => x.getD i 0) (fun i => y.getD i 0)
  constructor
  · rw [le_div_iff₀ hL]
    linarith
  · rw [div_le_iff₀ hL]
    linarith

/-- The range of the normalised cross-correlation of two textures -/
theorem ncc_bound (m : CMath K) (a b : List K) (hne : a ≠ []) (hlen : a.length = b.length)
    (h3 : a.length % 3 = 0)
    (hsqa : m.sqrt (deviationSum a / (a.length : K)) * m.sqrt (deviationSum a / (a.length : K))
      = deviationSum a / (a.length : K))
    (hsqb : m.sqrt (deviationSum b / (b.length : K)) * m.sqrt (deviationSum b / (b.length : K))
      = deviationSum b / (b.length : K)) :
    (∃ r, dot (normalize m a) (normalize m b) = some r ∧ -1 ≤ r ∧ r ≤ 1 ∧
      0 ≤ 1 - r ∧ 1 - r ≤ 2) ∧
    ((∃ k, k < a.length ∧ a.getD k 0 ≠ channelMean a (k % 3)) →
      dot (normalize m a) (normalize m a) = some 1) := by
  have hNne : normalize m a ≠ [] := by
    intro h
    have := normalize_length m a
    rw [h] at this
    exact hne (List.length_eq_zero.1 this.symm)
  have hbne : b ≠ [] := by
    intro h
    rw [h] at hlen
    exact hne (List.length_eq_zero.1 hlen)
  constructor
  · obtain ⟨r, hr, h1, h2⟩ := dot_bound (normalize m a) (normalize m b) hNne
      (by rw [normalize_length, normalize_length, hlen])
      (meanSquare_normalize_le m a hne h3 hsqa)
      (meanSquare_normalize_le m b hbne (by rw [← hlen]; exact h3) hsqb)
    exact ⟨r, hr, h1, h2, by linarith, by linarith⟩
  · rintro ⟨k, hk, hd⟩
    have hms := (meanSquare_normalize_of_pos m a hne h3 hsqa (deviationSum_pos a h3 k hk hd)).2
    rw [dot_eq_sum _ _ hNne]
    unfold meanSquare at hms
    rw [hms]

/-- C24 (amended): in exact arithmetic, for a non-empty texture of length `3 n`, with the
square root exact at the variance, `normalize` keeps the length and leaves every channel with mean 0; if some entry
differed from its channel mean, the mean of the squares of the result is 1 and each entry
is `(t − channel mean) / sqrt(deviation sum / 3n)`; if every entry equalled its channel
mean, the divisor is 1 and the result is the all-zero texture of the same length. -/
theorem normalize_postcondition (m : CMath K) (tex : List K) (hne : tex ≠ [])
    (h3 : tex.length % 3 = 0)
    (hsq : m.sqrt (deviationSum tex / (tex.length : K)) * m.sqrt (deviationSum tex / (tex.length : K))
      = deviationSum tex / (tex.length : K)) :
    (normalize m tex).length = tex.length ∧
    (∀ c, c < 3 → channelMean (normalize m tex) c = 0) ∧
    ((∃ k, k < tex.length ∧ tex.getD k 0 ≠ channelMean tex (k % 3)) →
      meanSquare (normalize m tex) = 1 ∧
      ∀ k, k < tex.length → (normalize m tex).getD k 0
        = (tex.getD k 0 - channelMean tex (k % 3)) / m.sqrt (deviationSum tex / (tex.length : K))) ∧
    ((∀ k, k < tex.length → tex.getD k 0 = channelMean tex (k % 3)) →
      normDivisor m tex = 1 ∧ normalize m tex = List.replicate tex.length 0) :=
  normalize_post m tex hne h3 hsq

/-- C15 (amended): in exact arithmetic, for a non-empty texture of length `3 n`, constant
or not, with the square root exact at the variance and at 1, `normalize(normalize(tex)) = normalize(tex)`. -/
theorem normalize_idempotent (m : CMath K) (tex : List K) (hne : tex ≠ [])
    (h3 : tex.length % 3 = 0)
    (hsq : m.sqrt (deviationSum tex / (tex.length : K)) * m.sqrt (deviationSum tex / (tex.length : K))
      = deviationSum tex / (tex.length : K))
    (h1 : m.sqrt 1 = 1) :
    normalize m (normalize m tex) = normalize m tex :=
  normalize_idem m tex hne h3 hsq h1

/-- C16 (amended): in exact arithmetic, for non-empty textures `a`, `b` of equal length
`3 n`, with the square root exact at their variances, `dot(normalize(a), normalize(b))` is a number in `[-1, 1]`, so
`1 − dot` lies in `[0, 2]`; and if some entry of `a` differs from its channel mean,
`dot(normalize(a), normalize(a)) = 1`. -/
theorem ncc_range (m : CMath K) (a b : List K) (hne : a ≠ []) (hlen : a.length = b.length)
    (h3 : a.length % 3 = 0)
    (hsqa : m.sqrt (deviationSum a / (a.length : K)) * m.sqrt (deviationSum a / (a.length : K))
      = deviationSum a / (a.length : K))
    (hsqb : m.sqrt (deviationSum b / (b.length : K)) * m.sqrt (deviationSum b / (b.length : K))
      = deviationSum b / (b.length : K)) :
    (∃ r, dot (normalize m a) (normalize m b) = some r ∧ -1 ≤ r ∧ r ≤ 1 ∧
      0 ≤ 1 - r ∧ 1 - r ≤ 2) ∧
    ((∃ k, k < a.length ∧ a.getD k 0 ≠ channelMean a (k % 3)) →
      dot (normalize m a) (normalize m a) = some 1) :=
  ncc_bound m a b hne hlen h3 hsqa hsqb

/-- A number whose square is at most 1 lies in `[-1, 1]`, where the clamp of `encode`
changes nothing -/
theorem clamp_of_mul_self_le (y : K) (h : y * y ≤ 1) :
    (-1 ≤ y ∧ y ≤ 1) ∧ max (-1) (min 1 y) = y := by
  have hb : -1 ≤ y ∧ y ≤ 1 := abs_le.1 (abs_le_one_iff_mul_self_le_one.2 h)
  exact ⟨hb, by rw [min_eq_right hb.2, max_eq_right hb.1]⟩

/-- Two non-negative numbers with equal squares are equal -/
theorem eq_of_mul_self_eq (a b : K) (ha : 0 ≤ a) (hb : 0 ≤ b) (h : a * a = b * b) : a = b := by
  have h0 : (a - b) * (a + b) = 0 := by linear_combination h
  rcases mul_eq_zero.1 h0 with h1 | h1
  · linarith
  · linarith

/-- The angle that `encode` computes from a sine and a cosine has that sine and cosine -/
theorem angle1_roundtrip (m : CMath K) (hm : TrigLaws m) (sa ca : K)
    (h : sa * sa + ca * ca = 1) :
    m.sin (if sa < 0 then -m.acos (max (-1) (min 1 ca)) else m.acos (max (-1) (min 1 ca))) = sa ∧
    m.cos (if sa < 0 then -m.acos (max (-1) (min 1 ca)) else m.acos (max (-1) (min 1 ca))) = ca := by
  have hca2 : ca * ca ≤ 1 := by linarith [mul_self_nonneg sa]
  obtain ⟨⟨ha1, ha2⟩, hcl2⟩ := clamp_of_mul_self_le ca hca2
  rw [hcl2]
  have hcv := hm.cos_acos ca ha1 ha2
  have hsv := hm.sin_acos_nonneg ca ha1 ha2
  have hsq2 := hm.sin_sq_add_cos_sq (m.acos ca)
  rw [hcv] at hsq2
  by_cases hneg : sa < 0
  · rw [if_pos hneg, hm.sin_neg, hm.cos_neg, hcv]
    have hss : m.sin (m.acos ca) * m.sin (m.acos ca) = (-sa) * (-sa) := by linarith
    have hsin : m.sin (m.acos ca) = -sa :=
      eq_of_mul_self_eq _ _ hsv (neg_nonneg.2 (le_of_lt hneg)) hss
    rw [hsin, neg_neg]
    exact ⟨rfl, rfl⟩
  · rw [if_neg hneg, hcv]
    have hss : m.sin (m.acos ca) * m.sin (m.acos ca) = sa * sa := by linarith
    have hsin : m.sin (m.acos ca) = sa := eq_of_mul_self_eq _ _ hsv (not_lt.1 hneg) hss
    exact ⟨hsin, rfl⟩

/-- The angles that `encode` computes from the frame coordinates of a unit vector give
the coordinates back in `decode` -/
theorem angles_roundtrip (m : CMath K) (hm : TrigLaws m) (fx fy fz : K)
    (h : fx * fx + fy * fy + fz * fz = 1) :
    m.sin (if m.cos (m.asin (max (-1) (min 1 fy))) = 0 then 0
        else if fx / m.cos (m.asin (max (-1) (min 1 fy))) < 0 then
          -m.acos (max (-1) (min 1 (-fz / m.cos (m.asin (max (-1) (min 1 fy))))))
        else m.acos (max (-1) (min 1 (-fz / m.cos (m.asin (max (-1) (min 1 fy)))))))
      * m.cos (m.asin (max (-1) (min 1 fy))) = fx ∧
    m.sin (m.asin (max (-1) (min 1 fy))) = fy ∧
    -m.cos (if m.cos (m.asin (max (-1) (min 1 fy))) = 0 then 0
        else if fx / m.cos (m.asin (max (-1) (min 1 fy))) < 0 then
          -m.acos (max (-1) (min 1 (-fz / m.cos (m.asin (max (-1) (min 1 fy))))))
        else m.acos (max (-1) (min 1 (-fz / m.cos (m.asin (max (-1) (min 1 fy)))))))
      * m.cos (m.asin (max (-1) (min 1 fy))) = fz := by
  have hfy2 : fy * fy ≤ 1 := by linarith [mul_self_nonneg fx, mul_self_nonneg fz]
  obtain ⟨⟨hy1, hy2⟩, hcl⟩ := clamp_of_mul_self_le fy hfy2
  rw [hcl]
  have hs := hm.sin_asin fy hy1 hy2
  have hc0 := hm.cos_asin_nonneg fy hy1 hy2
  have hsq := hm.sin_sq_add_cos_sq (m.asin fy)
  rw [hs] at hsq
  refine ⟨?_, hs, ?_⟩ <;> clear hs
  all_goals generalize m.cos (m.asin fy) = cb at hc0 hsq ⊢
  all_goals have hcb : cb * cb = fx * fx + fz * fz := by linarith
  all_goals by_cases hz : cb = 0
  · rw [if_pos hz, hz]
    rw [hz] at hcb
    have hx0 : fx * fx = 0 := by linarith [mul_self_nonneg fx, mul_self_nonneg fz]
    rw [mul_self_eq_zero] at hx0
    rw [hx0, mul_zero]
  · rw [if_neg hz]
    have hunit : (fx / cb) * (fx / cb) + (-fz / cb) * (-fz / cb) = 1 := by
      field_simp
      linarith
    rw [(angle1_roundtrip m hm (fx / cb) (-fz / cb) hunit).1]
    exact div_mul_cancel₀ fx hz
  · rw [if_pos hz, hz]
    rw [hz] at hcb
    have hz0 : fz * fz = 0 := by linarith [mul_self_nonneg fx, mul_self_nonneg fz]
    rw [mul_self_eq_zero] at hz0
    rw [hz0, mul_zero]
  · rw [if_neg hz]
    have hunit : (fx / cb) * (fx / cb) + (-fz / cb) * (-fz / cb) = 1 := by
      field_simp
      linarith
    rw [(angle1_roundtrip m hm (fx / cb) (-fz / cb) hunit).2]
    field_simp

/-- An orthonormal triple of three-vectors spans every vector -/
theorem frame_complete (X Y Z n : Vec3f K) (hxx : Vec3f.dot X X = 1) (hyy : Vec3f.dot Y Y = 1)
    (hzz : Vec3f.dot Z Z = 1) (hxy : Vec3f.dot X Y = 0) (hxz : Vec3f.dot X Z = 0)
    (hyz : Vec3f.dot Y Z = 0) :
    Vec3f.add (Vec3f.add (Vec3f.smul (Vec3f.dot X n) X) (Vec3f.smul (Vec3f.dot Y n) Y))
        (Vec3f.smul (Vec3f.dot Z n) Z) = n ∧
    Vec3f.dot X n * Vec3f.dot X n + Vec3f.dot Y n * Vec3f.dot Y n + Vec3f.dot Z n * Vec3f.dot Z n
      = Vec3f.dot n n := by
  obtain ⟨x1, x2, x3⟩ := X
  obtain ⟨y1, y2, y3⟩ := Y
  obtain ⟨z1, z2, z3⟩ := Z
  obtain ⟨n1, n2, n3⟩ := n
  simp only [Vec3f.dot] at hxx hyy hzz hxy hxz hyz
  simp only [Vec3f.dot, Vec3f.add, Vec3f.smul, Vec3f.mk.injEq]
  have hD : (x1 * (y2 * z3 - y3 * z2) + x2 * (y3 * z1 - y1 * z3) + x3 * (y1 * z2 - y2 * z1))
      * (x1 * (y2 * z3 - y3 * z2) + x2 * (y3 * z1 - y1 * z3) + x3 * (y1 * z2 - y2 * z1)) = 1 := by
    linear_combination
      ((y1 * y1 + y2 * y2 + y3 * y3) * (z1 * z1 + z2 * z2 + z3 * z3)) * hxx
      + (z1 * z1 + z2 * z2 + z3 * z3) * hyy + hzz
      + (2 * (x1 * z1 + x2 * z2 + x3 * z3) * (y1 * z1 + y2 * z2 + y3 * z3)
          - (z1 * z1 + z2 * z2 + z3 * z3) * (x1 * y1 + x2 * y2 + x3 * y3)) * hxy
      + (-(y1 * y1 + y2 * y2 + y3 * y3) * (x1 * z1 + x2 * z2 + x3 * z3)) * hxz
      + (-(x1 * x1 + x2 * x2 + x3 * x3) * (y1 * z1 + y2 * z2 + y3 * z3)) * hyz
  have hD0 : x1 * (y2 * z3 - y3 * z2) + x2 * (y3 * z1 - y1 * z3) + x3 * (y1 * z2 - y2 * z1) ≠ 0 := by
    intro h0
    rw [h0, mul_zero] at hD
    exact zero_ne_one hD
  have hvx : ((x1 * n1 + x2 * n2 + x3 * n3) * x1 + (y1 * n1 + y2 * n2 + y3 * n3) * y1
        + (z1 * n1 + z2 * n2 + z3 * n3) * z1 - n1) * x1
      + ((x1 * n1 + x2 * n2 + x3 * n3) * x2 + (y1 * n1 + y2 * n2 + y3 * n3) * y2
        + (z1 * n1 + z2 * n2 + z3 * n3) * z2 - n2) * x2
      + ((x1 * n1 + x2 * n2 + x3 * n3) * x3 + (y1 * n1 + y2 * n2 + y3 * n3) * y3
        + (z1 * n1 + z2 * n2 + z3 * n3) * z3 - n3) * x3 = 0 := by
    linear_combination (x1 * n1 + x2 * n2 + x3 * n3) * hxx + (y1 * n1 + y2 * n2 + y3 * n3) * hxy
      + (z1 * n1 + z2 * n2 + z3 * n3) * hxz
  have hvy : ((x1 * n1 + x2 * n2 + x3 * n3) * x1 + (y1 * n1 + y2 * n2 + y3 * n3) * y1
        + (z1 * n1 + z2 * n2 + z3 * n3) * z1 - n1) * y1
      + ((x1 * n1 + x2 * n2 + x3 * n3) * x2 + (y1 * n1 + y2 * n2 + y3 * n3) * y2
        + (z1 * n1 + z2 * n2 + z3 * n3) * z2 - n2) * y2
      + ((x1 * n1 + x2 * n2 + x3 * n3) * x3 + (y1 * n1 + y2 * n2 + y3 * n3) * y3
        + (z1 * n1 + z2 * n2 + z3 * n3) * z3 - n3) * y3 = 0 := by
    linear_combination (x1 * n1 + x2 * n2 + x3 * n3) * hxy + (y1 * n1 + y2 * n2 + y3 * n3) * hyy
      + (z1 * n1 + z2 * n2 + z3 * n3) * hyz
  have hvz : ((x1 * n1 + x2 * n2 + x3 * n3) * x1 + (y1 * n1 + y2 * n2 + y3 * n3) * y1
        + (z1 * n1 + z2 * n2 + z3 * n3) * z1 - n1) * z1
      + ((x1 * n1 + x2 * n2 + x3 * n3) * x2 + (y1 * n1 + y2 * n2 + y3 * n3) * y2
        + (z1 * n1 + z2 * n2 + z3 * n3) * z2 - n2) * z2
      + ((x1 * n1 + x2 * n2 + x3 * n3) * x3 + (y1 * n1 + y2 * n2 + y3 * n3) * y3
        + (z1 * n1 + z2 * n2 + z3 * n3) * z3 - n3) * z3 = 0 := by
    linear_combination (x1 * n1 + x2 * n2 + x3 * n3) * hxz + (y1 * n1 + y2 * n2 + y3 * n3) * hyz
      + (z1 * n1 + z2 * n2 + z3 * n3) * hzz
  have he1 : (x1 * n1 + x2 * n2 + x3 * n3) * x1 + (y1 * n1 + y2 * n2 + y3 * n3) * y1
      + (z1 * n1 + z2 * n2 + z3 * n3) * z1 = n1 := by
    have h0 : (x1 * (y2 * z3 - y3 * z2) + x2 * (y3 * z1 - y1 * z3) + x3 * (y1 * z2 - y2 * z1))
        * ((x1 * n1 + x2 * n2 + x3 * n3) * x1 + (y1 * n1 + y2 * n2 + y3 * n3) * y1
          + (z1 * n1 + z2 * n2 + z3 * n3) * z1 - n1) = 0 := by
      linear_combination (y2 * z3 - y3 * z2) * hvx + (z2 * x3 - z3 * x2) * hvy
        + (x2 * y3 - x3 * y2) * hvz
    rcases mul_eq_zero.1 h0 with h | h
    · exact absurd h hD0
    · linarith
  have he2 : (x1 * n1 + x2 * n2 + x3 * n3) * x2 + (y1 * n1 + y2 * n2 + y3 * n3) * y2
      + (z1 * n1 + z2 * n2 + z3 * n3) * z2 = n2 := by
    have h0 : (x1 * (y2 * z3 - y3 * z2) + x2 * (y3 * z1 - y1 * z3) + x3 * (y1 * z2 - y2 * z1))
        * ((x1 * n1 + x2 * n2 + x3 * n3) * x2 + (y1 * n1 + y2 * n2 + y3 * n3) * y2
          + (z1 * n1 + z2 * n2 + z3 * n3) * z2 - n2) = 0 := by
      linear_combination (y3 * z1 - y1 * z3) * hvx + (z3 * x1 - z1 * x3) * hvy
        + (x3 * y1 - x1 * y3) * hvz
    rcases mul_eq_zero.1 h0 with h | h
    · exact absurd h hD0
    · linarith
  have he3 : (x1 * n1 + x2 * n2 + x3 * n3) * x3 + (y1 * n1 + y2 * n2 + y3 * n3) * y3
      + (z1 * n1 + z2 * n2 + z3 * n3) * z3 = n3 := by
    have h0 : (x1 * (y2 * z3 - y3 * z2) + x2 * (y3 * z1 - y1 * z3) + x3 * (y1 * z2 - y2 * z1))
        * ((x1 * n1 + x2 * n2 + x3 * n3) * x3 + (y1 * n1 + y2 * n2 + y3 * n3) * y3
          + (z1 * n1 + z2 * n2 + z3 * n3) * z3 - n3) = 0 := by
      linear_combination (y1 * z2 - y2 * z1) * hvx + (z1 * x2 - z2 * x1) * hvy
        + (x1 * y2 - x2 * y1) * hvz
    rcases mul_eq_zero.1 h0 with h | h
    · exact absurd h hD0
    · linarith
  refine ⟨⟨?_, ?_, ?_⟩, ?_⟩
  · linear_combination he1
  · linear_combination he2
  · linear_combination he3
  · linear_combination n1 * he1 + n2 * he2 + n3 * he3

/-- The position part of `decode ∘ encode` is the identity exactly on the line through
`center_T` along `ray_T` -/
theorem decode_encode_coord (s : Scratch K) (coord : Vec4f K)
    (hray : Vec4f.dot s.m_raysT s.m_raysT = 1) (hd : s.m_dscalesT ≠ 0) :
    decodeCoord s (encodeCoord s coord) = coord ↔
      ∃ t, coord = Vec4f.add s.m_centersT (Vec4f.smul t s.m_raysT) := by
  constructor
  · intro h
    exact ⟨s.m_dscalesT * encodeCoord s coord, h.symm⟩
  · rintro ⟨t, rfl⟩
    have he : encodeCoord s (Vec4f.add s.m_centersT (Vec4f.smul t s.m_raysT)) = t / s.m_dscalesT := by
      simp only [encodeCoord, Vec4f.dot, Vec4f.sub, Vec4f.add, Vec4f.smul]
      simp only [Vec4f.dot] at hray
      congr 1
      linear_combination t * hray
    unfold decodeCoord
    rw [he, mul_div_cancel₀ _ hd]

/-- The normal part of `decode ∘ encode` is the identity on unit normals, when the axes
of the reference image are orthonormal -/
theorem decode_encode_normal (o : Coptim K) (s : Scratch K) (coord normal : Vec4f K)
    (hm : TrigLaws o.math)
    (hxx : Vec3f.dot (o.m_xaxes (s.m_indexesT.getD 0 0)) (o.m_xaxes (s.m_indexesT.getD 0 0)) = 1)
    (hyy : Vec3f.dot (o.m_yaxes (s.m_indexesT.getD 0 0)) (o.m_yaxes (s.m_indexesT.getD 0 0)) = 1)
    (hzz : Vec3f.dot (o.m_zaxes (s.m_indexesT.getD 0 0)) (o.m_zaxes (s.m_indexesT.getD 0 0)) = 1)
    (hxy : Vec3f.dot (o.m_xaxes (s.m_indexesT.getD 0 0)) (o.m_yaxes (s.m_indexesT.getD 0 0)) = 0)
    (hxz : Vec3f.dot (o.m_xaxes (s.m_indexesT.getD 0 0)) (o.m_zaxes (s.m_indexesT.getD 0 0)) = 0)
    (hyz : Vec3f.dot (o.m_yaxes (s.m_indexesT.getD 0 0)) (o.m_zaxes (s.m_indexesT.getD 0 0)) = 0)
    (ha : s.m_ascalesT ≠ 0)
    (hn : Vec3f.dot (proj normal) (proj normal) = 1) (hw : normal.w = 0) :
    (decode o s (encode o s coord normal)).2 = normal := by
  obtain ⟨fc, fs⟩ := frame_complete _ _ _ (proj normal) hxx hyy hzz hxy hxz hyz
  rw [hn] at fs
  obtain ⟨h1, h2, h3⟩ := angles_roundtrip o.math hm _ _ _ fs
  simp only [decode, encode]
  rw [div_mul_cancel₀ _ ha, div_mul_cancel₀ _ ha, h1, h2, h3, fc]
  obtain ⟨x, y, z, w⟩ := normal
  simp only [proj, Vec4f.mk.injEq, true_and]
  exact hw.symm

/-- The functions of real analysis satisfy the laws of `<math.h>` -/
theorem real_trigLaws :
    TrigLaws (⟨Real.sqrt, Real.sin, Real.cos, Real.arcsin, Real.arccos⟩ : CMath ℝ) where
  sin_asin := fun _ h1 h2 => Real.sin_arcsin h1 h2
  cos_asin_nonneg := fun y _ _ => Real.cos_arcsin_nonneg y
  cos_acos := fun _ h1 h2 => Real.cos_arccos h1 h2
  sin_acos_nonneg := fun y _ _ => by
    show 0 ≤ Real.sin (Real.arccos y)
    rw [Real.sin_arccos]
    exact Real.sqrt_nonneg _
  sin_sq_add_cos_sq := fun x => by
    have := Real.sin_sq_add_cos_sq x
    show Real.sin x * Real.sin x + Real.cos x * Real.cos x = 1
    nlinarith [this]
  sin_neg := Real.sin_neg
  cos_neg := Real.cos_neg

/-- The constant `M_PI / 48` is positive -/
theorem ascale_pos : (0 : K) < M_PI / 48 := by
  unfold M_PI
  positivity

/-- The variance of a real texture is not negative, so the real square root is exact at
it -/
theorem real_sqrt_variance (tex : List ℝ) :
    Real.sqrt (deviationSum tex / (tex.length : ℝ)) * Real.sqrt (deviationSum tex / (tex.length : ℝ))
      = deviationSum tex / (tex.length : ℝ) :=
  Real.mul_self_sqrt (div_nonneg (deviationSum_nonneg tex) (Nat.cast_nonneg _))

/-- The first entry of the window `(1, 2, 3), (5, 2, 3)` differs from its channel mean 3 -/
theorem example_not_constant :
    ([1, 2, 3, 5, 2, 3] : List ℝ).getD 0 0 ≠ channelMean ([1, 2, 3, 5, 2, 3] : List ℝ) (0 % 3) := by
  have h2 : List.range 2 = [0, 1] := by decide
  simp [channelMean, channelSum, h2]
  norm_num

/-- In binary32 the window `(1, 2, 3), (5, 2, 3)` is normalised to `(-s, 0, 0), (s, 0, 0)`
with `s = 14529496 · 2^-23 = 1.7320509` -/
theorem normalize_binary32_pair :
    F32.normalize [1 * F32.one, 2 * F32.one, 3 * F32.one, 5 * F32.one, 2 * F32.one, 3 * F32.one]
      = [-(14529496 * 2 ^ 126), 0, 0, 14529496 * 2 ^ 126, 0, 0] := by
  decide!

/-- C24 (witness): over the reals, the window `(1, 2, 3), (5, 2, 3)`, whose variance 4/3
is not a square of a rational. -/
theorem normalize_postcondition_witness :
    ([1, 2, 3, 5, 2, 3] : List ℝ) ≠ [] ∧ ([1, 2, 3, 5, 2, 3] : List ℝ).length % 3 = 0 ∧
    (normalize ⟨Real.sqrt, Real.sin, Real.cos, Real.arcsin, Real.arccos⟩
      ([1, 2, 3, 5, 2, 3] : List ℝ)).length = 6 ∧
    (∀ c, c < 3 → channelMean (normalize ⟨Real.sqrt, Real.sin, Real.cos, Real.arcsin, Real.arccos⟩
      ([1, 2, 3, 5, 2, 3] : List ℝ)) c = 0) ∧
    meanSquare (normalize ⟨Real.sqrt, Real.sin, Real.cos, Real.arcsin, Real.arccos⟩
      ([1, 2, 3, 5, 2, 3] : List ℝ)) = 1 := by
  obtain ⟨hl, hm, hv, _⟩ :=
    normalize_postcondition ⟨Real.sqrt, Real.sin, Real.cos, Real.arcsin, Real.arccos⟩
      ([1, 2, 3, 5, 2, 3] : List ℝ) (by simp) rfl (real_sqrt_variance _)
  exact ⟨by simp, rfl, hl, hm, (hv ⟨0, by simp, example_not_constant⟩).1⟩

/-- C24 (counterexample): in binary32 a constant window of 49 pixels of colour `0.1` is
normalised to all ones, not to zeros: the rounded channel mean differs from `0.1`, the
variance is not 0 and every channel of the result has mean 1.  The window
`(1, 2, 3), (5, 2, 3)` is normalised to `(-s, 0, 0), (s, 0, 0)` with `s = 1.7320509`, and
the sum of the squares of the six entries is not 6. -/
theorem normalize_binary32_counterexample :
    F32.normalize (List.replicate 147 tenth) = List.replicate 147 F32.one ∧
    F32.normalize [1 * F32.one, 2 * F32.one, 3 * F32.one, 5 * F32.one, 2 * F32.one, 3 * F32.one]
      = [-(14529496 * 2 ^ 126), 0, 0, 14529496 * 2 ^ 126, 0, 0] ∧
    (([-(14529496 * 2 ^ 126), 0, 0, 14529496 * 2 ^ 126, 0, 0] : List Int).map (fun x => x * x)).sum
      ≠ 6 * (F32.one * F32.one) := by
  refine ⟨by decide!, normalize_binary32_pair, by decide!⟩

/-- C15 (witness): over the reals, the window `(1, 2, 3), (5, 2, 3)`. -/
theorem normalize_idempotent_witness :
    ([1, 2, 3, 5, 2, 3] : List ℝ) ≠ [] ∧ ([1, 2, 3, 5, 2, 3] : List ℝ).length % 3 = 0 ∧
    Real.sqrt 1 = 1 ∧
    normalize ⟨Real.sqrt, Real.sin, Real.cos, Real.arcsin, Real.arccos⟩
        (normalize ⟨Real.sqrt, Real.sin, Real.cos, Real.arcsin, Real.arccos⟩
          ([1, 2, 3, 5, 2, 3] : List ℝ))
      = normalize ⟨Real.sqrt, Real.sin, Real.cos, Real.arcsin, Real.arccos⟩
          ([1, 2, 3, 5, 2, 3] : List ℝ) :=
  ⟨by simp, rfl, Real.sqrt_one,
    normalize_idempotent ⟨Real.sqrt, Real.sin, Real.cos, Real.arcsin, Real.arccos⟩
      ([1, 2, 3, 5, 2, 3] : List ℝ) (by simp) rfl (real_sqrt_variance _) Real.sqrt_one⟩

/-- C15 (counterexample): in binary32 a constant window of 7 pixels of colour `0.1` is
normalised to all `-1`, and normalising that gives all zeros: the second call changes the
result of the first. -/
theorem normalize_binary32_not_idempotent :
    F32.normalize (List.replicate 21 tenth) = List.replicate 21 (-F32.one) ∧
    F32.normalize (F32.normalize (List.replicate 21 tenth)) = List.replicate 21 0 ∧
    F32.normalize (F32.normalize (List.replicate 21 tenth))
      ≠ F32.normalize (List.replicate 21 tenth) := by
  refine ⟨by decide!, by decide!, by decide!⟩

/-- C16 (witness): over the reals, the windows `(1, 2, 3), (5, 2, 3)` and
`(2, 1, 4), (3, 0, 1)`. -/
theorem ncc_range_witness :
    ([1, 2, 3, 5, 2, 3] : List ℝ) ≠ [] ∧
    ([1, 2, 3, 5, 2, 3] : List ℝ).length = ([2, 1, 4, 3, 0, 1] : List ℝ).length ∧
    ([1, 2, 3, 5, 2, 3] : List ℝ).length % 3 = 0 ∧
    (∃ r, dot (normalize ⟨Real.sqrt, Real.sin, Real.cos, Real.arcsin, Real.arccos⟩
          ([1, 2, 3, 5, 2, 3] : List ℝ))
        (normalize ⟨Real.sqrt, Real.sin, Real.cos, Real.arcsin, Real.arccos⟩
          ([2, 1, 4, 3, 0, 1] : List ℝ)) = some r ∧ -1 ≤ r ∧ r ≤ 1 ∧ 0 ≤ 1 - r ∧ 1 - r ≤ 2) ∧
    dot (normalize ⟨Real.sqrt, Real.sin, Real.cos, Real.arcsin, Real.arccos⟩
          ([1, 2, 3, 5, 2, 3] : List ℝ))
        (normalize ⟨Real.sqrt, Real.sin, Real.cos, Real.arcsin, Real.arccos⟩
          ([1, 2, 3, 5, 2, 3] : List ℝ)) = some 1 := by
  obtain ⟨hr, hself⟩ :=
    ncc_range ⟨Real.sqrt, Real.sin, Real.cos, Real.arcsin, Real.arccos⟩
      ([1, 2, 3, 5, 2, 3] : List ℝ) ([2, 1, 4, 3, 0, 1] : List ℝ) (by simp) rfl rfl
      (real_sqrt_variance _) (real_sqrt_variance _)
  exact ⟨by simp, rfl, rfl, hr, hself ⟨0, by simp, example_not_constant⟩⟩

/-- C16 (counterexample): in binary32 the window `(1, 2, 3), (5, 2, 3)`, normalised, has
with itself the inner product `1 + 2^-23 = 1.00000012`, above 1, and `1 - dot` is
`-2^-23`, below 0. -/
theorem ncc_binary32_counterexample :
    F32.dot
        (F32.normalize [1 * F32.one, 2 * F32.one, 3 * F32.one, 5 * F32.one, 2 * F32.one, 3 * F32.one])
        (F32.normalize [1 * F32.one, 2 * F32.one, 3 * F32.one, 5 * F32.one, 2 * F32.one, 3 * F32.one])
      = 8388609 * 2 ^ 126 ∧
    F32.one < 8388609 * 2 ^ 126 ∧
    F32.sub F32.one (8388609 * 2 ^ 126) = -(2 ^ 126) ∧ -(2 ^ 126 : Int) < 0 := by
  refine ⟨?_, by decide!, by decide!, by decide!⟩
  rw [normalize_binary32_pair]
  decide!

/-- C26 (witness): over the reals, a camera looking along `(0, 0, 1)` with first
projection row `(1, 1, 0)`; the cross product `(-1, 1, 0)` has length `√2`. -/
theorem setAxesScales_frame_witness :
    Vec3f.dot ((skewFm : CfindMatch ℝ).m_oaxis 0).xyz ((skewFm : CfindMatch ℝ).m_oaxis 0).xyz = 1 ∧
    cross ((skewFm : CfindMatch ℝ).m_oaxis 0).xyz ((skewFm : CfindMatch ℝ).m_projection 0 0 0).xyz
      = ⟨-1, 1, 0⟩ ∧
    Vec3f.dot (setAxesScales skewFm ⟨Real.sqrt, Real.sin, Real.cos, Real.arcsin, Real.arccos⟩ 0).2.1
      (setAxesScales skewFm ⟨Real.sqrt, Real.sin, Real.cos, Real.arcsin, Real.arccos⟩ 0).2.2.1 = 0 ∧
    Vec3f.dot (setAxesScales skewFm ⟨Real.sqrt, Real.sin, Real.cos, Real.arcsin, Real.arccos⟩ 0).1
      (setAxesScales skewFm ⟨Real.sqrt, Real.sin, Real.cos, Real.arcsin, Real.arccos⟩ 0).1 = 1 ∧
    Vec3f.dot (setAxesScales skewFm ⟨Real.sqrt, Real.sin, Real.cos, Real.arcsin, Real.arccos⟩ 0).2.1
      (setAxesScales skewFm ⟨Real.sqrt, Real.sin, Real.cos, Real.arcsin, Real.arccos⟩ 0).2.1 = 1 := by
  have hz : Vec3f.dot ((skewFm : CfindMatch ℝ).m_oaxis 0).xyz
      ((skewFm : CfindMatch ℝ).m_oaxis 0).xyz = 1 := by
    norm_num [Vec3f.dot, Vec4f.xyz, skewFm]
  have hc : cross ((skewFm : CfindMatch ℝ).m_oaxis 0).xyz
      ((skewFm : CfindMatch ℝ).m_projection 0 0 0).xyz = ⟨-1, 1, 0⟩ := by
    norm_num [cross, Vec4f.xyz, skewFm]
  have hnp : cross ((skewFm : CfindMatch ℝ).m_oaxis 0).xyz
      ((skewFm : CfindMatch ℝ).m_projection 0 0 0).xyz ≠ ⟨0, 0, 0⟩ := by
    rw [hc]
    simp only [ne_eq, Vec3f.mk.injEq, not_and]
    norm_num
  have h := setAxesScales_frame (skewFm : CfindMatch ℝ)
    ⟨Real.sqrt, Real.sin, Real.cos, Real.arcsin, Real.arccos⟩ 0 hz hnp
    (Real.mul_self_sqrt (by rw [hc]; norm_num [Vec3f.dot]))
  exact ⟨hz, hc, h.1, h.2.2.1, h.2.2.2.1⟩

/-- C26 (counterexample): in binary32, for a camera looking along `(0, 0, 1)` with first
projection row `(1, 1, 0)`, `setAxesScales` stores `yaxis = (-h, h, 0)` and
`xaxis = (h, h, 0)` with `h = 11863283 · 2^-24 = 0.70710677`: the axes are orthogonal, but
their squared length `2 h²` is not 1, and computed in binary32 it is `0.99999994`. -/
theorem setAxesScales_binary32_counterexample :
    (F32.setAxesScales ⟨0, 0, F32.one, 0⟩ ⟨F32.one, F32.one, 0, 0⟩ ⟨-F32.one, F32.one, 0, 0⟩).2.1.x
      = -(11863283 * 2 ^ 125) ∧
    (F32.setAxesScales ⟨0, 0, F32.one, 0⟩ ⟨F32.one, F32.one, 0, 0⟩ ⟨-F32.one, F32.one, 0, 0⟩).2.1.y
      = 11863283 * 2 ^ 125 ∧
    (F32.setAxesScales ⟨0, 0, F32.one, 0⟩ ⟨F32.one, F32.one, 0, 0⟩ ⟨-F32.one, F32.one, 0, 0⟩).2.1.z
      = 0 ∧
    (F32.setAxesScales ⟨0, 0, F32.one, 0⟩ ⟨F32.one, F32.one, 0, 0⟩ ⟨-F32.one, F32.one, 0, 0⟩).1.x
      = 11863283 * 2 ^ 125 ∧
    (F32.setAxesScales ⟨0, 0, F32.one, 0⟩ ⟨F32.one, F32.one, 0, 0⟩ ⟨-F32.one, F32.one, 0, 0⟩).1.y
      = 11863283 * 2 ^ 125 ∧
    (F32.setAxesScales ⟨0, 0, F32.one, 0⟩ ⟨F32.one, F32.one, 0, 0⟩ ⟨-F32.one, F32.one, 0, 0⟩).1.z
      = 0 ∧
    (11863283 * 2 ^ 125 : Int) * (11863283 * 2 ^ 125) + (11863283 * 2 ^ 125) * (11863283 * 2 ^ 125)
      ≠ F32.one * F32.one ∧
    F32.dot3 ⟨-(11863283 * 2 ^ 125), 11863283 * 2 ^ 125, 0⟩ ⟨-(11863283 * 2 ^ 125), 11863283 * 2 ^ 125, 0⟩
      = 16777215 * 2 ^ 125 ∧
    (16777215 * 2 ^ 125 : Int) ≠ F32.one := by
  refine ⟨by decide!, by decide!, by decide!, by decide!, by decide!, by decide!, by decide!,
    by decide!, by decide!⟩

/-- The position that `decode` returns for the parameters of `encode`: the projection of
`coord` onto the line through `center_T` along `ray_T` -/
theorem decode_encode_projection (s : Scratch K) (coord : Vec4f K) (hd : s.m_dscalesT ≠ 0) :
    decodeCoord s (encodeCoord s coord)
      = Vec4f.add s.m_centersT
          (Vec4f.smul (Vec4f.dot (Vec4f.sub coord s.m_centersT) s.m_raysT) s.m_raysT) := by
  unfold decodeCoord encodeCoord
  rw [mul_div_cancel₀ _ hd]

/-- C12 (amended): with a unit `ray_T`, `dscale > 0` and `ascale > 0`,
`decode(encode(coord, normal))` returns as position the orthogonal projection
`center_T + ((coord − center_T) · ray_T) ray_T` of `coord` onto the line through
`center_T` along `ray_T`, which is `coord` exactly when `coord` lies on that line; and
with orthonormal axes of the reference image and the laws of the real `sin`, `cos`,
`asin`, `acos` it returns every unit normal as it was. -/
theorem encode_decode_roundtrip (o : Coptim K) (s : Scratch K) (coord normal : Vec4f K)
    (hray : Vec4f.dot s.m_raysT s.m_raysT = 1) (hd : 0 < s.m_dscalesT) (ha : 0 < s.m_ascalesT) :
    (decode o s (encode o s coord normal)).1
      = Vec4f.add s.m_centersT
          (Vec4f.smul (Vec4f.dot (Vec4f.sub coord s.m_centersT) s.m_raysT) s.m_raysT) ∧
    ((decode o s (encode o s coord normal)).1 = coord ↔
      ∃ t, coord = Vec4f.add s.m_centersT (Vec4f.smul t s.m_raysT)) ∧
    (TrigLaws o.math →
      Vec3f.dot (o.m_xaxes (s.m_indexesT.getD 0 0)) (o.m_xaxes (s.m_indexesT.getD 0 0)) = 1 →
      Vec3f.dot (o.m_yaxes (s.m_indexesT.getD 0 0)) (o.m_yaxes (s.m_indexesT.getD 0 0)) = 1 →
      Vec3f.dot (o.m_zaxes (s.m_indexesT.getD 0 0)) (o.m_zaxes (s.m_indexesT.getD 0 0)) = 1 →
      Vec3f.dot (o.m_xaxes (s.m_indexesT.getD 0 0)) (o.m_yaxes (s.m_indexesT.getD 0 0)) = 0 →
      Vec3f.dot (o.m_xaxes (s.m_indexesT.getD 0 0)) (o.m_zaxes (s.m_indexesT.getD 0 0)) = 0 →
      Vec3f.dot (o.m_yaxes (s.m_indexesT.getD 0 0)) (o.m_zaxes (s.m_indexesT.getD 0 0)) = 0 →
      Vec3f.dot (proj normal) (proj normal) = 1 → normal.w = 0 →
      (decode o s (encode o s coord normal)).2 = normal) :=
  ⟨decode_encode_projection s coord (ne_of_gt hd),
    decode_encode_coord s coord hray (ne_of_gt hd),
    fun hm hxx hyy hzz hxy hxz hyz hn hw =>
      decode_encode_normal o s coord normal hm hxx hyy hzz hxy hxz hyz (ne_of_gt ha) hn hw⟩

/-- C12 (witness): over the reals, the position `(0, 0, -2)` on the ray and the unit
normal `(3/5, 0, 4/5)`. -/
theorem encode_decode_roundtrip_witness :
    Vec4f.dot (frameScratch : Scratch ℝ).m_raysT (frameScratch : Scratch ℝ).m_raysT = 1 ∧
    (0 : ℝ) < (frameScratch : Scratch ℝ).m_dscalesT ∧ (0 : ℝ) < (frameScratch : Scratch ℝ).m_ascalesT ∧
    TrigLaws (frameOptim (⟨Real.sqrt, Real.sin, Real.cos, Real.arcsin, Real.arccos⟩ : CMath ℝ)).math ∧
    Vec3f.dot (proj (⟨3 / 5, 0, 4 / 5, 0⟩ : Vec4f ℝ)) (proj ⟨3 / 5, 0, 4 / 5, 0⟩) = 1 ∧
    decode (frameOptim ⟨Real.sqrt, Real.sin, Real.cos, Real.arcsin, Real.arccos⟩) frameScratch
        (encode (frameOptim ⟨Real.sqrt, Real.sin, Real.cos, Real.arcsin, Real.arccos⟩) frameScratch
          ⟨0, 0, -2, 1⟩ ⟨3 / 5, 0, 4 / 5, 0⟩)
      = (⟨0, 0, -2, 1⟩, ⟨3 / 5, 0, 4 / 5, 0⟩) := by
  have hn : Vec3f.dot (proj (⟨3 / 5, 0, 4 / 5, 0⟩ : Vec4f ℝ)) (proj ⟨3 / 5, 0, 4 / 5, 0⟩) = 1 := by
    norm_num [Vec3f.dot, proj]
  have hray : Vec4f.dot (frameScratch : Scratch ℝ).m_raysT (frameScratch : Scratch ℝ).m_raysT = 1 := by
    norm_num [Vec4f.dot, frameScratch]
  have hd : (0 : ℝ) < (frameScratch : Scratch ℝ).m_dscalesT := by norm_num [frameScratch]
  have ha : (0 : ℝ) < (frameScratch : Scratch ℝ).m_ascalesT := ascale_pos
  obtain ⟨_, h1, h2⟩ := encode_decode_roundtrip
    (frameOptim ⟨Real.sqrt, Real.sin, Real.cos, Real.arcsin, Real.arccos⟩) frameScratch
    ⟨0, 0, -2, 1⟩ ⟨3 / 5, 0, 4 / 5, 0⟩ hray hd ha
  refine ⟨hray, hd, ha, real_trigLaws, hn, Prod.ext (h1.2 ⟨2, ?_⟩)
    (h2 real_trigLaws (by norm_num [Vec3f.dot, frameOptim]) (by norm_num [Vec3f.dot, frameOptim])
      (by norm_num [Vec3f.dot, frameOptim]) (by norm_num [Vec3f.dot, frameOptim])
      (by norm_num [Vec3f.dot, frameOptim]) (by norm_num [Vec3f.dot, frameOptim]) hn rfl)⟩
  norm_num [frameScratch, Vec4f.add, Vec4f.smul]

/-- C12 (counterexample): in the grey scene (orthonormal axes, unit ray, `dscale = 1`,
`ascale = 1`) the position `(1, 0, 0)` off the ray and the unit normal `(0, 0, 1)`, whose
angles are both 0: the normal comes back, the position comes back as `(0, 0, 0)`, at
distance 1 from `coord`, far beyond `1e-5`.  And for the position `(0, 0, 0)` on the ray
and the normal `(2^-12, 0, 1)`, whose squared length computed in binary32 is exactly 1,
`encode` gives the same parameters `(0, 0, 0)`, so the normal comes back as `(0, 0, 1)`,
off by `2^-12 = 2.4e-4`.  In both runs every operation is exact in binary32 as well
(`asin 0 = 0`, `cos 0 = 1`, `acos 1 = 0`, `sin 0 = 0`). -/
theorem encode_decode_counterexample :
    Vec3f.dot (greyOptim.m_xaxes 0) (greyOptim.m_xaxes 0) = 1 ∧
    Vec3f.dot (greyOptim.m_yaxes 0) (greyOptim.m_yaxes 0) = 1 ∧
    Vec3f.dot (greyOptim.m_zaxes 0) (greyOptim.m_zaxes 0) = 1 ∧
    Vec3f.dot (greyOptim.m_xaxes 0) (greyOptim.m_yaxes 0) = 0 ∧
    Vec3f.dot (greyOptim.m_xaxes 0) (greyOptim.m_zaxes 0) = 0 ∧
    Vec3f.dot (greyOptim.m_yaxes 0) (greyOptim.m_zaxes 0) = 0 ∧
    Vec4f.dot (sceneScratch [0]).m_raysT (sceneScratch [0]).m_raysT = 1 ∧
    0 < (sceneScratch [0]).m_dscalesT ∧ 0 < (sceneScratch [0]).m_ascalesT ∧
    Vec3f.dot (proj (⟨0, 0, 1, 0⟩ : Vec4f ℚ)) (proj ⟨0, 0, 1, 0⟩) = 1 ∧
    encode greyOptim (sceneScratch [0]) ⟨1, 0, 0, 1⟩ ⟨0, 0, 1, 0⟩ = (0, 0, 0) ∧
    decode greyOptim (sceneScratch [0]) (encode greyOptim (sceneScratch [0]) ⟨1, 0, 0, 1⟩ ⟨0, 0, 1, 0⟩)
      = (⟨0, 0, 0, 1⟩, ⟨0, 0, 1, 0⟩) ∧
    decode greyOptim (sceneScratch [0]) (encode greyOptim (sceneScratch [0]) ⟨1, 0, 0, 1⟩ ⟨0, 0, 1, 0⟩)
      ≠ (⟨1, 0, 0, 1⟩, ⟨0, 0, 1, 0⟩) ∧
    (1 / 100000 : ℚ) < (⟨1, 0, 0, 1⟩ : Vec4f ℚ).x
      - (decode greyOptim (sceneScratch [0])
          (encode greyOptim (sceneScratch [0]) ⟨1, 0, 0, 1⟩ ⟨0, 0, 1, 0⟩)).1.x ∧
    F32.dot3 ⟨2 ^ 137, 0, F32.one⟩ ⟨2 ^ 137, 0, F32.one⟩ = F32.one ∧
    encode greyOptim (sceneScratch [0]) ⟨0, 0, 0, 1⟩ ⟨1 / 4096, 0, 1, 0⟩ = (0, 0, 0) ∧
    decode greyOptim (sceneScratch [0])
        (encode greyOptim (sceneScratch [0]) ⟨0, 0, 0, 1⟩ ⟨1 / 4096, 0, 1, 0⟩)
      = (⟨0, 0, 0, 1⟩, ⟨0, 0, 1, 0⟩) ∧
    (1 / 100000 : ℚ) < (⟨1 / 4096, 0, 1, 0⟩ : Vec4f ℚ).x
      - (decode greyOptim (sceneScratch [0])
          (encode greyOptim (sceneScratch [0]) ⟨0, 0, 0, 1⟩ ⟨1 / 4096, 0, 1, 0⟩)).2.x := by
  have he : encode greyOptim (sceneScratch [0]) ⟨1, 0, 0, 1⟩ ⟨0, 0, 1, 0⟩ = (0, 0, 0) := by
    norm_num [encode, encodeCoord, proj, Vec3f.dot, Vec4f.dot, Vec4f.sub, greyOptim, sceneOptim,
      sceneScratch, sceneMath]
  have he2 : encode greyOptim (sceneScratch [0]) ⟨0, 0, 0, 1⟩ ⟨1 / 4096, 0, 1, 0⟩ = (0, 0, 0) := by
    norm_num [encode, encodeCoord, proj, Vec3f.dot, Vec4f.dot, Vec4f.sub, greyOptim, sceneOptim,
      sceneScratch, sceneMath]
  have hdec : decode greyOptim (sceneScratch [0]) (0, 0, 0) = (⟨0, 0, 0, 1⟩, ⟨0, 0, 1, 0⟩) := by
    norm_num [decode, decodeCoord, Vec3f.add, Vec3f.smul, Vec4f.add, Vec4f.smul, greyOptim,
      sceneOptim, sceneScratch, sceneMath]
  refine ⟨?_, ?_, ?_, ?_, ?_, ?_, ?_, ?_, ?_, ?_, he, ?_, ?_, ?_, by decide!, he2, ?_, ?_⟩
  · norm_num [Vec3f.dot, greyOptim, sceneOptim]
  · norm_num [Vec3f.dot, greyOptim, sceneOptim]
  · norm_num [Vec3f.dot, greyOptim, sceneOptim]
  · norm_num [Vec3f.dot, greyOptim, sceneOptim]
  · norm_num [Vec3f.dot, greyOptim, sceneOptim]
  · norm_num [Vec3f.dot, greyOptim, sceneOptim]
  · norm_num [Vec4f.dot, sceneScratch]
  · norm_num [sceneScratch]
  · norm_num [sceneScratch]
  · norm_num [Vec3f.dot, proj]
  · rw [he, hdec]
  · rw [he, hdec]
    simp
  · rw [he, hdec]
    norm_num
  · rw [he2, hdec]
  · rw [he2, hdec]
    norm_num

/-- C23 (amended): with the scratch state that `refinePatchBFGS` sets (`center_T =
patch.coord`, `dscale = patch.dscale > 0`, `ascale = M_PI / 48 > 0`),
`encode(patch.coord, patch.normal)` has `p0 = 0` and decoding the encoded parameters
returns `patch.coord`, whatever the math library; with orthonormal axes of the reference
image and the laws of the real `sin`, `cos`, `asin`, `acos` it also returns every unit
`patch.normal`. -/
theorem refine_start_roundtrip (o : Coptim K) (patch : Cpatch K) (hd : 0 < patch.m_dscale) :
    (refineScratch o patch).m_centersT = patch.m_coord ∧
    0 < (refineScratch o patch).m_dscalesT ∧ 0 < (refineScratch o patch).m_ascalesT ∧
    (encode o (refineScratch o patch) patch.m_coord patch.m_normal).1 = 0 ∧
    (decode o (refineScratch o patch)
      (encode o (refineScratch o patch) patch.m_coord patch.m_normal)).1 = patch.m_coord ∧
    (TrigLaws o.math →
      Vec3f.dot (o.m_xaxes (patch.m_images.getD 0 0)) (o.m_xaxes (patch.m_images.getD 0 0)) = 1 →
      Vec3f.dot (o.m_yaxes (patch.m_images.getD 0 0)) (o.m_yaxes (patch.m_images.getD 0 0)) = 1 →
      Vec3f.dot (o.m_zaxes (patch.m_images.getD 0 0)) (o.m_zaxes (patch.m_images.getD 0 0)) = 1 →
      Vec3f.dot (o.m_xaxes (patch.m_images.getD 0 0)) (o.m_yaxes (patch.m_images.getD 0 0)) = 0 →
      Vec3f.dot (o.m_xaxes (patch.m_images.getD 0 0)) (o.m_zaxes (patch.m_images.getD 0 0)) = 0 →
      Vec3f.dot (o.m_yaxes (patch.m_images.getD 0 0)) (o.m_zaxes (patch.m_images.getD 0 0)) = 0 →
      Vec3f.dot (proj patch.m_normal) (proj patch.m_normal) = 1 → patch.m_normal.w = 0 →
      (decode o (refineScratch o patch)
        (encode o (refineScratch o patch) patch.m_coord patch.m_normal)).2 = patch.m_normal) := by
  have h0 : encodeCoord (refineScratch o patch) patch.m_coord = 0 := by
    simp only [encodeCoord, refineScratch, Vec4f.dot, Vec4f.sub, sub_self, zero_mul, add_zero,
      zero_div]
  have hc : decodeCoord (refineScratch o patch) 0 = patch.m_coord := by
    obtain ⟨c, _, _, _, _, _, _, _, _⟩ := patch
    obtain ⟨x, y, z, w⟩ := c
    simp only [decodeCoord, refineScratch, Vec4f.add, Vec4f.smul, mul_zero, zero_mul, add_zero]
  refine ⟨rfl, hd, ascale_pos, h0, ?_, ?_⟩
  · show decodeCoord (refineScratch o patch) (encodeCoord (refineScratch o patch) patch.m_coord)
      = patch.m_coord
    rw [h0, hc]
  · intro hm hxx hyy hzz hxy hxz hyz hn hw
    exact decode_encode_normal o (refineScratch o patch) patch.m_coord patch.m_normal hm
      hxx hyy hzz hxy hxz hyz (ne_of_gt ascale_pos) hn hw

/-- C23 (witness): over the reals, the patch at the origin with the unit normal
`(0, 3/5, 4/5)`. -/
theorem refine_start_roundtrip_witness :
    (0 : ℝ) < (framePatch (⟨0, 3 / 5, 4 / 5, 0⟩ : Vec4f ℝ)).m_dscale ∧
    Vec3f.dot (proj (framePatch (⟨0, 3 / 5, 4 / 5, 0⟩ : Vec4f ℝ)).m_normal)
      (proj (framePatch (⟨0, 3 / 5, 4 / 5, 0⟩ : Vec4f ℝ)).m_normal) = 1 ∧
    (encode (frameOptim ⟨Real.sqrt, Real.sin, Real.cos, Real.arcsin, Real.arccos⟩)
      (refineScratch (frameOptim ⟨Real.sqrt, Real.sin, Real.cos, Real.arcsin, Real.arccos⟩)
        (framePatch ⟨0, 3 / 5, 4 / 5, 0⟩))
      (framePatch (⟨0, 3 / 5, 4 / 5, 0⟩ : Vec4f ℝ)).m_coord
      (framePatch (⟨0, 3 / 5, 4 / 5, 0⟩ : Vec4f ℝ)).m_normal).1 = 0 ∧
    decode (frameOptim ⟨Real.sqrt, Real.sin, Real.cos, Real.arcsin, Real.arccos⟩)
      (refineScratch (frameOptim ⟨Real.sqrt, Real.sin, Real.cos, Real.arcsin, Real.arccos⟩)
        (framePatch ⟨0, 3 / 5, 4 / 5, 0⟩))
      (encode (frameOptim ⟨Real.sqrt, Real.sin, Real.cos, Real.arcsin, Real.arccos⟩)
        (refineScratch (frameOptim ⟨Real.sqrt, Real.sin, Real.cos, Real.arcsin, Real.arccos⟩)
          (framePatch ⟨0, 3 / 5, 4 / 5, 0⟩))
        (framePatch (⟨0, 3 / 5, 4 / 5, 0⟩ : Vec4f ℝ)).m_coord
        (framePatch (⟨0, 3 / 5, 4 / 5, 0⟩ : Vec4f ℝ)).m_normal)
      = (⟨0, 0, 0, 1⟩, ⟨0, 3 / 5, 4 / 5, 0⟩) := by
  have hd : (0 : ℝ) < (framePatch (⟨0, 3 / 5, 4 / 5, 0⟩ : Vec4f ℝ)).m_dscale := by
    norm_num [framePatch]
  have hn : Vec3f.dot (proj (framePatch (⟨0, 3 / 5, 4 / 5, 0⟩ : Vec4f ℝ)).m_normal)
      (proj (framePatch (⟨0, 3 / 5, 4 / 5, 0⟩ : Vec4f ℝ)).m_normal) = 1 := by
    norm_num [Vec3f.dot, proj, framePatch]
  obtain ⟨_, _, _, h0, h1, h2⟩ := refine_start_roundtrip
    (frameOptim ⟨Real.sqrt, Real.sin, Real.cos, Real.arcsin, Real.arccos⟩)
    (framePatch ⟨0, 3 / 5, 4 / 5, 0⟩) hd
  exact ⟨hd, hn, h0, Prod.ext h1
    (h2 real_trigLaws (by norm_num [Vec3f.dot, frameOptim]) (by norm_num [Vec3f.dot, frameOptim])
      (by norm_num [Vec3f.dot, frameOptim]) (by norm_num [Vec3f.dot, frameOptim])
      (by norm_num [Vec3f.dot, frameOptim]) (by norm_num [Vec3f.dot, frameOptim]) hn rfl)⟩

/-- C23 (counterexample): with the values of the binary32 library functions, a patch at
the origin whose unit normal `(0, 1, 0)` lies along the `y` axis of the camera frame
(orthonormal axes, `dscale = 1`): `asinf(-1) = -p` and `cosf(-p) = c` is not 0, so
`encode` does not take the branch `cosb == 0` and gives `(0, p / ascale, -p / ascale)`,
about `(0, 24, -24)`; `decode` then returns the position and the normal
`(c, 1, c²)` with `c = -4.37113883e-8`, not `(0, 1, 0)`. -/
theorem refine_start_libm_counterexample :
    Vec3f.dot ((frameOptim libmMath).m_xaxes 0) ((frameOptim libmMath).m_xaxes 0) = 1 ∧
    Vec3f.dot ((frameOptim libmMath).m_yaxes 0) ((frameOptim libmMath).m_yaxes 0) = 1 ∧
    Vec3f.dot ((frameOptim libmMath).m_zaxes 0) ((frameOptim libmMath).m_zaxes 0) = 1 ∧
    Vec3f.dot ((frameOptim libmMath).m_xaxes 0) ((frameOptim libmMath).m_yaxes 0) = 0 ∧
    Vec3f.dot ((frameOptim libmMath).m_xaxes 0) ((frameOptim libmMath).m_zaxes 0) = 0 ∧
    Vec3f.dot ((frameOptim libmMath).m_yaxes 0) ((frameOptim libmMath).m_zaxes 0) = 0 ∧
    Vec3f.dot (proj (⟨0, 1, 0, 0⟩ : Vec4f ℚ)) (proj ⟨0, 1, 0, 0⟩) = 1 ∧
    encode (frameOptim libmMath) (refineScratch (frameOptim libmMath) (framePatch ⟨0, 1, 0, 0⟩))
        ⟨0, 0, 0, 1⟩ ⟨0, 1, 0, 0⟩
      = (0, 13176795 / 8388608 / (M_PI / 48), -(13176795 / 8388608) / (M_PI / 48)) ∧
    decode (frameOptim libmMath) (refineScratch (frameOptim libmMath) (framePatch ⟨0, 1, 0, 0⟩))
        (encode (frameOptim libmMath)
          (refineScratch (frameOptim libmMath) (framePatch ⟨0, 1, 0, 0⟩)) ⟨0, 0, 0, 1⟩ ⟨0, 1, 0, 0⟩)
      = (⟨0, 0, 0, 1⟩, ⟨-(6151831 / 140737488355328), 1,
          6151831 / 140737488355328 * (6151831 / 140737488355328), 0⟩) ∧
    (⟨-(6151831 / 140737488355328), 1,
        6151831 / 140737488355328 * (6151831 / 140737488355328), 0⟩ : Vec4f ℚ) ≠ ⟨0, 1, 0, 0⟩ := by
  have hs : refineScratch (frameOptim libmMath) (framePatch ⟨0, 1, 0, 0⟩)
      = ⟨⟨0, 0, 0, 1⟩, ⟨0, 0, -1, 0⟩, [0, 1], 1, M_PI / 48, setWeightsT (frameOptim libmMath)
          (framePatch ⟨0, 1, 0, 0⟩)⟩ := by
    simp only [refineScratch, framePatch, frameOptim, frameFm, unitize, norm, Vec4f.sub, Vec4f.dot,
      Vec4f.smul, libmMath]
    norm_num
  have ha : (M_PI : ℚ) / 48 ≠ 0 := ne_of_gt ascale_pos
  have he : encode (frameOptim libmMath)
      (refineScratch (frameOptim libmMath) (framePatch ⟨0, 1, 0, 0⟩)) ⟨0, 0, 0, 1⟩ ⟨0, 1, 0, 0⟩
      = (0, 13176795 / 8388608 / (M_PI / 48), -(13176795 / 8388608) / (M_PI / 48)) := by
    rw [hs]
    norm_num [encode, encodeCoord, proj, Vec3f.dot, Vec4f.dot, Vec4f.sub, frameOptim, libmMath]
  refine ⟨?_, ?_, ?_, ?_, ?_, ?_, ?_, he, ?_, ?_⟩
  · norm_num [Vec3f.dot, frameOptim]
  · norm_num [Vec3f.dot, frameOptim]
  · norm_num [Vec3f.dot, frameOptim]
  · norm_num [Vec3f.dot, frameOptim]
  · norm_num [Vec3f.dot, frameOptim]
  · norm_num [Vec3f.dot, frameOptim]
  · norm_num [Vec3f.dot, proj]
  · rw [he, hs]
    simp only [decode, decodeCoord, div_mul_cancel₀ _ ha]
    norm_num [Vec3f.add, Vec3f.smul, Vec4f.add, Vec4f.smul, frameOptim, libmMath]
  · simp only [ne_eq, Vec4f.mk.injEq, not_and]
    norm_num

/-- C6 (failing input): the covisibility list of image 0 names image 1 twice.  On the list `[0, 1]` the
marks `used` make `addImages` skip image 1 both times; on the duplicate-free list `[0]`
image 1 is not marked when it is appended, so it is appended again: the result is
`[0, 1, 1]`, where the claim has a duplicate-free list. -/
theorem addImages_appends_twice :
    (scenePatch [0]).m_images.Nodup ∧
    repeatOptim.m_fm.m_visdata2 0 = [1, 1] ∧
    addImages repeatOptim (scenePatch [0, 1]) = some [0, 1] ∧
    addImages repeatOptim (scenePatch [0]) = some [0, 1, 1] ∧
    ¬ ([0, 1, 1] : List Int).Nodup := by
  refine ⟨by simp [scenePatch], rfl, ?_, ?_, by decide⟩
  · rw [addImages_eq _ _ (by simp [scenePatch])]
    norm_num [addImagesAccepts, rayDotNormal, unitize, norm, Vec4f.dot, Vec4f.sub, Vec4f.smul,
      repeatOptim, sceneOptim, sceneFm, sceneMath, scenePatch, List.filter_cons]
  · rw [addImages_eq _ _ (by simp [scenePatch])]
    norm_num [addImagesAccepts, rayDotNormal, unitize, norm, Vec4f.dot, Vec4f.sub, Vec4f.smul,
      repeatOptim, sceneOptim, sceneFm, sceneMath, scenePatch, List.filter_cons]

/-- With `minImageNumThreshold = 3` the patch with the two images 0 and 2 is rejected by
`preProcess` at the count test, with the two images still in the list -/
theorem preProcess_strict_pair :
    preProcess strictOptim (scenePatch [0, 2]) = some (1, scenePatch [0, 2]) := by
  have hp : ({ scenePatch [0, 2] with m_images := [0, 2] } : Cpatch ℚ) = scenePatch [0, 2] := rfl
  have ha : addImages strictOptim (scenePatch [0, 2]) = some [0, 2] := by
    simp [addImages, strictOptim, sceneOptim, sceneFm, scenePatch]
  have hthr : strictOptim.m_fm.m_nccThresholdBefore = 1 / 2 := rfl
  have hc : constraintImages strictOptim (scenePatch [0, 2]) (1 / 2) = some [0, 2] :=
    constraintImages_grey_pair
  have hs : sortImages strictOptim (scenePatch [0, 2]) = [0, 2] := sortImages_grey_pair
  simp only [preProcess, ha, hthr, Option.some_bind, hp, hc, hs]
  simp [strictOptim, sceneOptim, sceneFm, scenePatch]

/-- C7 (failing input): with `minImageNumThreshold = 3`, `postProcess` and `preProcess` both return 1 on
the patch with the two images 0 and 2 at their count tests, and the list on return is
still `[0, 2]`, not empty: these exits return without the `clear()` that the
`checkAngles` exit and `check` perform. -/
theorem reject_keeps_images :
    strictOptim.m_fm.m_minImageNumThreshold = 3 ∧
    postProcess strictOptim (scenePatch [0, 2]) = some (1, scenePatch [0, 2]) ∧
    preProcess strictOptim (scenePatch [0, 2]) = some (1, scenePatch [0, 2]) ∧
    (scenePatch [0, 2]).m_images = [0, 2] ∧ (scenePatch [0, 2]).m_images ≠ [] :=
  ⟨rfl, postProcess_strict_pair, preProcess_strict_pair, rfl, by simp [scenePatch]⟩

/-- C17 (witness): the windows `(3, 3, 3), (1, 1, 1)` and `(5, 1, 3), (3, 3, 1)`, neither
constant, both of variance 1: normalised they are `(1, 1, 1), (-1, -1, -1)` and
`(1, -1, 1), (-1, 1, -1)`, and their inner product is 1/3 in either order. -/
theorem dot_normalize_symm_witness :
    ([3, 3, 3, 1, 1, 1] : List ℚ).length = ([5, 1, 3, 3, 3, 1] : List ℚ).length ∧
    normalize sceneMath [3, 3, 3, 1, 1, 1] = [1, 1, 1, -1, -1, -1] ∧
    normalize sceneMath [5, 1, 3, 3, 3, 1] = [1, -1, 1, -1, 1, -1] ∧
    dot (normalize sceneMath [3, 3, 3, 1, 1, 1]) (normalize sceneMath [5, 1, 3, 3, 3, 1])
      = some (1 / 3) ∧
    dot (normalize sceneMath [3, 3, 3, 1, 1, 1]) (normalize sceneMath [5, 1, 3, 3, 3, 1]) =
      dot (normalize sceneMath [5, 1, 3, 3, 3, 1]) (normalize sceneMath [3, 3, 3, 1, 1, 1]) := by
  have h2 : List.range 2 = [0, 1] := by decide
  have h6 : List.range 6 = [0, 1, 2, 3, 4, 5] := by decide
  have ha : normalize sceneMath [3, 3, 3, 1, 1, 1] = [1, 1, 1, -1, -1, -1] := by
    simp [normalize, channelSum, h2, h6, sceneMath]
    norm_num
  have hb : normalize sceneMath [5, 1, 3, 3, 3, 1] = [1, -1, 1, -1, 1, -1] := by
    simp [normalize, channelSum, h2, h6, sceneMath]
    norm_num
  refine ⟨rfl, ha, hb, ?_, dot_normalize_symm sceneMath [3, 3, 3, 1, 1, 1] [5, 1, 3, 3, 3, 1] rfl⟩
  rw [ha, hb]
  simp only [dot, List.length_cons, List.length_nil, h6]
  norm_num

/-- The axes and the pixel scale that `setAxesScales` computes for the images of
`mirrorFm`: image 2 has the pixel scale `-2`, the others `2` -/
theorem setAxesScales_mirror (i : Int) :
    setAxesScales mirrorFm sceneMath i
      = (⟨1, 0, 0⟩, ⟨0, -1, 0⟩, ⟨0, 0, -1⟩, if i = 2 then -2 else 2) := by
  by_cases h : i = 2
  · subst h
    norm_num [setAxesScales, unitize3, norm3, cross, Vec3f.dot, Vec3f.smul, Vec4f.dot, Vec4f.xyz,
      mirrorFm, greyOptim, sceneOptim, sceneFm, sceneMath]
  · norm_num [setAxesScales, unitize3, norm3, cross, Vec3f.dot, Vec3f.smul, Vec4f.dot, Vec4f.xyz,
      mirrorFm, greyOptim, sceneOptim, sceneFm, sceneMath, h]

/-- The candidates of `computeUnits` for the images 0 and 2 of the mirrored scene: the
unit of image 2 is negative -/
theorem computeUnits_mirror_pair :
    computeUnits mirrorOptim (scenePatch [0, 2]) =
      [(0, 1, ⟨0, 0, 1, 0⟩), (2, -1, ⟨0, 0, 1, 0⟩)] := by
  have h0 : mirrorOptim.m_ipscales 0 = 2 := by
    show (setAxesScales mirrorFm sceneMath 0).2.2.2 = 2
    rw [setAxesScales_mirror]; norm_num
  have h2 : mirrorOptim.m_ipscales 2 = -2 := by
    show (setAxesScales mirrorFm sceneMath 2).2.2.2 = -2
    rw [setAxesScales_mirror]; norm_num
  have hl : mirrorOptim.m_fm.m_level = 0 := rfl
  have hm : mirrorOptim.math = sceneMath := rfl
  have hc : ∀ i, mirrorOptim.m_fm.m_center i = ⟨0, 0, 1, 1⟩ := fun _ => rfl
  simp only [computeUnits, getUnit, h0, h2, hl, hm, hc, scenePatch, List.filterMap_cons,
    List.filterMap_nil]
  norm_num [unitize, norm, Vec4f.dot, Vec4f.sub, Vec4f.smul, sceneMath]

/-- In the mirrored scene `sortImages` puts image 2 before the reference image 0 -/
theorem sortImages_mirror_pair : sortImages mirrorOptim (scenePatch [0, 2]) = [2, 0] := by
  have h1 : List.range 1 = [0] := by decide
  have h2 : List.range 2 = [0, 1] := by decide
  have hm : mirrorOptim.math = sceneMath := rfl
  simp only [sortImages, computeUnits_mirror_pair, hm]
  norm_num [sortImagesLoop, minElement, List.enum, List.enumFrom, h1, h2, Vec4f.dot,
    sceneMath, M_PI]

/-- In the mirrored scene `preProcess` accepts the patch with images 0 and 2 and returns
it with the list `[2, 0]` -/
theorem preProcess_mirror_pair :
    preProcess mirrorOptim (scenePatch [0, 2]) = some (0, scenePatch [2, 0]) := by
  have hp : ({ scenePatch [0, 2] with m_images := [0, 2] } : Cpatch ℚ) = scenePatch [0, 2] := rfl
  have ha : addImages mirrorOptim (scenePatch [0, 2]) = some [0, 2] := by
    simp [addImages, mirrorOptim, mirrorFm, greyOptim, sceneOptim, sceneFm, scenePatch]
  have hthr : mirrorOptim.m_fm.m_nccThresholdBefore = 1 / 2 := rfl
  have hst : sampleTexs mirrorOptim (scenePatch [0, 2]) [0, 2] =
      [[1, 1, 1, 1, 1, 1, -1, -1, -1, -1, -1, -1], [1, 1, 1, 1, 1, 1, -1, -1, -1, -1, -1, -1]] := by
    have e1 := normalize_grey 1 1 (-1) (-1) (by norm_num) (by norm_num) (by norm_num)
      (by norm_num) (by norm_num)
    simp [sampleTexs, grabNormalized, mirrorOptim, greyOptim, sceneOptim, greyTex, e1]
  have hc : constraintImages mirrorOptim (scenePatch [0, 2]) (1 / 2) = some [0, 2] := by
    have h2 : List.range 2 = [0, 1] := by decide
    have hi : (scenePatch [0, 2]).m_images = [0, 2] := rfl
    simp only [constraintImages, hi, setINCCs, hst]
    simp [inccsOfTexs, inccOf, dot_grey, h2, Fval.lt, List.range']
    norm_num
  simp only [preProcess, ha, hthr, Option.some_bind, hp, hc, sortImages_mirror_pair]
  simp [mirrorOptim, mirrorFm, greyOptim, sceneOptim, sceneFm, scenePatch]

/-- C21 (failing input): `sortImages` does not always keep the reference in front, although it sets
`units[0] = 0` to pin it.  With camera 0 behind the patch, `computeUnits` skips image 0
and the images `[0, 1, 2]` become `[1, 2]`.  With the mirrored image 2, whose pixel scale
from `setAxesScales` is `-2`, the unit of image 2 is `-1`, below the pinned 0: the images
`[0, 2]` become `[2, 0]`, also through `preProcess`, which accepts the patch. -/
theorem sortImages_loses_reference :
    sortImages backOptim (scenePatch [0, 1, 2]) = [1, 2] ∧
    (sortImages backOptim (scenePatch [0, 1, 2])).head? ≠ (scenePatch [0, 1, 2]).m_images.head? ∧
    (setAxesScales mirrorFm sceneMath 2).2.2.2 = -2 ∧
    computeUnits mirrorOptim (scenePatch [0, 2]) = [(0, 1, ⟨0, 0, 1, 0⟩), (2, -1, ⟨0, 0, 1, 0⟩)] ∧
    sortImages mirrorOptim (scenePatch [0, 2]) = [2, 0] ∧
    (sortImages mirrorOptim (scenePatch [0, 2])).head? ≠ (scenePatch [0, 2]).m_images.head? ∧
    preProcess mirrorOptim (scenePatch [0, 2]) = some (0, scenePatch [2, 0]) := by
  have hc : computeUnits backOptim (scenePatch [0, 1, 2]) =
      [(1, 2, ⟨0, 0, 1, 0⟩), (2, 2, ⟨0, 0, 1, 0⟩)] := by
    norm_num [computeUnits, getUnit, unitize, norm, Vec4f.dot, Vec4f.sub, Vec4f.smul,
      backOptim, greyOptim, sceneOptim, sceneFm, sceneMath, scenePatch, List.filterMap_cons]
  have h1 : List.range 1 = [0] := by decide
  have h2 : List.range 2 = [0, 1] := by decide
  have hs : sortImages backOptim (scenePatch [0, 1, 2]) = [1, 2] := by
    simp only [sortImages, hc]
    norm_num [sortImagesLoop, minElement, List.enum, List.enumFrom, h1, h2, Vec4f.dot,
      backOptim, greyOptim, sceneOptim, sceneMath, M_PI]
  refine ⟨hs, ?_, ?_, computeUnits_mirror_pair, sortImages_mirror_pair, ?_,
    preProcess_mirror_pair⟩
  · rw [hs]
    simp [scenePatch]
  · rw [setAxesScales_mirror]
    norm_num
  · rw [sortImages_mirror_pair]
    simp [scenePatch]

/-- The lookup `MyPow2(x)` leaves its table exactly when `x < -4` or `x > 10` -/
theorem MyPow2_none_iff (x : Int) : MyPow2 (K := K) x = none ↔ x < -4 ∨ 10 < x := by
  constructor
  · intro h
    by_contra hc
    push_neg at hc
    rw [MyPow2_eq x hc.1 hc.2] at h
    exact Option.some_ne_none _ h
  · intro h
    unfold MyPow2
    split_ifs with h1
    · rfl
    · have hlen : (MyPow2Table (K := K)).length = 15 := rfl
      rw [List.get?_eq_none]
      rw [hlen]
      omega

/-- The window of `grabTex` is undefined exactly when the clamped level difference is
below `-4`, where `MyPow2` reads before its table -/
theorem grabWindow_none_iff (o : Coptim K) (sm : Sampler K) (coord pxaxis pyaxis : Vec4f K)
    (index : Int) :
    grabWindow o sm coord pxaxis pyaxis index = none ↔
      clampLevelDif o.m_fm.m_level (sm.roundLog2
        ((norm3 o.math (Vec3f.sub (o.m_fm.project index (Vec4f.add coord pxaxis) o.m_fm.m_level)
            (o.m_fm.project index coord o.m_fm.m_level))
          + norm3 o.math (Vec3f.sub (o.m_fm.project index (Vec4f.add coord pyaxis) o.m_fm.m_level)
            (o.m_fm.project index coord o.m_fm.m_level))) / 2)) < -4 := by
  unfold grabWindow
  simp only [Option.map_eq_none', MyPow2_none_iff]
  constructor
  · rintro (h | h)
    · exact h
    · have := (clampLevelDif_range o.m_fm.m_level (sm.roundLog2
        ((norm3 o.math (Vec3f.sub (o.m_fm.project index (Vec4f.add coord pxaxis) o.m_fm.m_level)
            (o.m_fm.project index coord o.m_fm.m_level))
          + norm3 o.math (Vec3f.sub (o.m_fm.project index (Vec4f.add coord pyaxis) o.m_fm.m_level)
            (o.m_fm.project index coord o.m_fm.m_level))) / 2))).2
      omega
  · intro h
    exact Or.inl h

/-- The call `grabTex` is undefined exactly when it passes the angle test and its window
is undefined -/
theorem grabTex_none_iff (o : Coptim K) (sm : Sampler K) (coord pxaxis pyaxis pzaxis : Vec4f K)
    (index size : Int) :
    grabTex o sm coord pxaxis pyaxis pzaxis index size = none ↔
      (¬ max 0 (Vec4f.dot (unitize o.math (Vec4f.sub (o.m_fm.m_center index) coord)) pzaxis)
          < o.math.cos o.m_fm.m_angleThreshold1) ∧
      grabWindow o sm coord pxaxis pyaxis index = none := by
  unfold grabTex
  simp only
  split_ifs with hw
  · simp [hw]
  · simp [hw]

/-- The window of the scene at level 5 -/
theorem grabWindow_deep :
    grabWindow deepOptim deepSampler ⟨0, 0, 0, 1⟩ ⟨1, 0, 0, 0⟩ ⟨0, 1, 0, 0⟩ 0 = none := by
  have hn1 : norm3 deepOptim.math ⟨1 / 64, 0, 0⟩ = 1 / 64 := by
    norm_num [norm3, Vec3f.dot, deepOptim]
  have hn2 : norm3 deepOptim.math ⟨0, 1 / 64, 0⟩ = 1 / 64 := by
    norm_num [norm3, Vec3f.dot, deepOptim]
  have hl : deepOptim.m_fm.m_level = 5 := rfl
  have hp : MyPow2 (K := ℚ) (-5) = none := by simp [MyPow2]
  have hc : clampLevelDif 5 (-6) = -5 := by decide
  have hdx : Vec3f.sub (deepOptim.m_fm.project 0 (Vec4f.add ⟨0, 0, 0, 1⟩ ⟨1, 0, 0, 0⟩) 5)
      (deepOptim.m_fm.project 0 ⟨0, 0, 0, 1⟩ 5) = ⟨1 / 64, 0, 0⟩ := by
    norm_num [Vec3f.sub, Vec4f.add, deepOptim]
  have hdy : Vec3f.sub (deepOptim.m_fm.project 0 (Vec4f.add ⟨0, 0, 0, 1⟩ ⟨0, 1, 0, 0⟩) 5)
      (deepOptim.m_fm.project 0 ⟨0, 0, 0, 1⟩ 5) = ⟨0, 1 / 64, 0⟩ := by
    norm_num [Vec3f.sub, Vec4f.add, deepOptim]
  simp only [grabWindow, hl, hdx, hdy, hn1, hn2]
  norm_num [deepSampler, hc, hp]

/-- The angle test of `grabTex` passes in the scene at level 5 -/
theorem grabTex_deep_weight :
    ¬ max 0 (Vec4f.dot (unitize deepOptim.math
        (Vec4f.sub (deepOptim.m_fm.m_center 0) ⟨0, 0, 0, 1⟩)) ⟨0, 0, 1, 0⟩)
      < deepOptim.math.cos deepOptim.m_fm.m_angleThreshold1 := by
  norm_num [unitize, norm, Vec4f.dot, Vec4f.sub, Vec4f.smul, deepOptim, greyOptim, sceneOptim,
    sceneFm, sceneMath]

/-- C27 (failing input): at level 5, with one unit along a patch axis projecting to 1/64 pixel, `grabTex`
computes `ratio = 1/64` and `leveldif = -5`, inside the clamp range `[-level, 2]`, and
passes on the pyramid level `5 - 5 = 0`, inside `[0, level + 2]`; but `MyPow2(-5)` reads
`answers[-1]`, before its table, whose first entry is `2^-4`: the scale by which `center`,
`dx`, `dy` are divided is not `2^leveldif` but whatever lies before the table, and the
window and the call have no defined result. -/
theorem grabTex_level_out_of_table :
    deepOptim.m_fm.m_level = 5 ∧
    (0 : ℚ) < (norm3 deepOptim.math ⟨1 / 64, 0, 0⟩ + norm3 deepOptim.math ⟨0, 1 / 64, 0⟩) / 2 ∧
    clampLevelDif deepOptim.m_fm.m_level
      (deepSampler.roundLog2
        ((norm3 deepOptim.math ⟨1 / 64, 0, 0⟩ + norm3 deepOptim.math ⟨0, 1 / 64, 0⟩) / 2)) = -5 ∧
    -(deepOptim.m_fm.m_level : Int) ≤ -5 ∧ (-5 : Int) ≤ 2 ∧
    (0 : Int) ≤ (deepOptim.m_fm.m_level : Int) + -5 ∧
    MyPow2 (K := ℚ) (-4) = some (1 / 16) ∧
    MyPow2 (K := ℚ) (-5) = none ∧
    grabWindow deepOptim deepSampler ⟨0, 0, 0, 1⟩ ⟨1, 0, 0, 0⟩ ⟨0, 1, 0, 0⟩ 0 = none ∧
    grabTex deepOptim deepSampler ⟨0, 0, 0, 1⟩ ⟨1, 0, 0, 0⟩ ⟨0, 1, 0, 0⟩ ⟨0, 0, 1, 0⟩ 0 2 = none := by
  have hn1 : norm3 deepOptim.math ⟨1 / 64, 0, 0⟩ = 1 / 64 := by
    norm_num [norm3, Vec3f.dot, deepOptim]
  have hn2 : norm3 deepOptim.math ⟨0, 1 / 64, 0⟩ = 1 / 64 := by
    norm_num [norm3, Vec3f.dot, deepOptim]
  have hl : deepOptim.m_fm.m_level = 5 := rfl
  refine ⟨hl, by rw [hn1, hn2]; norm_num, ?_, by rw [hl]; norm_num, by norm_num,
    by rw [hl]; norm_num, by simp [MyPow2, MyPow2Table], by simp [MyPow2], grabWindow_deep,
    (grabTex_none_iff _ _ _ _ _ _ _ _).2 ⟨grabTex_deep_weight, grabWindow_deep⟩⟩
  rw [hn1, hn2, hl]
  norm_num [deepSampler, clampLevelDif]

/-- C28: for a window of size at least 1, `grabTex` has no defined result exactly when it
passes the angle test and the clamped level difference is below `-4`, where `MyPow2` reads
before its table and the window is divided by what lies there; in every other run that
returns 0 the buffer has length `3 · size · size` and every sample position given to
`getColor` is `center + (x − size/2) · dx + (y − size/2) · dy` with `3 ≤ u < width − 4`
and `3 ≤ v < height − 4` at the chosen level. -/
theorem grabTex_samples_inside (o : Coptim K) (sm : Sampler K)
    (coord pxaxis pyaxis pzaxis : Vec4f K) (index size : Int) (hsize : 1 ≤ size) :
    (grabTex o sm coord pxaxis pyaxis pzaxis index size = none ↔
      (¬ max 0 (Vec4f.dot (unitize o.math (Vec4f.sub (o.m_fm.m_center index) coord)) pzaxis)
          < o.math.cos o.m_fm.m_angleThreshold1) ∧
      clampLevelDif o.m_fm.m_level (sm.roundLog2
        ((norm3 o.math (Vec3f.sub (o.m_fm.project index (Vec4f.add coord pxaxis) o.m_fm.m_level)
            (o.m_fm.project index coord o.m_fm.m_level))
          + norm3 o.math (Vec3f.sub (o.m_fm.project index (Vec4f.add coord pyaxis) o.m_fm.m_level)
            (o.m_fm.project index coord o.m_fm.m_level))) / 2)) < -4) ∧
    ∀ tex, grabTex o sm coord pxaxis pyaxis pzaxis index size = some (0, tex) →
    ∃ center dx dy newlevel,
      grabWindow o sm coord pxaxis pyaxis index = some (center, dx, dy, newlevel) ∧
      tex.length = 3 * size.toNat * size.toNat ∧
      tex = grabColors sm index
        (Vec3f.sub (Vec3f.sub center (Vec3f.smul ((Int.tdiv size 2 : Int) : K) dx))
          (Vec3f.smul ((Int.tdiv size 2 : Int) : K) dy)) dx dy size.toNat newlevel ∧
      ∀ x y : Nat, x < size.toNat → y < size.toNat →
        samplePos (Vec3f.sub (Vec3f.sub center (Vec3f.smul ((Int.tdiv size 2 : Int) : K) dx))
            (Vec3f.smul ((Int.tdiv size 2 : Int) : K) dy)) dx dy x y
          = Vec3f.add (Vec3f.add center
              (Vec3f.smul ((((x : Int) - Int.tdiv size 2 : Int) : K)) dx))
              (Vec3f.smul ((((y : Int) - Int.tdiv size 2 : Int) : K)) dy) ∧
        3 ≤ (samplePos (Vec3f.sub (Vec3f.sub center (Vec3f.smul ((Int.tdiv size 2 : Int) : K) dx))
            (Vec3f.smul ((Int.tdiv size 2 : Int) : K) dy)) dx dy x y).x ∧
        (samplePos (Vec3f.sub (Vec3f.sub center (Vec3f.smul ((Int.tdiv size 2 : Int) : K) dx))
            (Vec3f.smul ((Int.tdiv size 2 : Int) : K) dy)) dx dy x y).x
          < ((o.m_fm.getWidth index newlevel.toNat - 4 : Int) : K) ∧
        3 ≤ (samplePos (Vec3f.sub (Vec3f.sub center (Vec3f.smul ((Int.tdiv size 2 : Int) : K) dx))
            (Vec3f.smul ((Int.tdiv size 2 : Int) : K) dy)) dx dy x y).y ∧
        (samplePos (Vec3f.sub (Vec3f.sub center (Vec3f.smul ((Int.tdiv size 2 : Int) : K) dx))
            (Vec3f.smul ((Int.tdiv size 2 : Int) : K) dy)) dx dy x y).y
          < ((o.m_fm.getHeight index newlevel.toNat - 4 : Int) : K) := by
  refine ⟨?_, fun tex h => grabTex_inside o sm coord pxaxis pyaxis pzaxis index size tex hsize h⟩
  rw [grabTex_none_iff, grabWindow_none_iff]

/-- C28 (witness): the scene at level 5 with a 7 × 7 window, where `grabTex` has no
defined result, and the one-pixel-per-unit scene with a 2 × 2 window, where every sample
lies inside the image. -/
theorem grabTex_samples_inside_witness :
    (1 : Int) ≤ 7 ∧ (1 : Int) ≤ 2 ∧
    grabTex deepOptim deepSampler ⟨0, 0, 0, 1⟩ ⟨1, 0, 0, 0⟩ ⟨0, 1, 0, 0⟩ ⟨0, 0, 1, 0⟩ 0 7 = none ∧
    grabTex flatOptim flatSampler ⟨0, 0, 0, 1⟩ ⟨1, 0, 0, 0⟩ ⟨0, 1, 0, 0⟩ ⟨0, 0, 1, 0⟩ 0 2
      = some (0, [0, 0, 0, 0, 0, 0, 0, 0, 0, 0, 0, 0]) ∧
    ∃ center dx dy newlevel,
      grabWindow flatOptim flatSampler ⟨0, 0, 0, 1⟩ ⟨1, 0, 0, 0⟩ ⟨0, 1, 0, 0⟩ 0
        = some (center, dx, dy, newlevel) ∧
      ([0, 0, 0, 0, 0, 0, 0, 0, 0, 0, 0, 0] : List ℚ).length = 3 * (2 : Int).toNat * (2 : Int).toNat ∧
      ∀ x y : Nat, x < (2 : Int).toNat → y < (2 : Int).toNat →
        3 ≤ (samplePos (Vec3f.sub (Vec3f.sub center (Vec3f.smul ((Int.tdiv 2 2 : Int) : ℚ) dx))
            (Vec3f.smul ((Int.tdiv 2 2 : Int) : ℚ) dy)) dx dy x y).x ∧
        (samplePos (Vec3f.sub (Vec3f.sub center (Vec3f.smul ((Int.tdiv 2 2 : Int) : ℚ) dx))
            (Vec3f.smul ((Int.tdiv 2 2 : Int) : ℚ) dy)) dx dy x y).x
          < ((flatOptim.m_fm.getWidth 0 newlevel.toNat - 4 : Int) : ℚ) := by
  have hdeep : grabTex deepOptim deepSampler ⟨0, 0, 0, 1⟩ ⟨1, 0, 0, 0⟩ ⟨0, 1, 0, 0⟩ ⟨0, 0, 1, 0⟩ 0 7
      = none :=
    (grabTex_samples_inside deepOptim deepSampler ⟨0, 0, 0, 1⟩ ⟨1, 0, 0, 0⟩ ⟨0, 1, 0, 0⟩
      ⟨0, 0, 1, 0⟩ 0 7 (by decide)).1.2
      ⟨grabTex_deep_weight, (grabWindow_none_iff _ _ _ _ _ _).1 grabWindow_deep⟩
  refine ⟨by decide, by decide, hdeep, grabTex_flat, ?_⟩
  obtain ⟨center, dx, dy, newlevel, hw, hl, _, hs⟩ :=
    (grabTex_samples_inside flatOptim flatSampler ⟨0, 0, 0, 1⟩ ⟨1, 0, 0, 0⟩ ⟨0, 1, 0, 0⟩
      ⟨0, 0, 1, 0⟩ 0 2 (by decide)).2 _ grabTex_flat
  exact ⟨center, dx, dy, newlevel, hw, hl, fun x y hx hy =>
    ⟨(hs x y hx hy).2.1, (hs x y hx hy).2.2.1⟩⟩

/-- C29: a patch enters `postProcess` with `images[0] < tnum` and
`minImageNumThreshold ≥ 1`.  Either `postProcess` returns 1 at its first two tests, before
any call; or `addImages` and the first `constraintImages` are called on non-empty lists
and are defined, and then either `postProcess` returns 1 at the count test after
`filterImagesByAngle`, or `setRefImage` is called on a non-empty list that holds a
target-range image.  In that case the only run without a defined result is the one in
which no row sum is below `INT_MAX/2` and `setRefImage` reads `indexes[-1]`, not an empty
list; otherwise `setRefImage` returns a non-empty list, the `constraintImages` call after
it is defined, and `postProcess` returns what its last count test and its tail give. -/
theorem postProcess_no_empty_access (o : Coptim K) (patch : Cpatch K) (x : Int)
    (hhead : patch.m_images.head? = some x) (hx : x < o.m_fm.m_tnum)
    (hmin : 1 ≤ o.m_fm.m_minImageNumThreshold) :
    (((patch.m_images.length : Int) < o.m_fm.m_minImageNumThreshold ∨
        o.m_fm.getMask patch.m_coord o.m_fm.m_level = 0 ∨ o.m_fm.insideBimages patch.m_coord = 0) ∧
      postProcess o patch = some (1, patch)) ∨
    ∃ images1 images2, patch.m_images ≠ [] ∧
      addImages o patch = some images1 ∧ images1 ≠ [] ∧
      constraintImages o { patch with m_images := images1 } o.m_fm.m_nccThreshold = some images2 ∧
      ((((filterImagesByAngle o { patch with m_images := images2 }).length : Int)
            < o.m_fm.m_minImageNumThreshold ∧
          postProcess o patch = some (1, { patch with
            m_images := filterImagesByAngle o { patch with m_images := images2 } })) ∨
        (filterImagesByAngle o { patch with m_images := images2 } ≠ [] ∧
          targetImages o { patch with
            m_images := filterImagesByAngle o { patch with m_images := images2 } } ≠ [] ∧
          ((setRefImage o { patch with
                m_images := filterImagesByAngle o { patch with m_images := images2 } } = none ∧
              postProcess o patch = none) ∨
            ∃ images3 images4,
              setRefImage o { patch with
                m_images := filterImagesByAngle o { patch with m_images := images2 } }
                  = some images3 ∧ images3 ≠ [] ∧
              constraintImages o { patch with m_images := images3 } o.m_fm.m_nccThreshold
                = some images4 ∧
              postProcess o patch =
                some (if (images4.length : Int) < o.m_fm.m_minImageNumThreshold
                  then (1, { patch with m_images := images4 })
                  else postProcessTail o { patch with m_images := images4 })))) := by
  by_cases h1 : (patch.m_images.length : Int) < o.m_fm.m_minImageNumThreshold
  · left
    refine ⟨Or.inl h1, ?_⟩
    simp only [postProcess, h1, if_true]
  by_cases h2 : o.m_fm.getMask patch.m_coord o.m_fm.m_level = 0 ∨ o.m_fm.insideBimages patch.m_coord = 0
  · left
    refine ⟨Or.inr h2, ?_⟩
    simp only [postProcess, h1, h2, if_true, if_false]
  right
  obtain ⟨images1, ha, hh1⟩ := addImages_head o patch x hhead
  have hne1 : images1 ≠ [] := ne_nil_of_head _ x hh1
  obtain ⟨images2, hc, _, _, _, hh2⟩ :=
    constraintImages_char o { patch with m_images := images1 } o.m_fm.m_nccThreshold hne1
  have hx2 : images2.head? = some x := by rw [hh2]; exact hh1
  refine ⟨images1, images2, ne_nil_of_head _ x hhead, ha, hne1, hc, ?_⟩
  by_cases h3 : ((filterImagesByAngle o { patch with m_images := images2 }).length : Int)
      < o.m_fm.m_minImageNumThreshold
  · left
    refine ⟨h3, ?_⟩
    simp only [postProcess, h1, h2, if_false, ha, Option.some_bind, hc, h3, if_true]
  right
  have hne3 : filterImagesByAngle o { patch with m_images := images2 } ≠ [] := by
    intro h
    rw [h] at h3
    simp only [List.length_nil, Nat.cast_zero, not_lt] at h3
    omega
  have hx3 : (filterImagesByAngle o { patch with m_images := images2 }).head? = some x := by
    rw [filterImagesByAngle_head o _ hne3]; exact hx2
  have htar : targetImages o { patch with
      m_images := filterImagesByAngle o { patch with m_images := images2 } } ≠ [] := by
    intro h
    have : x ∈ targetImages o { patch with
        m_images := filterImagesByAngle o { patch with m_images := images2 } } := by
      simp only [targetImages]
      exact List.mem_filter.2 ⟨List.mem_of_mem_head? hx3, by simpa using hx⟩
    rw [h] at this
    simp at this
  refine ⟨hne3, htar, ?_⟩
  cases hs : setRefImage o { patch with
      m_images := filterImagesByAngle o { patch with m_images := images2 } } with
  | none =>
    left
    refine ⟨rfl, ?_⟩
    simp only [postProcess, h1, h2, if_false, ha, Option.some_bind, hc, h3, hs, Option.none_bind]
  | some images3 =>
    right
    have hne4 : images3 ≠ [] := by
      rcases setRefImage_some o _ _ hs with ⟨_, hnil⟩ | ⟨hperm, _⟩
      · exact absurd hnil htar
      · intro h
        rw [h] at hperm
        exact hne3 (List.Perm.nil_eq hperm).symm
    obtain ⟨images4, hc4, _⟩ :=
      constraintImages_char o { patch with m_images := images3 } o.m_fm.m_nccThreshold hne4
    refine ⟨images3, images4, rfl, hne4, hc4, ?_⟩
    simp only [postProcess, h1, h2, if_false, ha, Option.some_bind, hc, h3, hs, hc4]
    split_ifs <;> rfl

/-- C29 (witness): the patch with images 0 and 2 of the grey scene, which passes the
first two tests of `postProcess`: `addImages` and `constraintImages` are called on
non-empty lists. -/
theorem postProcess_no_empty_access_witness :
    (scenePatch [0, 2]).m_images.head? = some 0 ∧ (0 : Int) < greyOptim.m_fm.m_tnum ∧
    1 ≤ greyOptim.m_fm.m_minImageNumThreshold ∧
    postProcess greyOptim (scenePatch [0, 2]) = some (0, { scenePatch [0, 2] with m_timages := 2 }) ∧
    ∃ images1 images2, addImages greyOptim (scenePatch [0, 2]) = some images1 ∧ images1 ≠ [] ∧
      constraintImages greyOptim { scenePatch [0, 2] with m_images := images1 }
        greyOptim.m_fm.m_nccThreshold = some images2 ∧
      filterImagesByAngle greyOptim { scenePatch [0, 2] with m_images := images2 } ≠ [] ∧
      ∃ images3, setRefImage greyOptim { scenePatch [0, 2] with
          m_images := filterImagesByAngle greyOptim { scenePatch [0, 2] with m_images := images2 } }
            = some images3 ∧ images3 ≠ [] := by
  have ht : (0 : Int) < greyOptim.m_fm.m_tnum := by simp [greyOptim, sceneOptim, sceneFm]
  have hm : 1 ≤ greyOptim.m_fm.m_minImageNumThreshold := by simp [greyOptim, sceneOptim, sceneFm]
  refine ⟨rfl, ht, hm, postProcess_grey_pair, ?_⟩
  rcases postProcess_no_empty_access greyOptim (scenePatch [0, 2]) 0 rfl ht hm with
    ⟨_, h⟩ | ⟨images1, images2, _, ha, hne1, hc, hrest⟩
  · rw [postProcess_grey_pair] at h
    simp at h
  · refine ⟨images1, images2, ha, hne1, hc, ?_⟩
    rcases hrest with ⟨_, h⟩ | ⟨hne3, _, hrest2⟩
    · rw [postProcess_grey_pair] at h
      simp at h
    · refine ⟨hne3, ?_⟩
      rcases hrest2 with ⟨_, h⟩ | ⟨images3, _, hs, hne4, _⟩
      · rw [postProcess_grey_pair] at h
        simp at h
      · exact ⟨images3, hs, hne4⟩

end

end PMVS3
